import Mathlib

/-!
# KILT inference dispatch core (`devices/qaic/device.h`)

A shallow embedding of the per-device dispatch pipeline: the ring buffer of
payload slots, the admission queue behind `Device::Inference`, the scheduler
loop `Device::QueueScheduler`, the enqueue shim `Device::EnqueueShim` and the
completion dispatcher `Device::PostResults`; of the CPU pinning done by
`Device::Construct` and `Device::DeviceInit`; and of the object-detection
model adapter (`benchmark_impl.h`): `configureWorkload` and
`postprocessResults`.

Conventions of the embedding.

* C++ `int` values are integers (`Int`) in the range `-2^31 .. 2^31 - 1`.  An
  `int` computation that can leave this range is reduced modulo `2^32`
  (`wrapInt`), which is what the compiled code produces (the C++ standard
  leaves signed overflow undefined): the sum `sfront + samples_queue_depth`
  and the return expression of `Device::Inference`, and the array length
  `(getMaxDetections() + 1) * 7` of `ResultData`.  The other `int` operations
  of the dispatch core act on values for which they cannot leave the range:
  in every state reached from `DeviceInit`, `0 ≤ sfront ≤ sback < 2^31`
  (`exec_counters_in_range`).
* A `Payload<Sample>*` is modelled by the record it points to, `none` being
  `nullptr`.  The identity fields `device`, `activation`, `set` are written once
  by the `RingBuffer` constructor; `samples` is written by the scheduler
  after the slot has been taken out of its ring buffer.  The back pointer
  `dptr` always designates the one device of the model and is left out.
* Operations whose C++ behaviour is undefined (index out of range, `%` by
  zero, dereferencing `nullptr`) return a fault instead of a value.
* The build modelled is the one the header selects: `NO_QAIC` and
  `ENQUEUE_SHIM_THREADED` are not defined, so the scheduler calls the shim
  inline on hand-off cell `0`.
* Threads (producer, scheduler, backend callbacks) are interleaved at the
  granularity at which the code synchronises: a call of `Inference`, the pop
  at the head of the scheduler loop, one slot-acquire attempt, the inline call
  of the shim, and one call of the completion dispatcher are steps of their
  own.  The loops of `QueueScheduler` become a program counter (`SchedPc`) and
  the locals `activation` and `qs` become part of the state.
* Calls that leave the device (`configureWorkload`, `postprocessResults`,
  `run`) are recorded in a log; the backend is a list of future `run` statuses
  and the list of runs it has accepted and not yet completed.
* Two fragments that the selected build leaves out are modelled on their own,
  next to the selected ones: the hand-off block of the scheduler under
  `ENQUEUE_SHIM_THREADED` (`threadedHandOff`) and the copy loops of
  `configureWorkload` under `ENABLE_ZEN2` (`configureWorkloadZen2`).
* Memory is modelled by value: an input buffer is the list of its bytes, a
  `float` array the list of its cells.  Addresses appear where the code
  depends on them: the streaming loads and stores of the `ENABLE_ZEN2` copy
  fault on an address that is not a multiple of the vector size, so a sample
  carries the address its `buf` holds and `configureWorkloadZen2` takes the
  address `in_ptrs[0]`.
* The process that holds the device is modelled on top of the steps
  (`Process`): an exception that leaves the function of a thread ends the
  process (`std::terminate`), a failed `assert` aborts it.
-/

namespace Kilt

/-! ## C++ primitives -/

/-- The C++ expression `a % b` on `int`: truncated remainder, undefined for `b = 0`. -/
def cmod (a b : Int) : Option Int :=
  if b = 0 then none else some (Int.tmod a b)

/-- The result of an `int` computation whose mathematical value is `x`: `x`
reduced modulo `2^32` into the range `-2^31 .. 2^31 - 1` (two's complement). -/
def wrapInt (x : Int) : Int := (x + 2147483648) % 4294967296 - 2147483648

/-- The integer `x` is a value of the type `int`. -/
def isInt32 (x : Int) : Prop := -2147483648 ≤ x ∧ x < 2147483648

instance (x : Int) : Decidable (isInt32 x) := by
  unfold isInt32
  infer_instance

/-- Read `v[i]` of a `std::vector` with an `int` index; out of range is undefined. -/
def vecGet {α : Type} (v : List α) (i : Int) : Option α :=
  if 0 ≤ i then v[i.toNat]? else none

/-- Write `v[i] = x` of a `std::vector` with an `int` index; out of range is undefined. -/
def vecSet {α : Type} (v : List α) (i : Int) (x : α) : Option (List α) :=
  if 0 ≤ i ∧ i.toNat < v.length then some (v.set i.toNat x) else none

/-! ## Payload slots and their ring buffer -/

/-- The record `Payload<Sample>` (without the back pointer `dptr`). -/
structure Payload (Sample : Type) where
  samples : List Sample
  device : Int
  activation : Int
  set : Int
deriving DecidableEq, Repr

/-- The class `RingBuffer<Sample>`: `q` is the `std::queue` of payload
pointers, head of the list = front of the queue. -/
structure RingBuffer (Sample : Type) where
  q : List (Option (Payload Sample))
  size : Int
deriving DecidableEq, Repr

/-- The constructor `RingBuffer(d, a, s, dptr)`: pushes the slots `set = 0 .. s-1`
in this order. -/
def RingBuffer.new {Sample : Type} (d a s : Int) : RingBuffer Sample :=
  { q := (List.range s.toNat).map
      (fun (i : Nat) => some { samples := [], device := d, activation := a, set := (i : Int) })
    size := s }

/-- The method `RingBuffer::getPayload`: the returned pointer and the buffer afterwards. -/
def RingBuffer.getPayload {Sample : Type} (rb : RingBuffer Sample) :
    Option (Payload Sample) × RingBuffer Sample :=
  match rb.q with
  | [] => (none, rb)
  | f :: rest => (f, { rb with q := rest })

/-- The method `RingBuffer::release`: the lines written to `std::cerr` and the
buffer afterwards. -/
def RingBuffer.release {Sample : Type} (rb : RingBuffer Sample) (p : Option (Payload Sample)) :
    List String × RingBuffer Sample :=
  let diag : List String :=
    if (rb.q.length : Int) = rb.size ∨ p.isNone then ["extra elem in the queue"] else []
  (diag, { rb with q := rb.q ++ [p] })

/-! ## Device configuration and state -/

/-- Modelled from the spec: the configuration classes `QAicDeviceConfig` and
`IModelConfig` are declared outside the repository sources; they are reduced
to the values the device reads through their getters (`getActivationCount`,
`getSetSize`, `getSamplesQueueDepth`, `getInputSelect`, `getLoopback`,
`getInputCount`, `getOutputCount`, `getBatchSize`). -/
structure Config where
  activation_count : Int
  set_size : Int
  samples_queue_depth : Int
  input_select : Int
  loop_back : Bool
  input_count : Int
  output_count : Int
  batch_size : Int
deriving DecidableEq, Repr

/-- The data members of `Device<Sample>` the dispatch path reads or writes.
Buffer pointers (`void*`) are natural numbers. -/
structure Device (Sample : Type) where
  cfg : Config
  buffers_in : List (List (List Nat))
  buffers_out : List (List (List Nat))
  ring_buf : List (RingBuffer Sample)
  samples_queue : List (List Sample)
  sfront : Int
  sback : Int
  samples_queue_depth : Int
  payloads : List (Option (Payload Sample))
  shim_terminate : Bool
  scheduler_terminate : Bool
  loop_back : Bool
deriving DecidableEq, Repr

/-- The method `Device::Inference`: return value and device afterwards.  The
members `sfront`, `sback` (`std::atomic<int>`) and `samples_queue_depth`
(`int`) hold `int` values.  The sum `sfront + samples_queue_depth` of the test
and the two subtractions of the return expression are `int` computations and
are reduced modulo `2^32`.  The increment `++sback` cannot wrap: it is reached
only when `sback` is below the reduced sum, hence below `2^31 - 1`. -/
def Device.Inference {Sample : Type} (d : Device Sample) (samples : List Sample) :
    Option (Int × Device Sample) :=
  if d.sback ≥ wrapInt (d.sfront + d.samples_queue_depth) then some (-1, d)
  else do
    let i ← cmod d.sback d.samples_queue_depth
    let q ← vecSet d.samples_queue i samples
    let d1 : Device Sample := { d with samples_queue := q, sback := d.sback + 1 }
    some (wrapInt (d1.samples_queue_depth - wrapInt (d1.sback - d1.sfront)), d1)

/-- Consecutive `Inference` calls with no scheduler activity in between: the
return values in call order and the device afterwards. -/
def Device.submitAll {Sample : Type} (d : Device Sample) :
    List (List Sample) → Option (List Int × Device Sample)
  | [] => some ([], d)
  | b :: bs => do
    let (r, d1) ← d.Inference b
    let (rs, d2) ← Device.submitAll d1 bs
    some (r :: rs, d2)

/-- Shape of the admission queue established by `DeviceInit` and kept by
`Inference` and the scheduler: the array has `samples_queue_depth` cells and
the counters satisfy `0 ≤ sfront ≤ sback`. -/
def Device.QueueWF {Sample : Type} (d : Device Sample) : Prop :=
  (d.samples_queue.length : Int) = d.samples_queue_depth ∧ 0 ≤ d.sfront ∧ d.sfront ≤ d.sback

/-- The members of the admission queue hold `int` values. -/
def Device.IntRange {Sample : Type} (d : Device Sample) : Prop :=
  isInt32 d.sfront ∧ isInt32 d.sback ∧ isInt32 d.samples_queue_depth

instance {Sample : Type} (d : Device Sample) : Decidable d.IntRange := by
  unfold Device.IntRange
  infer_instance

/-! ## Environment: backend, model adapter, diagnostics -/

/-- Modelled from the spec: the status type `QStatus` of the vendor API
(`api/master/QAicInfApi.h`, not part of the repository sources); the code only
compares a status with `QS_SUCCESS`. -/
inductive QStatus where
  | QS_SUCCESS
  | QS_ERROR
deriving DecidableEq, Repr

/-- Modelled from the spec: the event kind `QAicEventCompletionType` of the
vendor API (not part of the repository sources); the code only compares a kind
with `QAIC_EVENT_DEVICE_COMPLETE`, every other kind is `QAIC_EVENT_OTHER`. -/
inductive QAicEventCompletionType where
  | QAIC_EVENT_DEVICE_COMPLETE
  | QAIC_EVENT_OTHER (code : Nat)
deriving DecidableEq, Repr

/-- A call the device makes to the model adapter (`IModel`) or to the backend
(`QAicInfApi::run`), with its arguments. -/
inductive Call (Sample : Type) where
  | configureWorkload (samples : List Sample) (in_ptrs : List Nat)
  | postprocessResults (samples : List Sample) (out_ptrs : List Nat)
  | run (activation set : Int) (userData : Payload Sample)
deriving DecidableEq, Repr

/-- Program counter of the thread running `Device::QueueScheduler`:
`outer` = head of the outer `while`, `inner` = head of the inner `while`
(a batch is held in `qs`), `shim` = just before the call `EnqueueShim(0)`,
`done` = the loops have been left. -/
inductive SchedPc where
  | outer
  | inner
  | shim
  | done
deriving DecidableEq, Repr

/-- A device together with what surrounds it: the locals of the scheduler
thread, the statuses the backend will answer to the coming `run` calls
(`QS_SUCCESS` once the list is used up), the runs the backend has accepted and
not yet completed, the log of calls made so far and the lines written to
`std::cerr`. -/
structure World (Sample : Type) where
  dev : Device Sample
  activation : Int
  qs : List Sample
  pc : SchedPc
  run_status : List QStatus
  inflight : List (Payload Sample)
  calls : List (Call Sample)
  cerr : List String
deriving DecidableEq, Repr

/-- The ways an operation can end without returning: undefined behaviour, a
C++ `throw` (with the state at the throw), a failed `assert` (with the state
there), or a loop of the model running out of fuel. -/
inductive Fault (Sample : Type) where
  | undefined
  | thrown (msg : String) (w : World Sample)
  | assertion (w : World Sample)
  | fuel
deriving DecidableEq, Repr

/-- Result of an operation: a fault or a value. -/
abbrev Res (Sample : Type) (α : Type) : Type := Except (Fault Sample) α

/-- An undefined primitive operation becomes the fault `undefined`. -/
def ofOption {Sample α : Type} : Option α → Res Sample α
  | none => Except.error Fault.undefined
  | some a => Except.ok a

/-- The next status the backend answers and the statuses left. -/
def nextStatus : List QStatus → QStatus × List QStatus
  | [] => (QStatus.QS_SUCCESS, [])
  | s :: rest => (s, rest)

/-! ## Completion dispatcher and enqueue shim -/

/-- The static method `Device::PostResults(event, eventCompletion, userData)`. -/
def PostResults {Sample : Type} (w : World Sample)
    (eventCompletion : QAicEventCompletionType) (userData : Option (Payload Sample)) :
    Res Sample (World Sample) :=
  if eventCompletion = QAicEventCompletionType.QAIC_EVENT_DEVICE_COMPLETE then
    match userData with
    | none => Except.error Fault.undefined
    | some p => do
      let out_a ← ofOption (vecGet w.dev.buffers_out p.activation)
      let out ← ofOption (vecGet out_a p.set)
      let w1 : World Sample :=
        { w with calls := w.calls ++ [Call.postprocessResults p.samples out] }
      let rb ← ofOption (vecGet w1.dev.ring_buf p.activation)
      let r := rb.release (some p)
      let rbs ← ofOption (vecSet w1.dev.ring_buf p.activation r.2)
      pure { w1 with dev := { w1.dev with ring_buf := rbs }, cerr := w1.cerr ++ r.1 }
  else pure w

/-- The workload-configure part of the shim body (selected by `getInputSelect()`). -/
def shimConfigure {Sample : Type} (w : World Sample) (p : Payload Sample) :
    Res Sample (World Sample) :=
  if w.dev.cfg.input_select = 0 then do
    let in_a ← ofOption (vecGet w.dev.buffers_in p.activation)
    let inp ← ofOption (vecGet in_a p.set)
    pure { w with calls := w.calls ++ [Call.configureWorkload p.samples inp] }
  else if w.dev.cfg.input_select = 1 then
    Except.error (Fault.assertion w)
  else pure w

/-- The issue part of the shim body: loopback completion or `runner->run`. -/
def shimIssue {Sample : Type} (w : World Sample) (p : Payload Sample) :
    Res Sample (World Sample) :=
  if w.dev.loop_back then
    PostResults w QAicEventCompletionType.QAIC_EVENT_DEVICE_COMPLETE (some p)
  else
    let st := nextStatus w.run_status
    let w1 : World Sample :=
      { w with calls := w.calls ++ [Call.run p.activation p.set p], run_status := st.2 }
    if st.1 ≠ QStatus.QS_SUCCESS then Except.error (Fault.thrown "Failed to invoke qaic" w1)
    else pure { w1 with inflight := w1.inflight ++ [p] }

/-- One pass through the body of the `do ... while` of `Device::EnqueueShim(id)`. -/
def EnqueueShimBody {Sample : Type} (w : World Sample) (id : Int) : Res Sample (World Sample) := do
  let cell ← ofOption (vecGet w.dev.payloads id)
  match cell with
  | some p =>
    let w1 ← shimConfigure w p
    let w2 ← shimIssue w1 p
    let ps ← ofOption (vecSet w2.dev.payloads id none)
    pure { w2 with dev := { w2.dev with payloads := ps } }
  | none => pure w

/-- The method `Device::EnqueueShim(id)`: the body is repeated while
`shim_terminate` is false. -/
def EnqueueShim {Sample : Type} : Nat → World Sample → Int → Res Sample (World Sample)
  | 0, _, _ => Except.error Fault.fuel
  | fuel + 1, w, id => do
    let w1 ← EnqueueShimBody w id
    if w1.dev.shim_terminate then pure w1 else EnqueueShim fuel w1 id

/-! ## Scheduler -/

/-- What one step of the system lets an observer see. -/
inductive Obs (Sample : Type) where
  | inference (samples : List Sample) (ret : Int)
  | popNone
  | popped (samples : List Sample)
  | noSlot (activation : Int)
  | acquired (activation : Int) (p : Payload Sample)
  | shimReturned
  | leftInner
  | leftOuter
  | stopped
  | completed (p : Payload Sample)
  | ignored (p : Payload Sample)
  | noEvent
  | shutdown
deriving DecidableEq, Repr

/-- Head of the outer loop of `QueueScheduler` after the terminate test: the
queue-empty test and the pop. -/
def schedulerPop {Sample : Type} (w : World Sample) : Res Sample (Obs Sample × World Sample) :=
  if w.dev.sfront = w.dev.sback then pure (Obs.popNone, w)
  else do
    let i ← ofOption (cmod w.dev.sfront w.dev.samples_queue_depth)
    let b ← ofOption (vecGet w.dev.samples_queue i)
    pure (Obs.popped b,
      { w with qs := b, dev := { w.dev with sfront := w.dev.sfront + 1 }, pc := SchedPc.inner })

/-- One pass of the inner loop of `QueueScheduler` after the terminate test, up
to the hand-off `payloads[0] = p`. -/
def schedulerAcquire {Sample : Type} (w : World Sample) :
    Res Sample (Obs Sample × World Sample) := do
  let a ← ofOption (cmod (w.activation + 1) w.dev.cfg.activation_count)
  let rb ← ofOption (vecGet w.dev.ring_buf a)
  let r := rb.getPayload
  let rbs ← ofOption (vecSet w.dev.ring_buf a r.2)
  let w1 : World Sample := { w with activation := a, dev := { w.dev with ring_buf := rbs } }
  match r.1 with
  | none => pure (Obs.noSlot a, w1)
  | some p =>
    let p1 : Payload Sample := { p with samples := w1.qs }
    let ps ← ofOption (vecSet w1.dev.payloads 0 (some p1))
    pure (Obs.acquired a p1, { w1 with dev := { w1.dev with payloads := ps }, pc := SchedPc.shim })

/-- One step of the thread running `Device::QueueScheduler`, from its program
counter; `fuel` bounds the loop of the inline call `EnqueueShim(0)`. -/
def QueueSchedulerStep {Sample : Type} (fuel : Nat) (w : World Sample) :
    Res Sample (Obs Sample × World Sample) :=
  match w.pc with
  | SchedPc.outer =>
    if w.dev.scheduler_terminate then pure (Obs.leftOuter, { w with pc := SchedPc.done })
    else schedulerPop w
  | SchedPc.inner =>
    if w.dev.scheduler_terminate then pure (Obs.leftInner, { w with pc := SchedPc.outer })
    else schedulerAcquire w
  | SchedPc.shim => do
    let w1 ← EnqueueShim fuel w 0
    pure (Obs.shimReturned, { w1 with pc := SchedPc.outer })
  | SchedPc.done => pure (Obs.stopped, w)

/-! ## Initialisation and runs -/

/-- The method `Device::DeviceInit` (with the start of the scheduler thread):
`getBufferPtr` is the backend's buffer table, `init_status` the status of
`runner->init`; `none` when initialisation throws (backend failure, or a
negative size reaching a `resize` or the constructor of `qs`). -/
def DeviceInit {Sample : Type} [Inhabited Sample] (cfg : Config)
    (getBufferPtr : Int → Int → Int → Nat) (init_status : QStatus)
    (run_status : List QStatus) : Option (World Sample) :=
  if init_status ≠ QStatus.QS_SUCCESS then none
  else if cfg.activation_count < 0 ∨ (0 < cfg.activation_count ∧ cfg.set_size < 0)
      ∨ cfg.samples_queue_depth < 0 ∨ cfg.batch_size < 0 then none
  else
    let bufs (first count : Int) : List (List (List Nat)) :=
      (List.range cfg.activation_count.toNat).map fun (a : Nat) =>
        (List.range cfg.set_size.toNat).map fun (s : Nat) =>
          (List.range count.toNat).map fun (i : Nat) =>
            getBufferPtr (a : Int) (s : Int) ((i : Int) + first)
    some
      { dev :=
          { cfg := cfg
            buffers_in := bufs 0 cfg.input_count
            buffers_out := bufs cfg.input_count cfg.output_count
            ring_buf := (List.range cfg.activation_count.toNat).map
              fun (a : Nat) => RingBuffer.new 0 (a : Int) cfg.set_size
            samples_queue := List.replicate cfg.samples_queue_depth.toNat []
            sfront := 0
            sback := 0
            samples_queue_depth := cfg.samples_queue_depth
            payloads := [none]
            shim_terminate := true
            scheduler_terminate := false
            loop_back := cfg.loop_back }
        activation := -1
        qs := List.replicate cfg.batch_size.toNat default
        pc := SchedPc.outer
        run_status := run_status
        inflight := []
        calls := []
        cerr := [] }

/-- What can happen next: the producer calls `Inference`, the scheduler thread
takes a step, the backend delivers the device-complete event of the `i`-th
outstanding run (once per run), the backend delivers an event of another
kind for it, or the owner starts the destructor. -/
inductive Action (Sample : Type) where
  | inference (samples : List Sample)
  | sched (fuel : Nat)
  | complete (i : Nat)
  | event (code : Nat) (i : Nat)
  | shutdown
deriving DecidableEq, Repr

/-- One step of the system. -/
def step {Sample : Type} (w : World Sample) : Action Sample → Res Sample (Obs Sample × World Sample)
  | Action.inference samples => do
    let r ← ofOption (w.dev.Inference samples)
    pure (Obs.inference samples r.1, { w with dev := r.2 })
  | Action.sched fuel => QueueSchedulerStep fuel w
  | Action.complete i =>
    match w.inflight[i]? with
    | none => pure (Obs.noEvent, w)
    | some p => do
      let w1 ← PostResults { w with inflight := w.inflight.eraseIdx i }
        QAicEventCompletionType.QAIC_EVENT_DEVICE_COMPLETE (some p)
      pure (Obs.completed p, w1)
  | Action.event code i =>
    match w.inflight[i]? with
    | none => pure (Obs.noEvent, w)
    | some p => do
      let w1 ← PostResults w (QAicEventCompletionType.QAIC_EVENT_OTHER code) (some p)
      pure (Obs.ignored p, w1)
  | Action.shutdown =>
    pure (Obs.shutdown, { w with dev := { w.dev with scheduler_terminate := true } })

/-- A run of the system: the observations in order and the state reached. -/
def exec {Sample : Type} (w : World Sample) :
    List (Action Sample) → Res Sample (List (Obs Sample) × World Sample)
  | [] => pure ([], w)
  | a :: as => do
    let r ← step w a
    let rs ← exec r.2 as
    pure (r.1 :: rs.1, rs.2)

/-! ## Observers used to state the properties -/

/-- The batches the admission queue holds, oldest first: the cells
`sfront mod depth`, ..., `(sback - 1) mod depth`. -/
def Device.pending {Sample : Type} (d : Device Sample) : List (List Sample) :=
  (List.range (d.sback - d.sfront).toNat).map fun (i : Nat) =>
    (d.samples_queue[((d.sfront + (i : Int)) % d.samples_queue_depth).toNat]?).getD []

/-- The batches `Inference` accepted (return value `≥ 0`), in call order. -/
def acceptedBatches {Sample : Type} (os : List (Obs Sample)) : List (List Sample) :=
  os.filterMap fun o =>
    match o with
    | Obs.inference b r => if 0 ≤ r then some b else none
    | _ => none

/-- The batches the scheduler popped, in pop order. -/
def poppedBatches {Sample : Type} (os : List (Obs Sample)) : List (List Sample) :=
  os.filterMap fun o =>
    match o with
    | Obs.popped b => some b
    | _ => none

/-- The activation index of every slot-acquire attempt of the scheduler, in order. -/
def attempts {Sample : Type} (os : List (Obs Sample)) : List Int :=
  os.filterMap fun o =>
    match o with
    | Obs.noSlot a => some a
    | Obs.acquired a _ => some a
    | _ => none

/-- The activation (`p->activation`) of every payload handed to the shim, in order. -/
def dispatchedOn {Sample : Type} (os : List (Obs Sample)) : List Int :=
  os.filterMap fun o =>
    match o with
    | Obs.acquired _ p => some p.activation
    | _ => none

/-- The payload slots free in the ring buffer of activation `a`. -/
def World.freeSlots {Sample : Type} (w : World Sample) (a : Int) : List (Payload Sample) :=
  match vecGet w.dev.ring_buf a with
  | some rb => rb.q.filterMap id
  | none => []

/-- The payload slots of activation `a` in hand: taken by the scheduler and
sitting in a hand-off cell until the shim body has run. -/
def World.inHand {Sample : Type} (w : World Sample) (a : Int) : List (Payload Sample) :=
  (w.dev.payloads.filterMap id).filter fun p => decide (p.activation = a)

/-- The payload slots of activation `a` in flight: given to `run`, completion
not yet dispatched. -/
def World.inFlight {Sample : Type} (w : World Sample) (a : Int) : List (Payload Sample) :=
  w.inflight.filter fun p => decide (p.activation = a)

/-- Invariant of the admission queue. -/
def Device.QueueInv {Sample : Type} (d : Device Sample) : Prop :=
  d.QueueWF ∧ d.sback - d.sfront ≤ d.samples_queue_depth

/-- The payload slots that are not in a ring buffer: in a hand-off cell or in flight. -/
def World.held {Sample : Type} (w : World Sample) : List (Payload Sample) :=
  w.dev.payloads.filterMap id ++ w.inflight

/-- Accounting of the payload slots of a device with `n` activations and
`ss` sets: there are `n` ring buffers, the slots held outside them belong to
an existing activation, every ring buffer holds slots of its own activation
only (no null pointer), and for each activation the `set` numbers of its slots,
those in its ring buffer followed by those held outside, are `0 .. ss - 1`,
each once. -/
def SlotsAccounted {Sample : Type} (rbs : List (RingBuffer Sample))
    (held : List (Payload Sample)) (n ss : Int) : Prop :=
  (rbs.length : Int) = n ∧
  (∀ p ∈ held, 0 ≤ p.activation ∧ p.activation < n) ∧
  ∀ (a : Nat) (rb : RingBuffer Sample), rbs[a]? = some rb →
    (∀ x ∈ rb.q, ∃ p, x = some p ∧ p.activation = (a : Int)) ∧
    List.Perm
      ((rb.q.filterMap id ++ held.filter fun p => decide (p.activation = (a : Int))).map
        fun p => p.set)
      ((List.range ss.toNat).map fun (s : Nat) => (s : Int))

/-- Invariant of the payload slots: they are accounted for, there is one
hand-off cell, and it is empty unless the scheduler is about to call the shim. -/
def World.SlotInv {Sample : Type} (w : World Sample) : Prop :=
  SlotsAccounted w.dev.ring_buf w.held w.dev.cfg.activation_count w.dev.cfg.set_size ∧
  w.dev.payloads.length = 1 ∧
  (w.pc ≠ SchedPc.shim → w.dev.payloads = [none])

/-- The admission queue members of two device states agree. -/
def Device.sameQueue {Sample : Type} (d d' : Device Sample) : Prop :=
  d'.samples_queue = d.samples_queue ∧ d'.sfront = d.sfront ∧ d'.sback = d.sback ∧
  d'.samples_queue_depth = d.samples_queue_depth

/-- The members written by `DeviceInit` only agree in two device states. -/
def Device.sameStatic {Sample : Type} (d d' : Device Sample) : Prop :=
  d'.cfg = d.cfg ∧ d'.buffers_in = d.buffers_in ∧ d'.buffers_out = d.buffers_out ∧
  d'.shim_terminate = d.shim_terminate ∧ d'.loop_back = d.loop_back

/-- The buffer tables have an entry for every activation and set of the configuration. -/
def Device.BufShape {Sample : Type} (d : Device Sample) : Prop :=
  ∀ a s : Int, 0 ≤ a → a < d.cfg.activation_count → 0 ≤ s → s < d.cfg.set_size →
    (∃ l b, vecGet d.buffers_in a = some l ∧ vecGet l s = some b) ∧
    (∃ l b, vecGet d.buffers_out a = some l ∧ vecGet l s = some b)

/-- The invariants that keep every operation defined: the queue and slot
invariants, an activation index that is `-1` or a valid index, the inline
setting `shim_terminate = true`, and complete buffer tables. -/
def World.Safe {Sample : Type} (w : World Sample) : Prop :=
  w.dev.QueueInv ∧ w.SlotInv ∧ -1 ≤ w.activation ∧ w.dev.shim_terminate = true ∧
  w.dev.BufShape

/-! ## Example devices -/

/-- Buffer table of the examples. -/
def exampleBufferPtr (a s i : Int) : Nat := (100 * a + 10 * s + i).toNat

/-- Four activations with one set each, loopback on, queue depth 8. -/
def loopbackConfig : Config :=
  { activation_count := 4, set_size := 1, samples_queue_depth := 8, input_select := 0,
    loop_back := true, input_count := 1, output_count := 2, batch_size := 1 }

/-- The state `DeviceInit` sets up for `loopbackConfig`. -/
def loopbackInit : World Nat :=
  { dev :=
      { cfg := loopbackConfig
        buffers_in := [[[0]], [[100]], [[200]], [[300]]]
        buffers_out := [[[1, 2]], [[101, 102]], [[201, 202]], [[301, 302]]]
        ring_buf :=
          [{ q := [some { samples := [], device := 0, activation := 0, set := 0 }], size := 1 },
           { q := [some { samples := [], device := 0, activation := 1, set := 0 }], size := 1 },
           { q := [some { samples := [], device := 0, activation := 2, set := 0 }], size := 1 },
           { q := [some { samples := [], device := 0, activation := 3, set := 0 }], size := 1 }]
        samples_queue := [[], [], [], [], [], [], [], []]
        sfront := 0
        sback := 0
        samples_queue_depth := 8
        payloads := [none]
        shim_terminate := true
        scheduler_terminate := false
        loop_back := true }
    activation := -1
    qs := [0]
    pc := SchedPc.outer
    run_status := []
    inflight := []
    calls := []
    cerr := [] }

/-- Eight batches tagged `0 .. 7` are submitted, then the scheduler takes 24 steps. -/
def loopbackActions : List (Action Nat) :=
  (List.range 8).map (fun (i : Nat) => Action.inference [i]) ++
    List.replicate 24 (Action.sched 1)

/-- One activation with two sets, a real backend, queue depth 2. -/
def backendConfig : Config :=
  { activation_count := 1, set_size := 2, samples_queue_depth := 2, input_select := 2,
    loop_back := false, input_count := 1, output_count := 2, batch_size := 1 }

/-- The state `DeviceInit` sets up for `backendConfig`. -/
def backendInit : World Nat :=
  { dev :=
      { cfg := backendConfig
        buffers_in := [[[0], [10]]]
        buffers_out := [[[1, 2], [11, 12]]]
        ring_buf :=
          [{ q := [some { samples := [], device := 0, activation := 0, set := 0 },
                   some { samples := [], device := 0, activation := 0, set := 1 }], size := 2 }]
        samples_queue := [[], []]
        sfront := 0
        sback := 0
        samples_queue_depth := 2
        payloads := [none]
        shim_terminate := true
        scheduler_terminate := false
        loop_back := false }
    activation := -1
    qs := [0]
    pc := SchedPc.outer
    run_status := []
    inflight := []
    calls := []
    cerr := [] }

/-- Three submissions (the third finds the queue full), two dispatches, a
fourth submission, a pop that finds no free slot twice, the completion of the
second run, the dispatch of the waiting batch, and a pop on the empty queue. -/
def backendActions : List (Action Nat) :=
  [Action.inference [0], Action.inference [1], Action.inference [2],
   Action.sched 1, Action.sched 1, Action.sched 1,
   Action.inference [3],
   Action.sched 1, Action.sched 1, Action.sched 1,
   Action.sched 1, Action.sched 1, Action.sched 1,
   Action.complete 1,
   Action.sched 1, Action.sched 1, Action.sched 1]

/-- The observations and final state of a run, when it ends without a fault. -/
def runOf {Sample : Type} (w : World Sample) (as : List (Action Sample)) :
    List (Obs Sample) × World Sample :=
  match exec w as with
  | Except.ok r => r
  | Except.error _ => ([], w)

/-- The backend example after its first two submissions: the queue is full. -/
def fullDevice : Device Nat :=
  (runOf backendInit [Action.inference [0], Action.inference [1]]).2.dev

/-- The first ten actions of the backend example: two batches dispatched, one pending. -/
def backendActionsShort : List (Action Nat) := backendActions.take 10

/-- A payload of activation 2, set 0, carrying the batch `[5]`. -/
def examplePayload : Payload Nat := { samples := [5], device := 0, activation := 2, set := 0 }

/-- No slot-acquire attempt of the run failed. -/
def noFailedAttempt {Sample : Type} (os : List (Obs Sample)) : Bool :=
  os.all fun o =>
    match o with
    | Obs.noSlot _ => false
    | _ => true

/-- The backend example once the owner has started the destructor: the
terminate flag is set, the admission queue is empty. -/
def drainingDevice : Device Nat := { backendInit.dev with scheduler_terminate := true }

/-! ## The steps as a relation -/

/-- The successful steps of the system, case by case: `Step w a o w'` lists
what `step w a` can return as observation `o` and next state `w'`. -/
inductive Step {Sample : Type} :
    World Sample → Action Sample → Obs Sample → World Sample → Prop where
  | inference (w : World Sample) (b : List Sample) (r : Int) (d' : Device Sample) :
      w.dev.Inference b = some (r, d') →
      Step w (Action.inference b) (Obs.inference b r) { w with dev := d' }
  | leftOuter (w : World Sample) (f : Nat) :
      w.pc = SchedPc.outer → w.dev.scheduler_terminate = true →
      Step w (Action.sched f) Obs.leftOuter { w with pc := SchedPc.done }
  | popNone (w : World Sample) (f : Nat) :
      w.pc = SchedPc.outer → w.dev.scheduler_terminate = false →
      w.dev.sfront = w.dev.sback →
      Step w (Action.sched f) Obs.popNone w
  | popped (w : World Sample) (f : Nat) (i : Int) (b : List Sample) :
      w.pc = SchedPc.outer → w.dev.scheduler_terminate = false →
      w.dev.sfront ≠ w.dev.sback →
      cmod w.dev.sfront w.dev.samples_queue_depth = some i →
      vecGet w.dev.samples_queue i = some b →
      Step w (Action.sched f) (Obs.popped b)
        { w with qs := b, dev := { w.dev with sfront := w.dev.sfront + 1 },
                 pc := SchedPc.inner }
  | leftInner (w : World Sample) (f : Nat) :
      w.pc = SchedPc.inner → w.dev.scheduler_terminate = true →
      Step w (Action.sched f) Obs.leftInner { w with pc := SchedPc.outer }
  | noSlot (w : World Sample) (f : Nat) (a : Int) (rb : RingBuffer Sample) :
      w.pc = SchedPc.inner → w.dev.scheduler_terminate = false →
      cmod (w.activation + 1) w.dev.cfg.activation_count = some a →
      vecGet w.dev.ring_buf a = some rb → rb.getPayload.1 = none →
      Step w (Action.sched f) (Obs.noSlot a)
        { w with activation := a
                 dev := { w.dev with
                   ring_buf := w.dev.ring_buf.set a.toNat rb.getPayload.2 } }
  | acquired (w : World Sample) (f : Nat) (a : Int) (rb : RingBuffer Sample)
      (p : Payload Sample) :
      w.pc = SchedPc.inner → w.dev.scheduler_terminate = false →
      cmod (w.activation + 1) w.dev.cfg.activation_count = some a →
      vecGet w.dev.ring_buf a = some rb → rb.getPayload.1 = some p →
      0 < w.dev.payloads.length →
      Step w (Action.sched f) (Obs.acquired a { p with samples := w.qs })
        { w with activation := a
                 dev := { w.dev with
                   ring_buf := w.dev.ring_buf.set a.toNat rb.getPayload.2
                   payloads := w.dev.payloads.set 0 (some { p with samples := w.qs }) }
                 pc := SchedPc.shim }
  | shim (w : World Sample) (f : Nat) (w1 : World Sample) :
      w.pc = SchedPc.shim → EnqueueShimBody w 0 = Except.ok w1 →
      Step w (Action.sched f) Obs.shimReturned { w1 with pc := SchedPc.outer }
  | stopped (w : World Sample) (f : Nat) :
      w.pc = SchedPc.done → Step w (Action.sched f) Obs.stopped w
  | completeNone (w : World Sample) (i : Nat) :
      w.inflight[i]? = none → Step w (Action.complete i) Obs.noEvent w
  | complete (w : World Sample) (i : Nat) (p : Payload Sample) (w1 : World Sample) :
      w.inflight[i]? = some p →
      PostResults { w with inflight := w.inflight.eraseIdx i }
        QAicEventCompletionType.QAIC_EVENT_DEVICE_COMPLETE (some p) = Except.ok w1 →
      Step w (Action.complete i) (Obs.completed p) w1
  | eventNone (w : World Sample) (code i : Nat) :
      w.inflight[i]? = none → Step w (Action.event code i) Obs.noEvent w
  | event (w : World Sample) (code i : Nat) (p : Payload Sample) :
      w.inflight[i]? = some p → Step w (Action.event code i) (Obs.ignored p) w
  | shutdown (w : World Sample) :
      Step w Action.shutdown Obs.shutdown
        { w with dev := { w.dev with scheduler_terminate := true } }

/-! ## Observers of the call log -/

/-- The calls `configureWorkload` the shim body makes for a payload: one when
`getInputSelect()` is `0`, none otherwise. -/
def configureCalls {Sample : Type} (input_select : Int) (samples : List Sample)
    (in_ptrs : List Nat) : List (Call Sample) :=
  if input_select = 0 then [Call.configureWorkload samples in_ptrs] else []

/-- The batches passed to `postprocessResults`, in call order. -/
def postprocessed {Sample : Type} (calls : List (Call Sample)) : List (List Sample) :=
  calls.filterMap fun c =>
    match c with
    | Call.postprocessResults s _ => some s
    | _ => none

/-- The user-data payloads passed to `run`, in call order. -/
def runPayloads {Sample : Type} (calls : List (Call Sample)) : List (Payload Sample) :=
  calls.filterMap fun c =>
    match c with
    | Call.run _ _ p => some p
    | _ => none

/-- The batches handed to the shim (written into a payload slot), in order. -/
def acquiredBatches {Sample : Type} (os : List (Obs Sample)) : List (List Sample) :=
  os.filterMap fun o =>
    match o with
    | Obs.acquired _ p => some p.samples
    | _ => none

/-- The batches sitting in the hand-off cells. -/
def World.cellBatches {Sample : Type} (w : World Sample) : List (List Sample) :=
  (w.dev.payloads.filterMap id).map fun p => p.samples

/-! ## Invariant of the hand-off between scheduler and shim -/

/-- Relation between the observations made so far and the state reached, kept
by every step from `DeviceInit`: the hand-off cell holds a payload exactly
when the scheduler is about to call the shim, and that payload carries a batch
handed over before; the scheduler has left its loops only with the terminate
flag set; in loopback mode the batches passed to `postprocessResults`,
followed by the one in the hand-off cell, are the batches handed over, no
`run` was called and nothing is in flight; the batches popped are the
batches handed over followed by at most one more, the one the inner loop is
holding. -/
def HandOffInv {Sample : Type} (hist : List (Obs Sample)) (w : World Sample) : Prop :=
  (w.pc = SchedPc.shim →
    ∃ p, w.dev.payloads = [some p] ∧ p.samples ∈ acquiredBatches hist) ∧
  (w.pc ≠ SchedPc.shim → w.dev.payloads = [none]) ∧
  (w.pc = SchedPc.done → w.dev.scheduler_terminate = true) ∧
  (w.dev.loop_back = true →
    postprocessed w.calls ++ w.cellBatches = acquiredBatches hist ∧
    runPayloads w.calls = [] ∧ w.inflight = []) ∧
  ∃ rest, poppedBatches hist = acquiredBatches hist ++ rest ∧ rest.length ≤ 1 ∧
    (w.pc = SchedPc.inner → rest = [w.qs]) ∧
    (w.pc = SchedPc.shim → rest = []) ∧
    (w.pc = SchedPc.outer → w.dev.scheduler_terminate = false → rest = [])

/-- One batch is submitted, the owner starts the destructor, then the
scheduler takes a step. -/
def shutdownActions : List (Action Nat) :=
  [Action.inference [0], Action.shutdown, Action.sched 1]

/-- One batch is submitted, popped and handed over: the scheduler is about to
call the shim. -/
def handOverActions : List (Action Nat) :=
  [Action.inference [7], Action.sched 1, Action.sched 1]

/-- The backend example with a backend that fails the first `run`. -/
def failingBackendInit : World Nat := { backendInit with run_status := [QStatus.QS_ERROR] }

/-- The loopback example with the reserved input mode `getInputSelect() = 1`. -/
def reservedInputConfig : Config := { loopbackConfig with input_select := 1 }

/-- The state `DeviceInit` sets up for `reservedInputConfig`. -/
def reservedInputInit : World Nat :=
  { loopbackInit with dev := { loopbackInit.dev with cfg := reservedInputConfig } }

/-- The call log a step ends with: the log of the state reached, or of the
state at the `throw` or at the failed `assert`. -/
def callsAfter {Sample : Type} (r : Res Sample (Obs Sample × World Sample)) :
    Option (List (Call Sample)) :=
  match r with
  | Except.ok x => some x.2.calls
  | Except.error (Fault.thrown _ w) => some w.calls
  | Except.error (Fault.assertion w) => some w.calls
  | Except.error _ => none

/-! ## CPU affinity of the threads (`Device::Construct`, `Device::DeviceInit`) -/

/-- The loop `for (int a = aff.size(); a > device_threads; a--)` of
`Device::Construct`, from the value `a` of its counter: every pass adds
`aff.back()` to `cpu_affinity` and pops it.  Returns `cpu_affinity` (the CPUs
in the order they were set) and what is left of `aff`; calling `back()` on an
empty vector is undefined. -/
def driverAffinityLoop (device_threads : Nat) :
    Nat → List Int → List Int → Option (List Int × List Int)
  | 0, aff, cpu_affinity => some (cpu_affinity, aff)
  | a + 1, aff, cpu_affinity =>
    if a + 1 > device_threads then
      match aff.getLast? with
      | none => none
      | some c => driverAffinityLoop device_threads a aff.dropLast (cpu_affinity ++ [c])
    else some (cpu_affinity, aff)

/-- The affinity part of `Device::Construct(.., aff)`: `ringfence` is the
value of `ringfenceDeviceDriver()`.  Returns the CPU set given to the
driver/initialisation thread `tin` and the vector `aff` passed on to
`DeviceInit`. -/
def Construct (ringfence : Bool) (aff : List Int) : Option (List Int × List Int) :=
  let aff_cpy := aff
  let device_threads : Nat := if ringfence then 1 else 0
  match driverAffinityLoop device_threads aff.length aff [] with
  | none => none
  | some (cpu_affinity, aff1) =>
    some (cpu_affinity, if !ringfence then aff_cpy else aff1)

/-- The affinity part of `Device::DeviceInit(.., aff)` in the inline-shim
build: the scheduler thread is pinned to `aff->back()`, which is then popped.
Returns that CPU and what is left of `aff`. -/
def schedulerAffinity (aff : List Int) : Option (Int × List Int) :=
  match aff.getLast? with
  | none => none
  | some cpu => some (cpu, aff.dropLast)

/-- Where `Construct` pins the threads: the CPU set of the
driver/initialisation thread and the CPU of the scheduler thread. -/
structure Pinning where
  driver : List Int
  scheduler : Int
deriving DecidableEq, Repr

/-- The pinning that `Construct` followed by `DeviceInit` produces. -/
def threadPinning (ringfence : Bool) (aff : List Int) : Option Pinning :=
  match Construct ringfence aff with
  | none => none
  | some (cpu_affinity, aff1) =>
    match schedulerAffinity aff1 with
    | none => none
    | some (cpu, _) => some { driver := cpu_affinity, scheduler := cpu }

/-! ## Hand-off in the threaded-shim build (`ENQUEUE_SHIM_THREADED`) -/

/-- How far the hand-off block of the scheduler gets: it is still in its
`while (payloads[round_robin] != nullptr)` loop, or it has stored the payload
in cell `cell` and left the block with the local `round_robin` at the value
given. -/
inductive HandOff (Sample : Type) where
  | spinning
  | stored (cell : Int) (payloads : List (Option (Payload Sample))) (round_robin : Int)
deriving DecidableEq, Repr

/-- The hand-off cells `DeviceInit` sets up in the threaded-shim build:
`payloads.resize(num_setup_threads, nullptr)`. -/
def threadedPayloads (Sample : Type) (num_setup_threads : Int) :
    List (Option (Payload Sample)) :=
  List.replicate num_setup_threads.toNat none

/-- The block of `QueueScheduler` compiled under `ENQUEUE_SHIM_THREADED`, for
the payload `p` it has just filled: `int round_robin = 0;` is declared inside
the loop body, so the block starts from `0` every time it is entered. -/
def threadedHandOff {Sample : Type} (num_setup_threads : Int)
    (payloads : List (Option (Payload Sample))) (p : Payload Sample) :
    Option (HandOff Sample) :=
  let round_robin : Int := 0
  match vecGet payloads round_robin with
  | none => none
  | some (some _) => some HandOff.spinning
  | some none => do
    let ps ← vecSet payloads round_robin (some p)
    let r ← cmod (round_robin + 1) num_setup_threads
    some (HandOff.stored round_robin ps r)

/-- What one pass of the body of `EnqueueShim(id)` does to the hand-off cells:
a payload found in cell `id` is processed and the cell set back to `nullptr`. -/
def shimTakes {Sample : Type} (payloads : List (Option (Payload Sample))) (id : Int) :
    Option (List (Option (Payload Sample))) :=
  match vecGet payloads id with
  | none => none
  | some none => some payloads
  | some (some _) => vecSet payloads id none

/-- What can happen next around the hand-off cells: the scheduler runs its
hand-off block for a payload, or shim thread `id` makes a pass of its body. -/
inductive ThreadedAction (Sample : Type) where
  | dispatch (p : Payload Sample)
  | shim (id : Int)
deriving DecidableEq, Repr

/-- A run around the hand-off cells: the cells written by the scheduler, in
order (a hand-off that is still spinning writes none). -/
def threadedRun {Sample : Type} (num_setup_threads : Int) :
    List (Option (Payload Sample)) → List (ThreadedAction Sample) → Option (List Int)
  | _, [] => some []
  | payloads, ThreadedAction.dispatch p :: rest =>
    match threadedHandOff num_setup_threads payloads p with
    | none => none
    | some HandOff.spinning => threadedRun num_setup_threads payloads rest
    | some (HandOff.stored cell ps _) =>
      (threadedRun num_setup_threads ps rest).map fun cells => cell :: cells
  | payloads, ThreadedAction.shim id :: rest =>
    match shimTakes payloads id with
    | none => none
    | some ps => threadedRun num_setup_threads ps rest

/-- Two shim threads; two payloads are dispatched, shim thread `0` taking the
first before the second is handed over. -/
def threadedActions : List (ThreadedAction Nat) :=
  [ThreadedAction.dispatch { samples := [0], device := 0, activation := 0, set := 0 },
   ThreadedAction.dispatch { samples := [1], device := 0, activation := 1, set := 0 },
   ThreadedAction.shim 0,
   ThreadedAction.dispatch { samples := [1], device := 0, activation := 1, set := 0 }]

/-! ## Object-detection model adapter (`benchmark_impl.h`) -/

/-- Modelled from the spec: the struct `Sample` of `sample.h` (not part of the
repository sources), reduced to the members the adapter uses: the stable
`index`, the pointer `buf` - the address it holds (`buf_addr`) and the
producer-owned input bytes it points to (`buf`) - and the `callback` function
pointer (a natural number names the function). -/
structure DetectionSample where
  index : Int
  buf_addr : Nat
  buf : List Nat
  callback : Nat
deriving DecidableEq, Repr

/-- Copy of `n` bytes from offset `soff` of `src` to offset `doff` of `dest`
(`memcpy`, `std::copy` on bytes, one streaming load and store); reading or
writing outside an array is undefined. -/
def copyBytes (dest src : List Nat) (doff soff n : Nat) : Option (List Nat) :=
  if soff + n ≤ src.length ∧ doff + n ≤ dest.length then
    some (dest.take doff ++ (src.drop soff).take n ++ dest.drop (doff + n))
  else none

/-- The local `uint32_t buf_size` of `configureWorkload`: the number of
elements of one image. -/
def bufSize (image_size num_channels : Int) : Nat :=
  ((image_size * image_size * num_channels) % 2 ^ 32).toNat

/-- The method `ObjectDetectionModel::configureWorkload` as compiled without
`ENABLE_ZEN2`, from sample position `i` on: `elem` is `sizeof(TInputDataType)`,
the last argument the bytes of `in_ptrs[0]`.  Each pass is
`std::copy(src_ptr, src_ptr + buf_size, dest_ptr)` on elements, with
`dest_ptr = in_ptrs[0] + i * buf_size`. -/
def configureWorkload (elem buf_size : Nat) :
    Nat → List DetectionSample → List Nat → Option (List Nat)
  | _, [], in0 => some in0
  | i, s :: rest, in0 =>
    match copyBytes in0 s.buf (((i * buf_size) % 2 ^ 32) * elem) 0 (buf_size * elem) with
    | none => none
    | some in1 => configureWorkload elem buf_size (i + 1) rest in1

/-- The streaming loop `for (; vectors > 0; vectors--, src++, dest++)` of the
`ENABLE_ZEN2` path: every pass copies one vector of `vec` bytes with a
streaming load (`_mm_stream_load_si128`, `_mm256_stream_load_si256`) and a
streaming store (`_mm_stream_si128`, `_mm256_stream_si256`), which fault on an
address that is not a multiple of the vector size.  `saddr` and `daddr` are
the addresses of byte `0` of `src` and of `dest`.  Returns the destination
bytes and the byte offsets `src` and `dest` have reached. -/
def streamCopy (vec saddr daddr : Nat) (src : List Nat) :
    Nat → List Nat → Nat → Nat → Option (List Nat × Nat × Nat)
  | 0, dest, soff, doff => some (dest, soff, doff)
  | vectors + 1, dest, soff, doff =>
    if (saddr + soff) % vec ≠ 0 ∨ (daddr + doff) % vec ≠ 0 then none
    else
      match copyBytes dest src doff soff vec with
      | none => none
      | some d => streamCopy vec saddr daddr src vectors d (soff + vec) (doff + vec)

/-- The method `ObjectDetectionModel::configureWorkload` as compiled with
`ENABLE_ZEN2` on amd64, from sample position `i` on: `vec` is `sizeof(*src)`
(16 for `__m128i`, 32 for `__m256i`), `elem` is `sizeof(TInputDataType)`,
`in_addr` the address `in_ptrs[0]`.  The number of vectors is
`buf_size / sizeof(*src)` and the remainder copied by `memcpy` is
`buf_size % sizeof(*src)` bytes, `buf_size` being the number of elements. -/
def configureWorkloadZen2 (vec elem buf_size in_addr : Nat) :
    Nat → List DetectionSample → List Nat → Option (List Nat)
  | _, [], in0 => some in0
  | i, s :: rest, in0 =>
    match streamCopy vec s.buf_addr in_addr s.buf (buf_size / vec) in0 0
        (((i * buf_size) % 2 ^ 32) * elem) with
    | none => none
    | some (d, soff, doff) =>
      let rem := buf_size % vec
      match (if rem > 0 then copyBytes d s.buf doff soff rem else some d) with
      | none => none
      | some in1 => configureWorkloadZen2 vec elem buf_size in_addr (i + 1) rest in1

/-- Element `k` of an array of elements of `elem` bytes each. -/
def element (elem : Nat) (mem : List Nat) (k : Nat) : List Nat :=
  (mem.drop (k * elem)).take elem

/-- A sample whose image has four 4-byte elements, the bytes `1 .. 16`, at the
16-byte aligned address `4096`. -/
def floatSample : DetectionSample :=
  { index := 3, buf_addr := 4096,
    buf := [1, 2, 3, 4, 5, 6, 7, 8, 9, 10, 11, 12, 13, 14, 15, 16], callback := 0 }

/-- The same sample with its image at the address `4100`, which is not a
multiple of 16. -/
def misalignedSample : DetectionSample := { floatSample with buf_addr := 4100 }

/-- An input buffer of sixteen zero bytes. -/
def zeroInput : List Nat := List.replicate 16 0

/-! ## Post-processing of the object-detection adapter -/

/-- Modelled from the spec: the configuration values post-processing reads.
`getMaxDetections` and `disableNMS` are getters of `ModelConfig`
(`benchmark_config.h`); `getBatchSize` is declared by `IModelConfig`, outside
the repository sources. -/
structure DetectionConfig where
  batch_size : Int
  max_detections : Int
  disable_nms : Bool
deriving DecidableEq, Repr

/-- The class `ResultData`: the `float` array `_buffer` (a cell that was never
written is `none`) and `_size`. -/
structure ResultData (F : Type) where
  buffer : List (Option F)
  size : Int
deriving DecidableEq, Repr

/-- The constructor of `ResultData`: `new float[(getMaxDetections() + 1) * 7]`.
The length is an `int` expression (`getMaxDetections` returns `int`), so the
sum and the product are reduced to the range of `int`; `new` throws for a
negative length. -/
def ResultData.new (F : Type) (cfg : DetectionConfig) : Option (ResultData F) :=
  let n := wrapInt (wrapInt (cfg.max_detections + 1) * 7)
  if n < 0 then none
  else some { buffer := List.replicate n.toNat none, size := 0 }

/-- The class `WorkingBuffers`. -/
structure WorkingBuffers (F : Type) where
  nms_results : List (List (List F))
  reformatted_results : List (ResultData F)
deriving DecidableEq, Repr

/-- The constructor of `WorkingBuffers`: one empty row list and one fresh
`ResultData` per position of a batch. -/
def WorkingBuffers.new (F : Type) (cfg : DetectionConfig) : Option (WorkingBuffers F) :=
  if 0 < cfg.batch_size then
    (ResultData.new F cfg).map fun rd =>
      { nms_results := List.replicate cfg.batch_size.toNat []
        reformatted_results := List.replicate cfg.batch_size.toNat rd }
  else some { nms_results := [], reformatted_results := [] }

/-- The method `WorkingBuffers::reset`: clears every row list (there is one
per position of a batch). -/
def WorkingBuffers.reset {F : Type} (wbs : WorkingBuffers F) : WorkingBuffers F :=
  { wbs with nms_results := wbs.nms_results.map fun _ => [] }

/-- The method `popWorkingBuffers`: a new `WorkingBuffers` when the list is
empty, its last element otherwise. -/
def popWorkingBuffers {F : Type} (cfg : DetectionConfig) (l : List (WorkingBuffers F)) :
    Option (WorkingBuffers F × List (WorkingBuffers F)) :=
  match l.getLast? with
  | none => (WorkingBuffers.new F cfg).map fun wbs => (wbs, l)
  | some wbs => some (wbs, l.dropLast)

/-- The method `pushWorkingBuffers`. -/
def pushWorkingBuffers {F : Type} (bufs : WorkingBuffers F) (l : List (WorkingBuffers F)) :
    List (WorkingBuffers F) :=
  l ++ [bufs.reset]

/-- The local `num_elems`: `nms_res.size() < getMaxDetections() + 1` compares
a `size_t` with an `int`, which is converted to `size_t` (modulo `2^64`). -/
def numElems (cfg : DetectionConfig) (rows : Nat) : Int :=
  if (rows : Int) < (cfg.max_detections + 1) % 2 ^ 64 then (rows : Int)
  else cfg.max_detections + 1

/-- The seven assignments `buffer[0..6] = nms_res[j][0..6]`, `buffer` standing
at offset `off` of the array; an index out of range is undefined. -/
def writeRow {F : Type} (buffer : List (Option F)) (off : Nat) (row : List F) :
    Option (List (Option F)) :=
  if 7 ≤ row.length ∧ off + 7 ≤ buffer.length then
    some (buffer.take off ++ (row.take 7).map some ++ buffer.drop (off + 7))
  else none

/-- The loop `for (int j = 0; j < num_elems; j++)` of `postprocessResults`,
with `n` passes left from row `j` on. -/
def copyRows {F : Type} (nms_res : List (List F)) :
    Nat → Nat → List (Option F) → Option (List (Option F))
  | 0, _, buffer => some buffer
  | n + 1, j, buffer =>
    match nms_res[j]? with
    | none => none
    | some row =>
      match writeRow buffer (7 * j) row with
      | none => none
      | some b => copyRows nms_res n (j + 1) b

/-- The body of the loop of `postprocessResults` for position `i` up to the
callback: `toFloat` is the conversion `(float)` of the sample index and
`anchorBoxProcessing` the call into the NMS plug-in on the device output of
position `i`, which updates the row list it is given (Modelled from the spec:
`nms_abp.h` is not part of the repository sources).  Returns the row list and
the `ResultData` of the position afterwards. -/
def fillResult {F : Type} (cfg : DetectionConfig) (toFloat : Int → F)
    (anchorBoxProcessing : Nat → F → List (List F) → List (List F))
    (i : Nat) (s : DetectionSample) (nms_res : List (List F)) (rd : ResultData F) :
    Option (List (List F) × ResultData F) :=
  if cfg.disable_nms then
    if 0 < rd.buffer.length then
      some (nms_res, { buffer := rd.buffer.set 0 (some (toFloat s.index)), size := 1 * 7 })
    else none
  else
    let nms1 := anchorBoxProcessing i (toFloat s.index) nms_res
    let num_elems := numElems cfg nms1.length
    (copyRows nms1 num_elems.toNat 0 rd.buffer).map fun b =>
      (nms1, { buffer := b, size := num_elems * 7 })

/-- A call of a sample's callback: the function called, the sample passed,
the size passed, and the data pointer passed - the position `result` of the
`ResultData` it belongs to and the contents `data` of that array at the call. -/
structure CallbackCall (F : Type) where
  callback : Nat
  sample : DetectionSample
  size : Int
  result : Nat
  data : List (Option F)
deriving DecidableEq, Repr

/-- The loop `for (int i = 0; i < s->size(); i++)` of `postprocessResults`
from position `i` on: the callback calls in order and the working buffers
afterwards. -/
def postprocessLoop {F : Type} (cfg : DetectionConfig) (toFloat : Int → F)
    (anchorBoxProcessing : Nat → F → List (List F) → List (List F)) :
    Nat → List DetectionSample → WorkingBuffers F →
      Option (List (CallbackCall F) × WorkingBuffers F)
  | _, [], wbs => some ([], wbs)
  | i, s :: rest, wbs =>
    match wbs.nms_results[i]?, wbs.reformatted_results[i]? with
    | some nms_res, some rd =>
      match fillResult cfg toFloat anchorBoxProcessing i s nms_res rd with
      | none => none
      | some (nms1, rd1) =>
        match postprocessLoop cfg toFloat anchorBoxProcessing (i + 1) rest
            { nms_results := wbs.nms_results.set i nms1
              reformatted_results := wbs.reformatted_results.set i rd1 } with
        | none => none
        | some (calls, wbs1) =>
          some ({ callback := s.callback, sample := s, size := rd1.size, result := i,
                  data := rd1.buffer } :: calls, wbs1)
    | _, _ => none

/-- The method `ObjectDetectionModel::postprocessResults(samples, out_ptrs)`:
the callback calls in order and the list of working buffers afterwards (the
device output `out_ptrs` is read by `anchorBoxProcessing` only). -/
def postprocessResults {F : Type} (cfg : DetectionConfig) (toFloat : Int → F)
    (anchorBoxProcessing : Nat → F → List (List F) → List (List F))
    (working_buffers_list : List (WorkingBuffers F)) (samples : List DetectionSample) :
    Option (List (CallbackCall F) × List (WorkingBuffers F)) :=
  match popWorkingBuffers cfg working_buffers_list with
  | none => none
  | some (wbs, l) =>
    match postprocessLoop cfg toFloat anchorBoxProcessing 0 samples wbs with
    | none => none
    | some (calls, wbs1) => some (calls, pushWorkingBuffers wbs1 l)

/-- Working buffers as the constructor builds them and `reset` leaves them:
one empty row list and one `ResultData` of full capacity per position. -/
def WorkingBuffers.WF {F : Type} (cfg : DetectionConfig) (wbs : WorkingBuffers F) : Prop :=
  wbs.nms_results = List.replicate cfg.batch_size.toNat [] ∧
  wbs.reformatted_results.length = cfg.batch_size.toNat ∧
  ∀ rd ∈ wbs.reformatted_results, rd.buffer.length = ((cfg.max_detections + 1) * 7).toNat

/-- A configuration with batches of three samples, at most one detection
beyond the first, and NMS enabled. -/
def exampleDetection : DetectionConfig :=
  { batch_size := 3, max_detections := 1, disable_nms := false }

/-- An NMS stand-in that reports three rows for every position, tagged with
the sample index and the position. -/
def exampleNms (i : Nat) (x : Int) (prev : List (List Int)) : List (List Int) :=
  prev ++ [[x, 0, 0, 0, 0, (i : Int), 1], [x, 1, 1, 1, 1, (i : Int), 2],
    [x, 2, 2, 2, 2, (i : Int), 3]]

/-- Two samples with the indices `3` and `5` and the callbacks `10` and `11`. -/
def exampleSamples : List DetectionSample :=
  [{ index := 3, buf_addr := 0, buf := [], callback := 10 },
   { index := 5, buf_addr := 0, buf := [], callback := 11 }]

/-! ## Batches issued by the shim -/

/-- The batches the shim has issued, in order: with loopback the ones passed
to `postprocessResults`, otherwise the ones of the payloads given to `run`. -/
def issuedBatches {Sample : Type} (loop_back : Bool) (calls : List (Call Sample)) :
    List (List Sample) :=
  if loop_back then postprocessed calls else (runPayloads calls).map fun p => p.samples

/-- Without loopback, the batches given to `run`, followed by the one in the
hand-off cell, are the batches handed over. -/
def IssueInv {Sample : Type} (hist : List (Obs Sample)) (w : World Sample) : Prop :=
  w.dev.loop_back = false →
    ((runPayloads w.calls).map fun p => p.samples) ++ w.cellBatches = acquiredBatches hist

/-- The payload slot of the backend example after the batch `[7]` has been
written into it. -/
def handedPayload : Payload Nat := { samples := [7], device := 0, activation := 0, set := 0 }

/-- The backend example after `2^31 - 2` batches have gone through its queue
of depth 2: the queue is empty, `sfront = sback = 2147483646`. -/
def wornDevice : Device Nat :=
  { backendInit.dev with sfront := 2147483646, sback := 2147483646 }

/-- The process that holds the device.  `running w`: its threads run, the
state is `w`.  `terminated msg w`: an exception has left the function of one
of its threads and `std::terminate` has ended the process, in state `w`.
`aborted w`: a failed `assert` has ended it through `abort`. -/
inductive Process (Sample : Type) where
  | running (w : World Sample)
  | terminated (msg : String) (w : World Sample)
  | aborted (w : World Sample)
deriving DecidableEq, Repr

/-- One step of the process.  While it runs, the step is the step of the
system.  `device.h` has no `try` block: an exception thrown during the step
leaves the function of the thread that took it - for the scheduler
`QueueScheduler`, the function of the thread started by
`scheduler = std::thread(&Device::QueueScheduler, this)` in `DeviceInit` -
and `std::terminate` ends the process; a failed `assert` ends it through
`abort`.  The one `throw` and the one `assert` of the steps are those of
`EnqueueShim`, which the scheduler thread runs inline.  In a process that has
ended no thread takes a step: nothing is returned to a caller, no call is
made. -/
def Process.step {Sample : Type} (P : Process Sample) (a : Action Sample) :
    Res Sample (List (Obs Sample) × Process Sample) :=
  match P with
  | Process.running w =>
    match Kilt.step w a with
    | Except.ok r => pure ([r.1], Process.running r.2)
    | Except.error (Fault.thrown msg w1) => pure ([], Process.terminated msg w1)
    | Except.error (Fault.assertion w1) => pure ([], Process.aborted w1)
    | Except.error Fault.undefined => Except.error Fault.undefined
    | Except.error Fault.fuel => Except.error Fault.fuel
  | Process.terminated msg w => pure ([], Process.terminated msg w)
  | Process.aborted w => pure ([], Process.aborted w)

/-- A run of the process: the observations in order and the state of the
process at the end. -/
def Process.exec {Sample : Type} (P : Process Sample) :
    List (Action Sample) → Res Sample (List (Obs Sample) × Process Sample)
  | [] => pure ([], P)
  | a :: as => do
    let r ← P.step a
    let rs ← Process.exec r.2 as
    pure (r.1 ++ rs.1, rs.2)

/-- What the owner of the device receives from it: the values returned by its
calls of `Inference` (`-1` or the slack), in call order.  `Construct`,
`Inference` and the destructor are the public methods of `Device`; the first
and the last return nothing, and the class has no status member. -/
def ownerReceives {Sample : Type} (os : List (Obs Sample)) : List Int :=
  os.filterMap fun o =>
    match o with
    | Obs.inference _ r => some r
    | _ => none

/-- After the hand-over the scheduler calls the shim; the owner then submits
two more batches, the scheduler is scheduled again and the owner starts the
destructor. -/
def failingRunActions : List (Action Nat) :=
  handOverActions ++ [Action.sched 1, Action.inference [8], Action.sched 1,
    Action.inference [9], Action.shutdown]

/-! ## Theorems -/

/-! ### Primitives -/

theorem ofOption_eq_ok {Sample α : Type} (x : Option α) (a : α) :
    (ofOption x : Res Sample α) = Except.ok a ↔ x = some a := by
  cases x <;> simp [ofOption]

theorem bind_eq_ok {Sample α β : Type} (x : Res Sample α) (f : α → Res Sample β) (b : β) :
    (x >>= f) = Except.ok b ↔ ∃ a, x = Except.ok a ∧ f a = Except.ok b := by
  cases x <;> simp [bind, Except.bind]

theorem pure_eq_ok {Sample α : Type} (a b : α) :
    (pure a : Res Sample α) = Except.ok b ↔ a = b := by
  simp [pure, Except.pure]

theorem vecGet_eq_some {α : Type} (v : List α) (i : Int) (x : α) :
    vecGet v i = some x ↔ 0 ≤ i ∧ v[i.toNat]? = some x := by
  unfold vecGet
  by_cases h : 0 ≤ i <;> simp [h]

theorem vecSet_eq_some {α : Type} (v : List α) (i : Int) (x : α) (v' : List α) :
    vecSet v i x = some v' ↔ 0 ≤ i ∧ i.toNat < v.length ∧ v.set i.toNat x = v' := by
  unfold vecSet
  by_cases h : 0 ≤ i ∧ i.toNat < v.length
  · simp [h]
  · simp only [h, if_false]
    constructor
    · intro h'; exact absurd h' (by simp)
    · intro h'; exact absurd ⟨h'.1, h'.2.1⟩ h

theorem vecGet_lt {α : Type} (v : List α) (i : Int) (x : α) (h : vecGet v i = some x) :
    0 ≤ i ∧ i.toNat < v.length := by
  rw [vecGet_eq_some] at h
  exact ⟨h.1, (List.getElem?_eq_some.mp h.2).1⟩

theorem vecSet_of_vecGet {α : Type} (v : List α) (i : Int) (x y : α)
    (h : vecGet v i = some x) : vecSet v i y = some (v.set i.toNat y) := by
  have := vecGet_lt v i x h
  unfold vecSet
  rw [if_pos this]

/-! ### Admission queue: `Inference` -/

theorem cmod_of_nonneg {a b : Int} (ha : 0 ≤ a) (hb : 0 < b) : cmod a b = some (a % b) := by
  unfold cmod
  rw [if_neg (by omega), Int.tmod_eq_emod ha (by omega)]

theorem wrapInt_of_isInt32 {x : Int} (h : isInt32 x) : wrapInt x = x := by
  unfold isInt32 at h
  unfold wrapInt
  omega

theorem wrapInt_le {x : Int} (h : -2147483648 ≤ x) : wrapInt x ≤ x := by
  unfold wrapInt
  omega

theorem wrapInt_lt (x : Int) : wrapInt x < 2147483648 := by
  unfold wrapInt
  omega

/-- On a well-formed queue the two outcomes of `Inference`. -/
theorem Inference_eval {Sample : Type} (d : Device Sample) (b : List Sample)
    (hwf : d.QueueWF) :
    d.Inference b =
      if d.sback ≥ wrapInt (d.sfront + d.samples_queue_depth) then some (-1, d)
      else some (wrapInt (d.samples_queue_depth - wrapInt (d.sback + 1 - d.sfront)),
        { d with samples_queue := d.samples_queue.set (d.sback % d.samples_queue_depth).toNat b
                 sback := d.sback + 1 }) := by
  obtain ⟨hlen, hf, hfb⟩ := hwf
  unfold Device.Inference
  by_cases hg : d.sback ≥ wrapInt (d.sfront + d.samples_queue_depth)
  · rw [if_pos hg, if_pos hg]
  · rw [if_neg hg, if_neg hg]
    have hle := wrapInt_le (show -2147483648 ≤ d.sfront + d.samples_queue_depth by omega)
    have hd : 0 < d.samples_queue_depth := by omega
    have hm0 : 0 ≤ d.sback % d.samples_queue_depth := Int.emod_nonneg _ (by omega)
    have hm1 : d.sback % d.samples_queue_depth < d.samples_queue_depth :=
      Int.emod_lt_of_pos _ hd
    rw [cmod_of_nonneg (by omega) hd]
    simp only [Option.bind_eq_bind, Option.some_bind, vecSet]
    rw [if_pos ⟨hm0, by omega⟩]
    rfl

theorem Inference_of_full {Sample : Type} (d : Device Sample) (b : List Sample)
    (h0 : -2147483648 ≤ d.sfront + d.samples_queue_depth)
    (h : d.samples_queue_depth ≤ d.sback - d.sfront) : d.Inference b = some (-1, d) := by
  have hle := wrapInt_le h0
  unfold Device.Inference
  rw [if_pos (by omega)]

/-- A call whose sum `sfront + samples_queue_depth` has wrapped to a value
not above `sback` is rejected, whatever the occupancy. -/
theorem Inference_of_wrapped {Sample : Type} (d : Device Sample) (b : List Sample)
    (h : wrapInt (d.sfront + d.samples_queue_depth) ≤ d.sback) :
    d.Inference b = some (-1, d) := by
  unfold Device.Inference
  rw [if_pos h]

theorem Inference_of_not_full {Sample : Type} (d : Device Sample) (b : List Sample)
    (hwf : d.QueueWF) (hs : d.sfront + d.samples_queue_depth < 2147483648)
    (h : d.sback - d.sfront < d.samples_queue_depth) :
    d.Inference b = some (d.samples_queue_depth - (d.sback + 1 - d.sfront),
      { d with samples_queue := d.samples_queue.set (d.sback % d.samples_queue_depth).toNat b
               sback := d.sback + 1 }) := by
  rw [Inference_eval d b hwf]
  obtain ⟨hlen, hf, hfb⟩ := hwf
  have e0 : wrapInt (d.sfront + d.samples_queue_depth) = d.sfront + d.samples_queue_depth :=
    wrapInt_of_isInt32 ⟨by omega, hs⟩
  have e1 : wrapInt (d.sback + 1 - d.sfront) = d.sback + 1 - d.sfront :=
    wrapInt_of_isInt32 ⟨by omega, by omega⟩
  have e2 : wrapInt (d.samples_queue_depth - (d.sback + 1 - d.sfront))
      = d.samples_queue_depth - (d.sback + 1 - d.sfront) :=
    wrapInt_of_isInt32 ⟨by omega, by omega⟩
  rw [e0, if_neg (by omega), e1, e2]

/-- What a returning call of `Inference` has done on a well-formed queue: it
has rejected (`-1`, device unchanged), or the queue was not full and the batch
is stored at `sback mod depth` with `sback` advanced and a return `≥ 0`. -/
theorem Inference_ok_cases {Sample : Type} (d d' : Device Sample) (b : List Sample)
    (r : Int) (hwf : d.QueueWF) (h : d.Inference b = some (r, d')) :
    (r = -1 ∧ d' = d) ∨
    (d.sback - d.sfront < d.samples_queue_depth ∧ 0 ≤ r ∧
      d.sback + 1 < 2147483648 ∧
      d' = { d with
        samples_queue := d.samples_queue.set (d.sback % d.samples_queue_depth).toNat b
        sback := d.sback + 1 }) := by
  rw [Inference_eval d b hwf] at h
  obtain ⟨hlen, hf, hfb⟩ := hwf
  by_cases hg : d.sback ≥ wrapInt (d.sfront + d.samples_queue_depth)
  · rw [if_pos hg] at h
    simp only [Option.some.injEq, Prod.mk.injEq] at h
    exact Or.inl ⟨h.1.symm, h.2.symm⟩
  · rw [if_neg hg] at h
    simp only [Option.some.injEq, Prod.mk.injEq] at h
    have hle := wrapInt_le (show -2147483648 ≤ d.sfront + d.samples_queue_depth by omega)
    have hlt := wrapInt_lt (d.sfront + d.samples_queue_depth)
    refine Or.inr ⟨by omega, ?_, by omega, h.2.symm⟩
    rw [← h.1]
    unfold wrapInt at hg hle hlt ⊢
    omega

theorem Inference_QueueWF {Sample : Type} (d : Device Sample) (b : List Sample)
    (hwf : d.QueueWF) (r : Int) (d' : Device Sample) (hr : d.Inference b = some (r, d')) :
    d'.QueueWF := by
  rcases Inference_ok_cases d d' b r hwf hr with ⟨-, e⟩ | ⟨-, -, -, e⟩
  · rw [e]; exact hwf
  · obtain ⟨hlen, hf, hfb⟩ := hwf
    rw [e]
    refine ⟨?_, hf, ?_⟩
    · simpa using hlen
    · show d.sfront ≤ d.sback + 1
      omega

/-- Returns of a burst of submissions: the `i`-th one is accepted exactly
when `i` is below the slack `samples_queue_depth - (sback - sfront)`. -/
theorem submitAll_spec {Sample : Type} (bs : List (List Sample)) :
    ∀ d : Device Sample, d.QueueWF → d.sfront + d.samples_queue_depth < 2147483648 →
      ∃ rs d', d.submitAll bs = some (rs, d') ∧ rs.length = bs.length ∧
        ∀ i : Nat, ∀ hi : i < rs.length,
          (0 ≤ rs[i] ↔ (i : Int) < d.samples_queue_depth - (d.sback - d.sfront)) := by
  induction bs with
  | nil => intro d _ _; exact ⟨[], d, rfl, rfl, fun i hi => absurd hi (by simp)⟩
  | cons b bs ih =>
    intro d hwf hs
    have h0 : -2147483648 ≤ d.sfront + d.samples_queue_depth := by
      obtain ⟨hlen, hf, hfb⟩ := hwf
      omega
    by_cases h : d.samples_queue_depth ≤ d.sback - d.sfront
    · obtain ⟨rs, d', h1, h2, h3⟩ := ih d hwf hs
      refine ⟨-1 :: rs, d', ?_, by simp [h2], ?_⟩
      · simp [Device.submitAll, Inference_of_full d b h0 h, h1]
      · intro i hi
        cases i with
        | zero => simp; omega
        | succ i =>
          simp only [List.getElem_cons_succ]
          rw [h3 i (by simpa using hi)]
          constructor <;> intro <;> omega
    · have hacc := Inference_of_not_full d b hwf hs (by omega)
      have hwf' := Inference_QueueWF d b hwf _ _ hacc
      obtain ⟨rs, d', h1, h2, h3⟩ := ih _ hwf' hs
      refine ⟨(d.samples_queue_depth - (d.sback + 1 - d.sfront)) :: rs, d', ?_, by simp [h2], ?_⟩
      · simp only [Device.submitAll, hacc, Option.bind_eq_bind, Option.some_bind, h1]
      · intro i hi
        cases i with
        | zero => simp; omega
        | succ i =>
          simp only [List.getElem_cons_succ]
          rw [h3 i (by simpa using hi)]
          simp only [Nat.cast_add, Nat.cast_one]
          constructor <;> intro <;> omega

theorem Inference_defined {Sample : Type} (d : Device Sample) (b : List Sample)
    (hwf : d.QueueWF) : ∃ r d', d.Inference b = some (r, d') := by
  rw [Inference_eval d b hwf]
  by_cases hg : d.sback ≥ wrapInt (d.sfront + d.samples_queue_depth)
  · exact ⟨_, _, by rw [if_pos hg]⟩
  · exact ⟨_, _, by rw [if_neg hg]⟩

/-- The return value of a call that finds room, for `int` members and a sum
in range: it is not `-1`. -/
theorem Inference_eq_some_of_not_full {Sample : Type} (d : Device Sample) (b : List Sample)
    (hint : d.IntRange) (hsum : isInt32 (d.sfront + d.samples_queue_depth))
    (h : d.sback - d.sfront < d.samples_queue_depth) (r : Int) (d' : Device Sample)
    (hr : d.Inference b = some (r, d')) : r ≠ -1 := by
  unfold Device.Inference at hr
  rw [wrapInt_of_isInt32 hsum, if_neg (by omega)] at hr
  simp only [Option.bind_eq_bind, Option.bind_eq_some, Option.some.injEq, Prod.mk.injEq] at hr
  obtain ⟨i, -, q, -, hr, -⟩ := hr
  obtain ⟨⟨a1, a2⟩, ⟨a3, a4⟩, ⟨a5, a6⟩⟩ := hint
  obtain ⟨a7, a8⟩ := hsum
  rw [← hr]
  show wrapInt (d.samples_queue_depth - wrapInt (d.sback + 1 - d.sfront)) ≠ -1
  unfold wrapInt
  omega

theorem getPayload_nil {Sample : Type} (rb : RingBuffer Sample) (h : rb.q = []) :
    rb.getPayload = (none, rb) := by
  unfold RingBuffer.getPayload; rw [h]

theorem getPayload_cons {Sample : Type} (rb : RingBuffer Sample) (f : Option (Payload Sample))
    (rest : List (Option (Payload Sample))) (h : rb.q = f :: rest) :
    rb.getPayload = (f, { rb with q := rest }) := by
  unfold RingBuffer.getPayload; rw [h]

theorem release_snd {Sample : Type} (rb : RingBuffer Sample) (p : Option (Payload Sample)) :
    (rb.release p).2 = { rb with q := rb.q ++ [p] } := rfl

theorem getPayload_eq_none_iff {Sample : Type} (rb : RingBuffer Sample)
    (hq : ∀ x ∈ rb.q, x ≠ none) : (rb.getPayload).1 = none ↔ rb.q = [] := by
  constructor
  · intro h
    cases hrb : rb.q with
    | nil => rfl
    | cons f rest =>
      rw [getPayload_cons rb f rest hrb] at h
      exact absurd h (hq f (by rw [hrb]; exact List.mem_cons_self _ _))
  · intro h; rw [getPayload_nil rb h]

/-- C8: on a ring buffer whose queue holds payload slots only (no null
pointer), `getPayload` returns null exactly when the queue is empty, and then
leaves the buffer alone; otherwise it returns the head of the queue, removes
exactly this entry and keeps the rest in order.  The queue is in order of
construction (`set = 0, 1, ...`) and `release` appends at the tail, so the head
is the slot constructed or released earliest. -/
theorem getPayload_fifo {Sample : Type} (rb : RingBuffer Sample)
    (hq : ∀ x ∈ rb.q, x ≠ none) :
    ((rb.getPayload).1 = none ↔ rb.q = []) ∧
    (rb.q = [] → rb.getPayload = (none, rb)) ∧
    (∀ f rest, rb.q = f :: rest →
      ∃ p, f = some p ∧ (rb.getPayload).1 = some p ∧ (rb.getPayload).2.q = rest ∧
        (rb.getPayload).2.size = rb.size) ∧
    (∀ p, (rb.release p).2.q = rb.q ++ [p]) ∧
    (∀ d a s : Int, (RingBuffer.new d a s : RingBuffer Sample).q =
      (List.range s.toNat).map
        (fun (i : Nat) =>
          some { samples := [], device := d, activation := a, set := (i : Int) })) := by
  refine ⟨getPayload_eq_none_iff rb hq, getPayload_nil rb, ?_, fun _ => rfl, fun _ _ _ => rfl⟩
  · intro f rest h
    have hf : f ≠ none := hq f (by rw [h]; exact List.mem_cons_self _ _)
    obtain ⟨p, rfl⟩ := Option.ne_none_iff_exists'.mp hf
    exact ⟨p, rfl, by rw [getPayload_cons rb _ rest h], by rw [getPayload_cons rb _ rest h],
      by rw [getPayload_cons rb _ rest h]⟩

/-- C9 (the code at the failing inputs): releasing into a buffer that already
holds `size` slots, or releasing a null pointer, only writes the diagnostic
line; the pointer is pushed all the same, so the queue grows beyond `size`
and a null pointer is stored and later returned by `getPayload`. -/
theorem release_pushes_when_full_or_null :
    let rb : RingBuffer Nat := RingBuffer.new 0 0 1
    let p : Payload Nat := { samples := [], device := 0, activation := 0, set := 0 }
    (rb.q.length : Int) = rb.size ∧
    rb.release (some p) = (["extra elem in the queue"], { q := [some p, some p], size := 1 }) ∧
    (((rb.release (some p)).2.q.length : Int) > rb.size) ∧
    (RingBuffer.new 0 0 0 : RingBuffer Nat).release none
      = (["extra elem in the queue"], { q := [none], size := 0 }) ∧
    none ∈ ((RingBuffer.new 0 0 0 : RingBuffer Nat).release none).2.q := by
  decide

/-! ### Completion dispatcher -/

theorem PostResults_other {Sample : Type} (w : World Sample) (code : Nat)
    (userData : Option (Payload Sample)) :
    PostResults w (QAicEventCompletionType.QAIC_EVENT_OTHER code) userData = Except.ok w := by
  unfold PostResults
  rw [if_neg (by simp)]
  rfl

theorem PostResults_complete {Sample : Type} (w : World Sample) (p : Payload Sample)
    (out_a : List (List Nat)) (out : List Nat) (rb : RingBuffer Sample)
    (h1 : vecGet w.dev.buffers_out p.activation = some out_a)
    (h2 : vecGet out_a p.set = some out)
    (h3 : vecGet w.dev.ring_buf p.activation = some rb) :
    PostResults w QAicEventCompletionType.QAIC_EVENT_DEVICE_COMPLETE (some p) = Except.ok
      { w with
        calls := w.calls ++ [Call.postprocessResults p.samples out]
        dev := { w.dev with
          ring_buf := w.dev.ring_buf.set p.activation.toNat { rb with q := rb.q ++ [some p] } }
        cerr := w.cerr ++ (rb.release (some p)).1 } := by
  unfold PostResults
  rw [if_pos rfl]
  simp only [h1, h2, h3, ofOption, bind, Except.bind, vecSet_of_vecGet _ _ _ _ h3, release_snd]
  rfl

theorem PostResults_complete_ok {Sample : Type} (w w' : World Sample)
    (ud : Option (Payload Sample))
    (h : PostResults w QAicEventCompletionType.QAIC_EVENT_DEVICE_COMPLETE ud = Except.ok w') :
    ∃ p out_a out rb, ud = some p ∧ vecGet w.dev.buffers_out p.activation = some out_a ∧
      vecGet out_a p.set = some out ∧ vecGet w.dev.ring_buf p.activation = some rb ∧
      w' = { w with
        calls := w.calls ++ [Call.postprocessResults p.samples out]
        dev := { w.dev with
          ring_buf := w.dev.ring_buf.set p.activation.toNat { rb with q := rb.q ++ [some p] } }
        cerr := w.cerr ++ (rb.release (some p)).1 } := by
  cases ud with
  | none => simp [PostResults] at h
  | some p =>
    unfold PostResults at h
    rw [if_pos rfl] at h
    simp only [bind_eq_ok, ofOption_eq_ok] at h
    obtain ⟨out_a, h1, out, h2, rb, h3, rbs, h4, h5⟩ := h
    refine ⟨p, out_a, out, rb, rfl, h1, h2, h3, ?_⟩
    have := PostResults_complete w p out_a out rb h1 h2 h3
    rw [vecSet_of_vecGet _ _ _ _ h3] at h4
    simp only [Option.some.injEq] at h4
    rw [pure_eq_ok] at h5
    rw [← h5, ← h4]
    rfl

/-- C10: for a payload whose `activation` and `set` index the device's tables,
`PostResults(event, k, p)` leaves the whole state as it was exactly when `k` is
not device-complete (no call, no ring buffer touched); for device-complete it
makes exactly one call, `postprocessResults(p.samples,
buffers_out[p.activation][p.set])`, and appends `p` at the tail of
`ring_buf[p.activation]`, every other ring buffer and the rest of the device
staying as they were. -/
theorem PostResults_acts_iff_complete {Sample : Type} (w : World Sample)
    (k : QAicEventCompletionType) (p : Payload Sample)
    (out_a : List (List Nat)) (out : List Nat) (rb : RingBuffer Sample)
    (h1 : vecGet w.dev.buffers_out p.activation = some out_a)
    (h2 : vecGet out_a p.set = some out)
    (h3 : vecGet w.dev.ring_buf p.activation = some rb) :
    (PostResults w k (some p) = Except.ok w ↔
      k ≠ QAicEventCompletionType.QAIC_EVENT_DEVICE_COMPLETE) ∧
    (k = QAicEventCompletionType.QAIC_EVENT_DEVICE_COMPLETE →
      ∃ w', PostResults w k (some p) = Except.ok w' ∧
        w'.calls = w.calls ++ [Call.postprocessResults p.samples out] ∧
        vecGet w'.dev.ring_buf p.activation = some { rb with q := rb.q ++ [some p] } ∧
        (∀ j : Int, j ≠ p.activation → vecGet w'.dev.ring_buf j = vecGet w.dev.ring_buf j) ∧
        w'.dev = { w.dev with ring_buf := w'.dev.ring_buf } ∧
        w'.inflight = w.inflight ∧ w'.activation = w.activation ∧ w'.qs = w.qs ∧
        w'.pc = w.pc ∧ w'.run_status = w.run_status) := by
  have hlt := vecGet_lt _ _ _ h3
  constructor
  · constructor
    · intro h hk
      subst hk
      rw [PostResults_complete w p out_a out rb h1 h2 h3] at h
      have hw := Except.ok.inj h
      have hc := congrArg (fun v => v.calls.length) hw
      simp at hc
    · intro hk
      cases k with
      | QAIC_EVENT_DEVICE_COMPLETE => exact absurd rfl hk
      | QAIC_EVENT_OTHER code => exact PostResults_other w code _
  · intro hk
    subst hk
    refine ⟨_, PostResults_complete w p out_a out rb h1 h2 h3, rfl, ?_, ?_, rfl, rfl, rfl, rfl,
      rfl, rfl⟩
    · rw [vecGet_eq_some]
      refine ⟨hlt.1, ?_⟩
      simp only [List.getElem?_set, if_true]
      rw [if_pos hlt.2]
    · intro j hj
      unfold vecGet
      by_cases h0 : 0 ≤ j
      · simp only [h0, if_true]
        rw [List.getElem?_set, if_neg]
        intro e
        apply hj
        have := hlt.1
        omega
      · simp only [h0, if_false]

/-! ### Shape of the results of the scheduler and shim operations -/

theorem schedulerPop_ok {Sample : Type} (w w' : World Sample) (o : Obs Sample)
    (h : schedulerPop w = Except.ok (o, w')) :
    (w.dev.sfront = w.dev.sback ∧ o = Obs.popNone ∧ w' = w) ∨
    (w.dev.sfront ≠ w.dev.sback ∧ ∃ i b,
      cmod w.dev.sfront w.dev.samples_queue_depth = some i ∧
      vecGet w.dev.samples_queue i = some b ∧ o = Obs.popped b ∧
      w' = { w with qs := b, dev := { w.dev with sfront := w.dev.sfront + 1 },
                    pc := SchedPc.inner }) := by
  unfold schedulerPop at h
  by_cases hfb : w.dev.sfront = w.dev.sback
  · rw [if_pos hfb, pure_eq_ok] at h
    simp only [Prod.mk.injEq] at h
    exact Or.inl ⟨hfb, h.1.symm, h.2.symm⟩
  · rw [if_neg hfb] at h
    simp only [bind_eq_ok, ofOption_eq_ok, pure_eq_ok, Prod.mk.injEq] at h
    obtain ⟨i, hi, b, hb, ho, hw⟩ := h
    exact Or.inr ⟨hfb, i, b, hi, hb, ho.symm, hw.symm⟩

theorem schedulerAcquire_ok {Sample : Type} (w w' : World Sample) (o : Obs Sample)
    (h : schedulerAcquire w = Except.ok (o, w')) :
    ∃ a rb, cmod (w.activation + 1) w.dev.cfg.activation_count = some a ∧
      vecGet w.dev.ring_buf a = some rb ∧
      ((rb.getPayload.1 = none ∧ o = Obs.noSlot a ∧
        w' = { w with activation := a
                      dev := { w.dev with
                        ring_buf := w.dev.ring_buf.set a.toNat rb.getPayload.2 } }) ∨
       (∃ p, rb.getPayload.1 = some p ∧ 0 < w.dev.payloads.length ∧
        o = Obs.acquired a { p with samples := w.qs } ∧
        w' = { w with activation := a
                      dev := { w.dev with
                        ring_buf := w.dev.ring_buf.set a.toNat rb.getPayload.2
                        payloads := w.dev.payloads.set 0 (some { p with samples := w.qs }) }
                      pc := SchedPc.shim })) := by
  unfold schedulerAcquire at h
  simp only [bind_eq_ok, ofOption_eq_ok] at h
  obtain ⟨a, ha, rb, hrb, rbs, hrbs, h⟩ := h
  rw [vecSet_of_vecGet _ _ _ _ hrb] at hrbs
  simp only [Option.some.injEq] at hrbs
  subst hrbs
  refine ⟨a, rb, ha, hrb, ?_⟩
  cases hp : rb.getPayload.1 with
  | none =>
    rw [hp] at h
    simp only [pure_eq_ok, Prod.mk.injEq] at h
    exact Or.inl ⟨rfl, h.1.symm, h.2.symm⟩
  | some p =>
    rw [hp] at h
    simp only [bind_eq_ok, ofOption_eq_ok, pure_eq_ok, Prod.mk.injEq, vecSet_eq_some] at h
    obtain ⟨ps, ⟨-, hlen, hps⟩, ho, hw⟩ := h
    subst hps
    exact Or.inr ⟨p, rfl, by simpa using hlen, ho.symm, hw.symm⟩

theorem shimConfigure_ok {Sample : Type} (w w1 : World Sample) (p : Payload Sample)
    (h : shimConfigure w p = Except.ok w1) : w1 = { w with calls := w1.calls } := by
  unfold shimConfigure at h
  by_cases h0 : w.dev.cfg.input_select = 0
  · rw [if_pos h0] at h
    simp only [bind_eq_ok, ofOption_eq_ok, pure_eq_ok] at h
    obtain ⟨_, _, _, _, h⟩ := h
    rw [← h]
  · rw [if_neg h0] at h
    by_cases h1 : w.dev.cfg.input_select = 1
    · rw [if_pos h1] at h; exact absurd h (by simp)
    · rw [if_neg h1, pure_eq_ok] at h
      rw [← h]

theorem shimIssue_ok {Sample : Type} (w w2 : World Sample) (p : Payload Sample)
    (h : shimIssue w p = Except.ok w2) :
    (w.dev.loop_back = true ∧
      PostResults w QAicEventCompletionType.QAIC_EVENT_DEVICE_COMPLETE (some p) = Except.ok w2) ∨
    (w.dev.loop_back = false ∧ (nextStatus w.run_status).1 = QStatus.QS_SUCCESS ∧
      w2 = { w with calls := w.calls ++ [Call.run p.activation p.set p]
                    run_status := (nextStatus w.run_status).2
                    inflight := w.inflight ++ [p] }) := by
  unfold shimIssue at h
  cases hl : w.dev.loop_back with
  | true =>
    rw [hl] at h
    exact Or.inl ⟨rfl, by simpa using h⟩
  | false =>
    rw [hl] at h
    simp only [Bool.false_eq_true, if_false] at h
    by_cases hs : (nextStatus w.run_status).1 = QStatus.QS_SUCCESS
    · rw [if_neg (by simp [hs]), pure_eq_ok] at h
      exact Or.inr ⟨rfl, hs, h.symm⟩
    · rw [if_pos hs] at h; exact absurd h (by simp)

theorem EnqueueShimBody_ok {Sample : Type} (w w' : World Sample) (id : Int)
    (h : EnqueueShimBody w id = Except.ok w') :
    (vecGet w.dev.payloads id = some none ∧ w' = w) ∨
    (∃ p w1 w2, vecGet w.dev.payloads id = some (some p) ∧
      shimConfigure w p = Except.ok w1 ∧ shimIssue w1 p = Except.ok w2 ∧
      0 ≤ id ∧ id.toNat < w2.dev.payloads.length ∧
      w' = { w2 with dev := { w2.dev with payloads := w2.dev.payloads.set id.toNat none } }) := by
  unfold EnqueueShimBody at h
  simp only [bind_eq_ok, ofOption_eq_ok] at h
  obtain ⟨cell, hcell, h⟩ := h
  cases cell with
  | none =>
    simp only [pure_eq_ok] at h
    exact Or.inl ⟨hcell, h.symm⟩
  | some p =>
    simp only [bind_eq_ok, ofOption_eq_ok, pure_eq_ok, vecSet_eq_some] at h
    obtain ⟨w1, h1, w2, h2, ps, ⟨h0, hlen, hps⟩, hw⟩ := h
    subst hps
    exact Or.inr ⟨p, w1, w2, hcell, h1, h2, h0, hlen, hw.symm⟩

theorem EnqueueShimBody_of_none {Sample : Type} (w : World Sample) (id : Int)
    (h : vecGet w.dev.payloads id = some none) : EnqueueShimBody w id = Except.ok w := by
  unfold EnqueueShimBody
  simp only [h, ofOption, bind, Except.bind]
  rfl

theorem EnqueueShimBody_idem {Sample : Type} (w w1 : World Sample) (id : Int)
    (h : EnqueueShimBody w id = Except.ok w1) : EnqueueShimBody w1 id = Except.ok w1 := by
  rcases EnqueueShimBody_ok w w1 id h with ⟨hc, hw⟩ | ⟨p, w1', w2, hc, h1, h2, h0, hlen, hw⟩
  · rw [hw]; exact EnqueueShimBody_of_none w id hc
  · apply EnqueueShimBody_of_none
    rw [hw, vecGet_eq_some]
    refine ⟨h0, ?_⟩
    simp only [List.getElem?_set, if_true]
    rw [if_pos hlen]

/-- A call of `EnqueueShim` that returns has done what one pass of its body does. -/
theorem EnqueueShim_ok {Sample : Type} (id : Int) :
    ∀ (fuel : Nat) (w w' : World Sample), EnqueueShim fuel w id = Except.ok w' →
      EnqueueShimBody w id = Except.ok w' := by
  intro fuel
  induction fuel with
  | zero => intro w w' h; simp [EnqueueShim] at h
  | succ n ih =>
    intro w w' h
    unfold EnqueueShim at h
    rw [bind_eq_ok] at h
    obtain ⟨w1, hb, h⟩ := h
    by_cases ht : w1.dev.shim_terminate = true
    · rw [if_pos ht, pure_eq_ok] at h
      rw [← h]; exact hb
    · rw [if_neg ht] at h
      have h2 := ih w1 w' h
      rw [EnqueueShimBody_idem w w1 id hb] at h2
      rw [← Except.ok.inj h2]; exact hb

/-- With `shim_terminate` set, `EnqueueShim` returns after one pass of its body. -/
theorem EnqueueShim_of_terminate {Sample : Type} (fuel : Nat) (w w' : World Sample) (id : Int)
    (hb : EnqueueShimBody w id = Except.ok w') (ht : w'.dev.shim_terminate = true) :
    EnqueueShim (fuel + 1) w id = Except.ok w' := by
  unfold EnqueueShim
  rw [bind_eq_ok]
  exact ⟨w', hb, by rw [if_pos ht]; rfl⟩

theorem PostResults_frame {Sample : Type} (w w' : World Sample) (k : QAicEventCompletionType)
    (ud : Option (Payload Sample)) (h : PostResults w k ud = Except.ok w') :
    w.dev.sameQueue w'.dev ∧ w.dev.sameStatic w'.dev ∧ w'.dev.payloads = w.dev.payloads ∧
    w'.dev.scheduler_terminate = w.dev.scheduler_terminate ∧
    w'.inflight = w.inflight ∧ w'.activation = w.activation ∧ w'.qs = w.qs ∧ w'.pc = w.pc ∧
    w'.run_status = w.run_status ∧ w'.dev.ring_buf.length = w.dev.ring_buf.length := by
  cases k with
  | QAIC_EVENT_OTHER code =>
    rw [PostResults_other] at h
    rw [← Except.ok.inj h]
    exact ⟨⟨rfl, rfl, rfl, rfl⟩, ⟨rfl, rfl, rfl, rfl, rfl⟩, rfl, rfl, rfl, rfl, rfl, rfl, rfl, rfl⟩
  | QAIC_EVENT_DEVICE_COMPLETE =>
    obtain ⟨p, out_a, out, rb, -, -, -, -, hw⟩ := PostResults_complete_ok w w' ud h
    rw [hw]
    exact ⟨⟨rfl, rfl, rfl, rfl⟩, ⟨rfl, rfl, rfl, rfl, rfl⟩, rfl, rfl, rfl, rfl, rfl, rfl, rfl,
      by simp⟩

theorem EnqueueShimBody_frame {Sample : Type} (w w' : World Sample) (id : Int)
    (h : EnqueueShimBody w id = Except.ok w') :
    w.dev.sameQueue w'.dev ∧ w.dev.sameStatic w'.dev ∧
    w'.dev.scheduler_terminate = w.dev.scheduler_terminate ∧
    w'.activation = w.activation ∧ w'.qs = w.qs ∧ w'.pc = w.pc ∧
    w'.dev.ring_buf.length = w.dev.ring_buf.length := by
  rcases EnqueueShimBody_ok w w' id h with ⟨-, hw⟩ | ⟨p, w1, w2, -, h1, h2, -, -, hw⟩
  · rw [hw]
    exact ⟨⟨rfl, rfl, rfl, rfl⟩, ⟨rfl, rfl, rfl, rfl, rfl⟩, rfl, rfl, rfl, rfl, rfl⟩
  · have e1 := shimConfigure_ok w w1 p h1
    have key : w.dev.sameQueue w2.dev ∧ w.dev.sameStatic w2.dev ∧
        w2.dev.scheduler_terminate = w.dev.scheduler_terminate ∧
        w2.activation = w.activation ∧ w2.qs = w.qs ∧ w2.pc = w.pc ∧
        w2.dev.ring_buf.length = w.dev.ring_buf.length := by
      rcases shimIssue_ok w1 w2 p h2 with ⟨-, hp⟩ | ⟨-, -, hw2⟩
      · obtain ⟨⟨a1, a2, a3, a4⟩, ⟨b1, b2, b3, b4, b5⟩, -, c1, -, c2, c3, c4, -, c5⟩ :=
          PostResults_frame w1 w2 _ _ hp
        rw [e1] at a1 a2 a3 a4 b1 b2 b3 b4 b5 c1 c2 c3 c4 c5
        exact ⟨⟨a1, a2, a3, a4⟩, ⟨b1, b2, b3, b4, b5⟩, c1, c2, c3, c4, c5⟩
      · rw [hw2, e1]
        exact ⟨⟨rfl, rfl, rfl, rfl⟩, ⟨rfl, rfl, rfl, rfl, rfl⟩, rfl, rfl, rfl, rfl, rfl⟩
    obtain ⟨⟨a1, a2, a3, a4⟩, ⟨b1, b2, b3, b4, b5⟩, c1, c2, c3, c4, c5⟩ := key
    rw [hw]
    exact ⟨⟨a1, a2, a3, a4⟩, ⟨b1, b2, b3, b4, b5⟩, c1, c2, c3, c4, c5⟩

/-! ### Runs -/

theorem exec_nil_ok {Sample : Type} (w w' : World Sample) (os : List (Obs Sample)) :
    exec w [] = Except.ok (os, w') ↔ os = [] ∧ w' = w := by
  unfold exec
  rw [pure_eq_ok]
  simp only [Prod.mk.injEq]
  constructor
  · intro h; exact ⟨h.1.symm, h.2.symm⟩
  · intro h; exact ⟨h.1.symm, h.2.symm⟩

theorem exec_cons_ok {Sample : Type} (w w' : World Sample) (a : Action Sample)
    (as : List (Action Sample)) (os : List (Obs Sample)) :
    exec w (a :: as) = Except.ok (os, w') ↔
      ∃ o w1 os', step w a = Except.ok (o, w1) ∧ exec w1 as = Except.ok (os', w') ∧
        os = o :: os' := by
  conv_lhs => unfold exec
  simp only [bind_eq_ok, pure_eq_ok, Prod.mk.injEq, Prod.exists]
  constructor
  · rintro ⟨o, w1, h1, os', w2, h2, h3, h4⟩
    subst h4
    exact ⟨o, w1, os', h1, h2, h3.symm⟩
  · rintro ⟨o, w1, os', h1, h2, h3⟩
    exact ⟨o, w1, h1, os', w', h2, h3.symm, rfl⟩

/-- A property kept by every step holds after every run. -/
theorem exec_invariant {Sample : Type} (P : World Sample → Prop)
    (hstep : ∀ w a o w', P w → step w a = Except.ok (o, w') → P w') :
    ∀ (as : List (Action Sample)) (w w' : World Sample) (os : List (Obs Sample)),
      P w → exec w as = Except.ok (os, w') → P w' := by
  intro as
  induction as with
  | nil =>
    intro w w' os hP h
    rw [exec_nil_ok] at h
    rw [h.2]; exact hP
  | cons a as ih =>
    intro w w' os hP h
    rw [exec_cons_ok] at h
    obtain ⟨o, w1, os', h1, h2, -⟩ := h
    exact ih w1 w' os' (hstep w a o w1 hP h1) h2

theorem DeviceInit_ok {Sample : Type} [Inhabited Sample] (cfg : Config)
    (getBufferPtr : Int → Int → Int → Nat) (init_status : QStatus)
    (run_status : List QStatus) (w0 : World Sample)
    (h : DeviceInit cfg getBufferPtr init_status run_status = some w0) :
    init_status = QStatus.QS_SUCCESS ∧
    0 ≤ cfg.activation_count ∧ (0 < cfg.activation_count → 0 ≤ cfg.set_size) ∧
    0 ≤ cfg.samples_queue_depth ∧
    0 ≤ cfg.batch_size ∧
    w0.dev.cfg = cfg ∧
    w0.dev.ring_buf = (List.range cfg.activation_count.toNat).map
      (fun (a : Nat) => RingBuffer.new 0 (a : Int) cfg.set_size) ∧
    w0.dev.samples_queue = List.replicate cfg.samples_queue_depth.toNat [] ∧
    w0.dev.sfront = 0 ∧ w0.dev.sback = 0 ∧
    w0.dev.samples_queue_depth = cfg.samples_queue_depth ∧
    w0.dev.payloads = [none] ∧ w0.dev.shim_terminate = true ∧
    w0.dev.scheduler_terminate = false ∧ w0.dev.loop_back = cfg.loop_back ∧
    w0.activation = -1 ∧ w0.pc = SchedPc.outer ∧ w0.run_status = run_status ∧
    w0.inflight = [] ∧ w0.calls = [] ∧ w0.cerr = [] := by
  unfold DeviceInit at h
  by_cases hs : init_status = QStatus.QS_SUCCESS
  · rw [if_neg (by simp [hs])] at h
    by_cases hc : cfg.activation_count < 0 ∨ (0 < cfg.activation_count ∧ cfg.set_size < 0)
        ∨ cfg.samples_queue_depth < 0 ∨ cfg.batch_size < 0
    · rw [if_pos hc] at h; exact absurd h (by simp)
    · rw [if_neg hc] at h
      simp only [Option.some.injEq] at h
      subst h
      refine ⟨hs, by omega, by omega, by omega, by omega, rfl, rfl, rfl, rfl, rfl, rfl, rfl,
        rfl, rfl, rfl, rfl, rfl, rfl, rfl, rfl, rfl⟩
  · rw [if_pos hs] at h; exact absurd h (by simp)

/-! ### Admission queue: bounds and FIFO order -/

theorem acceptedBatches_cons {Sample : Type} (o : Obs Sample) (os : List (Obs Sample)) :
    acceptedBatches (o :: os) = acceptedBatches [o] ++ acceptedBatches os := by
  unfold acceptedBatches
  rw [← List.filterMap_append]; rfl

theorem poppedBatches_cons {Sample : Type} (o : Obs Sample) (os : List (Obs Sample)) :
    poppedBatches (o :: os) = poppedBatches [o] ++ poppedBatches os := by
  unfold poppedBatches
  rw [← List.filterMap_append]; rfl

/-- What a step does to the admission queue: an `Inference` call, a pop, or nothing. -/
theorem step_queue_cases {Sample : Type} (w w' : World Sample) (a : Action Sample)
    (o : Obs Sample) (h : step w a = Except.ok (o, w')) :
    (∃ b r, a = Action.inference b ∧ w.dev.Inference b = some (r, w'.dev) ∧
      o = Obs.inference b r) ∨
    (∃ i b, o = Obs.popped b ∧ w.dev.sfront ≠ w.dev.sback ∧
      cmod w.dev.sfront w.dev.samples_queue_depth = some i ∧
      vecGet w.dev.samples_queue i = some b ∧
      w'.dev = { w.dev with sfront := w.dev.sfront + 1 }) ∨
    (w.dev.sameQueue w'.dev ∧ acceptedBatches [o] = [] ∧ poppedBatches [o] = []) := by
  cases a with
  | inference b =>
    left
    unfold step at h
    simp only [bind_eq_ok, ofOption_eq_ok, pure_eq_ok, Prod.mk.injEq, Prod.exists] at h
    obtain ⟨r, d', hi, ho, hw⟩ := h
    refine ⟨b, r, rfl, ?_, ho.symm⟩
    rw [← hw]; exact hi
  | sched fuel =>
    right
    unfold step QueueSchedulerStep at h
    cases hpc : w.pc with
    | outer =>
      rw [hpc] at h
      simp only at h
      by_cases ht : w.dev.scheduler_terminate = true
      · rw [if_pos ht, pure_eq_ok] at h
        simp only [Prod.mk.injEq] at h
        right
        rw [← h.1, ← h.2]
        exact ⟨⟨rfl, rfl, rfl, rfl⟩, rfl, rfl⟩
      · rw [if_neg ht] at h
        rcases schedulerPop_ok w w' o h with ⟨-, ho, hw⟩ | ⟨hne, i, b, hi, hb, ho, hw⟩
        · right
          rw [ho, hw]
          exact ⟨⟨rfl, rfl, rfl, rfl⟩, rfl, rfl⟩
        · left
          exact ⟨i, b, ho, hne, hi, hb, by rw [hw]⟩
    | inner =>
      rw [hpc] at h
      simp only at h
      right
      by_cases ht : w.dev.scheduler_terminate = true
      · rw [if_pos ht, pure_eq_ok] at h
        simp only [Prod.mk.injEq] at h
        rw [← h.1, ← h.2]
        exact ⟨⟨rfl, rfl, rfl, rfl⟩, rfl, rfl⟩
      · rw [if_neg ht] at h
        obtain ⟨a, rb, -, -, h⟩ := schedulerAcquire_ok w w' o h
        rcases h with ⟨-, ho, hw⟩ | ⟨p, -, -, ho, hw⟩
        · rw [ho, hw]; exact ⟨⟨rfl, rfl, rfl, rfl⟩, rfl, rfl⟩
        · rw [ho, hw]; exact ⟨⟨rfl, rfl, rfl, rfl⟩, rfl, rfl⟩
    | shim =>
      rw [hpc] at h
      simp only [bind_eq_ok, pure_eq_ok, Prod.mk.injEq] at h
      obtain ⟨w1, h1, ho, hw⟩ := h
      right
      obtain ⟨hq, -⟩ := EnqueueShimBody_frame w w1 0 (EnqueueShim_ok 0 fuel w w1 h1)
      rw [← ho, ← hw]
      exact ⟨hq, rfl, rfl⟩
    | done =>
      rw [hpc] at h
      simp only [pure_eq_ok, Prod.mk.injEq] at h
      right
      rw [← h.1, ← h.2]
      exact ⟨⟨rfl, rfl, rfl, rfl⟩, rfl, rfl⟩
  | complete i =>
    right; right
    simp only [step] at h
    cases hp : w.inflight[i]? with
    | none =>
      simp only [hp, pure_eq_ok, Prod.mk.injEq] at h
      rw [← h.1, ← h.2]
      exact ⟨⟨rfl, rfl, rfl, rfl⟩, rfl, rfl⟩
    | some p =>
      simp only [hp, bind_eq_ok, pure_eq_ok, Prod.mk.injEq] at h
      obtain ⟨w1, h1, ho, hw⟩ := h
      obtain ⟨hq, -⟩ := PostResults_frame _ w1 _ _ h1
      rw [← ho, ← hw]
      exact ⟨hq, rfl, rfl⟩
  | event code i =>
    right; right
    simp only [step] at h
    cases hp : w.inflight[i]? with
    | none =>
      simp only [hp, pure_eq_ok, Prod.mk.injEq] at h
      rw [← h.1, ← h.2]
      exact ⟨⟨rfl, rfl, rfl, rfl⟩, rfl, rfl⟩
    | some p =>
      simp only [hp, bind_eq_ok, pure_eq_ok, Prod.mk.injEq] at h
      obtain ⟨w1, h1, ho, hw⟩ := h
      obtain ⟨hq, -⟩ := PostResults_frame _ w1 _ _ h1
      rw [← ho, ← hw]
      exact ⟨hq, rfl, rfl⟩
  | shutdown =>
    right; right
    simp only [step, pure_eq_ok, Prod.mk.injEq] at h
    rw [← h.1, ← h.2]
    exact ⟨⟨rfl, rfl, rfl, rfl⟩, rfl, rfl⟩

theorem Inference_QueueInv {Sample : Type} (d d' : Device Sample) (b : List Sample) (r : Int)
    (hinv : d.QueueInv) (h : d.Inference b = some (r, d')) : d'.QueueInv := by
  refine ⟨Inference_QueueWF d b hinv.1 r d' h, ?_⟩
  rcases Inference_ok_cases d d' b r hinv.1 h with ⟨-, e⟩ | ⟨hf, -, -, e⟩
  · rw [e]; exact hinv.2
  · rw [e]
    show d.sback + 1 - d.sfront ≤ d.samples_queue_depth
    omega

theorem step_QueueInv {Sample : Type} (w w' : World Sample) (a : Action Sample)
    (o : Obs Sample) (hinv : w.dev.QueueInv) (h : step w a = Except.ok (o, w')) :
    w'.dev.QueueInv := by
  rcases step_queue_cases w w' a o h with ⟨b, r, -, hi, -⟩ | ⟨i, b, -, hne, -, -, hw⟩ |
    ⟨⟨h1, h2, h3, h4⟩, -, -⟩
  · exact Inference_QueueInv _ _ b r hinv hi
  · obtain ⟨⟨hlen, hf, hfb⟩, hd⟩ := hinv
    rw [hw]
    refine ⟨⟨hlen, ?_, ?_⟩, ?_⟩
    · show 0 ≤ w.dev.sfront + 1
      omega
    · show w.dev.sfront + 1 ≤ w.dev.sback
      omega
    · show w.dev.sback - (w.dev.sfront + 1) ≤ w.dev.samples_queue_depth
      omega
  · obtain ⟨⟨hlen, hf, hfb⟩, hd⟩ := hinv
    unfold Device.QueueInv Device.QueueWF
    rw [h1, h2, h3, h4]
    exact ⟨⟨hlen, hf, hfb⟩, hd⟩

theorem DeviceInit_QueueInv {Sample : Type} [Inhabited Sample] (cfg : Config)
    (getBufferPtr : Int → Int → Int → Nat) (init_status : QStatus)
    (run_status : List QStatus) (w0 : World Sample)
    (h : DeviceInit cfg getBufferPtr init_status run_status = some w0) : w0.dev.QueueInv := by
  obtain ⟨-, -, -, hd, -, -, -, hq, hf, hb, hdepth, -⟩ :=
    DeviceInit_ok cfg getBufferPtr init_status run_status w0 h
  unfold Device.QueueInv Device.QueueWF
  rw [hq, hf, hb, hdepth]
  simp only [List.length_replicate]
  omega

/-- C3: in every state reached from the state set up by `DeviceInit` (where
`sfront = sback = 0`) by any sequence of `Inference` calls, scheduler steps,
completions and other events, `0 ≤ sback - sfront ≤ samples_queue_depth`,
the depth being the configured one. -/
theorem queue_occupancy_bounds {Sample : Type} [Inhabited Sample] (cfg : Config)
    (getBufferPtr : Int → Int → Int → Nat) (init_status : QStatus)
    (run_status : List QStatus) (w0 : World Sample)
    (h0 : DeviceInit cfg getBufferPtr init_status run_status = some w0)
    (as : List (Action Sample)) (os : List (Obs Sample)) (w : World Sample)
    (h : exec w0 as = Except.ok (os, w)) :
    w0.dev.sfront = 0 ∧ w0.dev.sback = 0 ∧
    0 ≤ w.dev.sback - w.dev.sfront ∧ w.dev.sback - w.dev.sfront ≤ w.dev.samples_queue_depth ∧
    w.dev.samples_queue_depth = cfg.samples_queue_depth := by
  have hi := DeviceInit_ok cfg getBufferPtr init_status run_status w0 h0
  have hinv : w.dev.QueueInv ∧ w.dev.samples_queue_depth = cfg.samples_queue_depth := by
    refine exec_invariant
      (fun w => w.dev.QueueInv ∧ w.dev.samples_queue_depth = cfg.samples_queue_depth)
      ?_ as w0 w os
      ⟨DeviceInit_QueueInv cfg getBufferPtr init_status run_status w0 h0, hi.2.2.2.2.2.2.2.2.2.2.1⟩
      h
    intro w a o w' hP hs
    refine ⟨step_QueueInv w w' a o hP.1 hs, ?_⟩
    rcases step_queue_cases w w' a o hs with ⟨b, r, -, hi, -⟩ | ⟨i, b, -, hne, -, -, hw⟩ |
      ⟨⟨h1, h2, h3, h4⟩, -, -⟩
    · rcases Inference_ok_cases _ _ b r hP.1.1 hi with ⟨-, e⟩ | ⟨-, -, -, e⟩
      · rw [e]; exact hP.2
      · rw [e]; exact hP.2
    · rw [hw]; exact hP.2
    · rw [h4]; exact hP.2
  obtain ⟨⟨⟨-, hf, hfb⟩, hd⟩, hc⟩ := hinv
  exact ⟨hi.2.2.2.2.2.2.2.2.1, hi.2.2.2.2.2.2.2.2.2.1, by omega, hd, hc⟩

theorem emod_ne_of_lt (x y d : Int) (h1 : x < y) (h2 : y - x < d) : x % d ≠ y % d := by
  intro e
  have h3 : (y - x) % d = 0 := (Int.emod_eq_emod_iff_emod_sub_eq_zero).mp e.symm
  rw [Int.emod_eq_of_lt (by omega) h2] at h3
  omega

theorem pending_sameQueue {Sample : Type} (d d' : Device Sample) (h : d.sameQueue d') :
    d'.pending = d.pending := by
  obtain ⟨h1, h2, h3, h4⟩ := h
  unfold Device.pending
  rw [h1, h2, h3, h4]

theorem pending_accept {Sample : Type} (d : Device Sample) (b : List Sample)
    (hwf : d.QueueWF) (h : d.sback - d.sfront < d.samples_queue_depth) :
    Device.pending { d with
        samples_queue := d.samples_queue.set (d.sback % d.samples_queue_depth).toNat b
        sback := d.sback + 1 }
      = d.pending ++ [b] := by
  obtain ⟨hlen, hf, hfb⟩ := hwf
  have hd : 0 < d.samples_queue_depth := by omega
  have hm0 : 0 ≤ d.sback % d.samples_queue_depth := Int.emod_nonneg _ (by omega)
  have hm1 : d.sback % d.samples_queue_depth < d.samples_queue_depth := Int.emod_lt_of_pos _ hd
  unfold Device.pending
  have hn : (d.sback + 1 - d.sfront).toNat = (d.sback - d.sfront).toNat + 1 := by omega
  simp only [hn, List.range_succ, List.map_append, List.map_cons, List.map_nil]
  congr 1
  · apply List.map_congr_left
    intro i hi
    rw [List.mem_range] at hi
    rw [List.getElem?_set, if_neg]
    intro e
    have hne := emod_ne_of_lt (d.sfront + (i : Int)) d.sback d.samples_queue_depth
      (by omega) (by omega)
    have hi0 : 0 ≤ (d.sfront + (i : Int)) % d.samples_queue_depth :=
      Int.emod_nonneg _ (by omega)
    apply hne
    omega
  · have e : d.sfront + ((d.sback - d.sfront).toNat : Int) = d.sback := by omega
    rw [e, List.getElem?_set, if_pos rfl, if_pos (by omega)]
    rfl

theorem pending_pop {Sample : Type} (d : Device Sample) (i : Int) (b : List Sample)
    (hwf : d.QueueWF) (hne : d.sfront ≠ d.sback)
    (hi : cmod d.sfront d.samples_queue_depth = some i)
    (hb : vecGet d.samples_queue i = some b) :
    d.pending = b :: Device.pending { d with sfront := d.sfront + 1 } := by
  obtain ⟨hlen, hf, hfb⟩ := hwf
  have hd : d.samples_queue_depth ≠ 0 := by
    intro e; simp [cmod, e] at hi
  have hd0 : 0 ≤ d.samples_queue_depth := by omega
  rw [cmod_of_nonneg hf (by omega)] at hi
  simp only [Option.some.injEq] at hi
  rw [vecGet_eq_some] at hb
  unfold Device.pending
  have hn : (d.sback - d.sfront).toNat = (d.sback - (d.sfront + 1)).toNat + 1 := by omega
  rw [hn, List.range_succ_eq_map]
  simp only [List.map_cons, List.map_map]
  congr 1
  · simp only [Nat.cast_zero, add_zero]
    rw [hi, hb.2]; rfl
  · apply List.map_congr_left
    intro j _
    simp only [Function.comp, Nat.cast_succ]
    rw [show d.sfront + ((j : Int) + 1) = d.sfront + 1 + (j : Int) by omega]

/-- The batches pending before a step followed by the batch it accepts are
the batch it pops followed by the batches pending after it. -/
theorem step_pending {Sample : Type} (w w' : World Sample) (a : Action Sample)
    (o : Obs Sample) (hinv : w.dev.QueueInv) (h : step w a = Except.ok (o, w')) :
    w.dev.pending ++ acceptedBatches [o] = poppedBatches [o] ++ w'.dev.pending := by
  rcases step_queue_cases w w' a o h with ⟨b, r, -, hi, ho⟩ | ⟨i, b, ho, hne, hi, hb, hw⟩ |
    ⟨hq, ha, hp⟩
  · rcases Inference_ok_cases _ _ b r hinv.1 hi with ⟨hr, e⟩ | ⟨hf, hr, -, e⟩
    · rw [ho, e, hr]
      simp [acceptedBatches, poppedBatches]
    · rw [ho, e, pending_accept _ b hinv.1 hf]
      simp [acceptedBatches, poppedBatches, hr]
  · rw [ho, hw, pending_pop w.dev i b hinv.1 hne hi hb]
    simp [acceptedBatches, poppedBatches]
  · rw [ha, hp, pending_sameQueue _ _ hq]
    simp

theorem exec_pending {Sample : Type} :
    ∀ (as : List (Action Sample)) (w w' : World Sample) (os : List (Obs Sample)),
      w.dev.QueueInv → exec w as = Except.ok (os, w') →
      w.dev.pending ++ acceptedBatches os = poppedBatches os ++ w'.dev.pending := by
  intro as
  induction as with
  | nil =>
    intro w w' os _ h
    rw [exec_nil_ok] at h
    rw [h.1, h.2]
    simp [acceptedBatches, poppedBatches]
  | cons a as ih =>
    intro w w' os hinv h
    rw [exec_cons_ok] at h
    obtain ⟨o, w1, os', h1, h2, h3⟩ := h
    have e1 := step_pending w w1 a o hinv h1
    have e2 := ih w1 w' os' (step_QueueInv w w1 a o hinv h1) h2
    rw [h3, acceptedBatches_cons, poppedBatches_cons, ← List.append_assoc, e1,
      List.append_assoc, e2, List.append_assoc]

/-- C4: in every run from the state set up by `DeviceInit` (empty admission
queue), the batches popped by the scheduler, in pop order, are a prefix of
the batches accepted by `Inference` (return value `≥ 0`), in call order - the
rest being the batches still pending; and the pop step of the scheduler taken
when `sfront = sback` yields no batch and leaves the whole state alone. -/
theorem popped_prefix_of_accepted {Sample : Type} [Inhabited Sample] (cfg : Config)
    (getBufferPtr : Int → Int → Int → Nat) (init_status : QStatus)
    (run_status : List QStatus) (w0 : World Sample)
    (h0 : DeviceInit cfg getBufferPtr init_status run_status = some w0)
    (as : List (Action Sample)) (os : List (Obs Sample)) (w : World Sample)
    (h : exec w0 as = Except.ok (os, w)) :
    acceptedBatches os = poppedBatches os ++ w.dev.pending ∧
    poppedBatches os <+: acceptedBatches os ∧
    (∀ v : World Sample, v.dev.sfront = v.dev.sback →
      schedulerPop v = Except.ok (Obs.popNone, v)) := by
  have hi := DeviceInit_ok cfg getBufferPtr init_status run_status w0 h0
  have hq := DeviceInit_QueueInv cfg getBufferPtr init_status run_status w0 h0
  have e := exec_pending as w0 w os hq h
  have hp0 : w0.dev.pending = [] := by
    unfold Device.pending
    rw [hi.2.2.2.2.2.2.2.2.1, hi.2.2.2.2.2.2.2.2.2.1]
    rfl
  rw [hp0, List.nil_append] at e
  refine ⟨e, ⟨w.dev.pending, e.symm⟩, ?_⟩
  intro v hv
  unfold schedulerPop
  rw [if_pos hv]
  rfl

/-! ### Payload slots: accounting -/

theorem perm_cons_eraseIdx {α : Type} :
    ∀ (l : List α) (i : Nat) (x : α), l[i]? = some x → List.Perm l (x :: l.eraseIdx i) := by
  intro l
  induction l with
  | nil => intro i x h; simp at h
  | cons y ys ih =>
    intro i x h
    cases i with
    | zero =>
      simp only [List.getElem?_cons_zero, Option.some.injEq] at h
      subst h
      exact List.Perm.refl _
    | succ i =>
      simp only [List.getElem?_cons_succ] at h
      simp only [List.eraseIdx_cons_succ]
      exact (List.Perm.cons y (ih i x h)).trans (List.Perm.swap x y _)

theorem SlotsAccounted_perm {Sample : Type} (rbs : List (RingBuffer Sample))
    (H H' : List (Payload Sample)) (n ss : Int) (hp : List.Perm H' H)
    (h : SlotsAccounted rbs H n ss) : SlotsAccounted rbs H' n ss := by
  obtain ⟨h1, h2, h3⟩ := h
  refine ⟨h1, fun p hp' => h2 p (hp.subset hp'), ?_⟩
  intro a rb hrb
  obtain ⟨h4, h5⟩ := h3 a rb hrb
  refine ⟨h4, List.Perm.trans ?_ h5⟩
  exact List.Perm.map _ (List.Perm.append_left _ (List.Perm.filter _ hp))

theorem SlotsAccounted_acquire {Sample : Type} (rbs : List (RingBuffer Sample))
    (H : List (Payload Sample)) (n ss : Int) (a : Nat) (rb : RingBuffer Sample)
    (p p1 : Payload Sample) (rest : List (Option (Payload Sample)))
    (h : SlotsAccounted rbs H n ss) (hrb : rbs[a]? = some rb) (hq : rb.q = some p :: rest)
    (ha : p1.activation = p.activation) (hs : p1.set = p.set) :
    SlotsAccounted (rbs.set a { rb with q := rest }) (p1 :: H) n ss := by
  obtain ⟨h1, h2, h3⟩ := h
  obtain ⟨h4, h5⟩ := h3 a rb hrb
  have hlt : a < rbs.length := (List.getElem?_eq_some.mp hrb).1
  have hpa : p.activation = (a : Int) := by
    obtain ⟨p', e, hp'⟩ := h4 (some p) (by rw [hq]; exact List.mem_cons_self _ _)
    rw [Option.some.injEq] at e
    rw [e]; exact hp'
  refine ⟨by rw [List.length_set]; exact h1, ?_, ?_⟩
  · intro x hx
    rcases List.mem_cons.mp hx with e | hx
    · rw [e, ha, hpa]; omega
    · exact h2 x hx
  · intro a' rb' hrb'
    rw [List.getElem?_set] at hrb'
    by_cases e : a = a'
    · subst e
      rw [if_pos rfl, if_pos hlt] at hrb'
      rw [Option.some.injEq] at hrb'
      subst hrb'
      refine ⟨fun x hx => h4 x (by rw [hq]; exact List.mem_cons_of_mem _ hx), ?_⟩
      refine List.Perm.trans ?_ h5
      have hf : decide (p1.activation = (a : Int)) = true := by
        rw [ha, hpa]; simp
      rw [hq]
      simp only [List.filter_cons, hf, if_true, List.filterMap_cons_some, id, List.map_append,
        List.map_cons, List.cons_append]
      rw [hs]
      exact List.perm_middle
    · rw [if_neg e] at hrb'
      obtain ⟨h6, h7⟩ := h3 a' rb' hrb'
      refine ⟨h6, ?_⟩
      have hf : decide (p1.activation = (a' : Int)) = false := by
        rw [ha, hpa]; simp; omega
      simp only [List.filter_cons, hf, Bool.false_eq_true, if_false]
      exact h7

theorem SlotsAccounted_release {Sample : Type} (rbs : List (RingBuffer Sample))
    (H : List (Payload Sample)) (n ss : Int) (rb : RingBuffer Sample) (p : Payload Sample)
    (h : SlotsAccounted rbs (p :: H) n ss) (hrb : vecGet rbs p.activation = some rb) :
    SlotsAccounted (rbs.set p.activation.toNat { rb with q := rb.q ++ [some p] }) H n ss := by
  obtain ⟨h1, h2, h3⟩ := h
  rw [vecGet_eq_some] at hrb
  obtain ⟨h0, hrb⟩ := hrb
  obtain ⟨h4, h5⟩ := h3 _ rb hrb
  have hlt : p.activation.toNat < rbs.length := (List.getElem?_eq_some.mp hrb).1
  have hpa : p.activation = (p.activation.toNat : Int) := by omega
  refine ⟨by rw [List.length_set]; exact h1, fun x hx => h2 x (List.mem_cons_of_mem _ hx), ?_⟩
  intro a' rb' hrb'
  rw [List.getElem?_set] at hrb'
  by_cases e : p.activation.toNat = a'
  · subst e
    rw [if_pos rfl, if_pos hlt] at hrb'
    rw [Option.some.injEq] at hrb'
    subst hrb'
    constructor
    · intro x hx
      rcases List.mem_append.mp hx with hx | hx
      · exact h4 x hx
      · rw [List.mem_singleton] at hx
        exact ⟨p, hx, hpa⟩
    · refine List.Perm.trans ?_ h5
      have hf : decide (p.activation = (p.activation.toNat : Int)) = true := by
        simp; omega
      simp only [List.filter_cons, hf, if_true, List.filterMap_append, List.filterMap_cons_some,
        id, List.filterMap_nil, List.append_assoc, List.singleton_append]
      exact List.Perm.refl _
  · rw [if_neg e] at hrb'
    obtain ⟨h6, h7⟩ := h3 a' rb' hrb'
    refine ⟨h6, ?_⟩
    have hf : decide (p.activation = (a' : Int)) = false := by
      simp; omega
    simp only [List.filter_cons, hf, Bool.false_eq_true, if_false] at h7
    exact h7

theorem getPayload_some {Sample : Type} (rb : RingBuffer Sample) (p : Payload Sample)
    (h : rb.getPayload.1 = some p) :
    ∃ rest, rb.q = some p :: rest ∧ rb.getPayload.2 = { rb with q := rest } := by
  cases hq : rb.q with
  | nil => rw [getPayload_nil rb hq] at h; exact absurd h (by simp)
  | cons f rest =>
    rw [getPayload_cons rb f rest hq] at h ⊢
    simp only at h
    subst h
    exact ⟨rest, rfl, rfl⟩

theorem getPayload_none {Sample : Type} (rb : RingBuffer Sample)
    (hq : ∀ x ∈ rb.q, x ≠ none) (h : rb.getPayload.1 = none) : rb.getPayload.2 = rb := by
  have := (getPayload_eq_none_iff rb hq).mp h
  rw [getPayload_nil rb this]

theorem payloads_eq_of_length_one {α : Type} (l : List α) (x : α) (hl : l.length = 1)
    (h : vecGet l 0 = some x) : l = [x] := by
  rw [vecGet_eq_some] at h
  match l, hl, h with
  | [y], _, h =>
    simp only [Int.toNat_zero, List.getElem?_cons_zero, Option.some.injEq] at h
    rw [h.2]

theorem SlotInv_frame {Sample : Type} (w w' : World Sample)
    (hrb : w'.dev.ring_buf = w.dev.ring_buf) (hp : w'.dev.payloads = w.dev.payloads)
    (hi : w'.inflight = w.inflight) (hc : w'.dev.cfg = w.dev.cfg)
    (hpc : w.pc = SchedPc.shim → w'.pc = SchedPc.shim) (h : w.SlotInv) : w'.SlotInv := by
  obtain ⟨h1, h2, h3⟩ := h
  unfold World.SlotInv World.held
  rw [hrb, hp, hi, hc]
  exact ⟨h1, h2, fun hne => h3 (fun e => hne (hpc e))⟩

theorem SlotInv_acquire {Sample : Type} (w w' : World Sample) (o : Obs Sample)
    (hinv : w.SlotInv) (hpc : w.pc ≠ SchedPc.shim)
    (h : schedulerAcquire w = Except.ok (o, w')) :
    w'.SlotInv ∧ w'.dev.cfg = w.dev.cfg := by
  obtain ⟨a, rb, -, hrb, h⟩ := schedulerAcquire_ok w w' o h
  obtain ⟨h1, h2, h3⟩ := hinv
  have hrb' := hrb
  rw [vecGet_eq_some] at hrb'
  obtain ⟨h4, -⟩ := h1.2.2 _ rb hrb'.2
  have hq : ∀ x ∈ rb.q, x ≠ none := by
    intro x hx e
    obtain ⟨p, hp, -⟩ := h4 x hx
    rw [hp] at e; exact absurd e (by simp)
  rcases h with ⟨hn, -, hw⟩ | ⟨p, hp, -, -, hw⟩
  · rw [getPayload_none rb hq hn] at hw
    have hset : w.dev.ring_buf.set a.toNat rb = w.dev.ring_buf := by
      apply List.ext_getElem?
      intro j
      rw [List.getElem?_set]
      by_cases e : a.toNat = j
      · subst e
        rw [if_pos rfl, if_pos (List.getElem?_eq_some.mp hrb'.2).1, hrb'.2]
      · rw [if_neg e]
    rw [hset] at hw
    subst hw
    exact ⟨SlotInv_frame w _ rfl rfl rfl rfl (fun e => absurd e hpc) ⟨h1, h2, h3⟩, rfl⟩
  · obtain ⟨rest, hrest, hget⟩ := getPayload_some rb p hp
    rw [hget, h3 hpc] at hw
    subst hw
    refine ⟨⟨?_, rfl, fun hne => absurd rfl hne⟩, rfl⟩
    have hacq := SlotsAccounted_acquire w.dev.ring_buf w.held _ _ a.toNat rb p
      { p with samples := w.qs } rest h1 hrb'.2 hrest rfl rfl
    have hheld : w.held = w.inflight := by
      unfold World.held; rw [h3 hpc]; rfl
    rw [hheld] at hacq
    exact hacq

theorem SlotInv_shim {Sample : Type} (w w1 : World Sample) (hinv : w.SlotInv)
    (h : EnqueueShimBody w 0 = Except.ok w1) :
    World.SlotInv { w1 with pc := SchedPc.outer } ∧ w1.dev.cfg = w.dev.cfg := by
  obtain ⟨h1, h2, h3⟩ := hinv
  rcases EnqueueShimBody_ok w w1 0 h with ⟨hc, hw⟩ | ⟨p, w1', w2, hc, hcfg, hiss, -, hlen, hw⟩
  · subst hw
    have hp := payloads_eq_of_length_one _ _ h2 hc
    refine ⟨⟨?_, h2, fun _ => hp⟩, rfl⟩
    exact h1
  · have hp := payloads_eq_of_length_one _ _ h2 hc
    have e1 := shimConfigure_ok w w1' p hcfg
    have hheld : w.held = p :: w.inflight := by
      unfold World.held; rw [hp]; rfl
    rw [hheld] at h1
    rcases shimIssue_ok w1' w2 p hiss with ⟨-, hpost⟩ | ⟨-, -, hw2⟩
    · obtain ⟨p', out_a, out, rb, hp', -, -, hrb, hw2⟩ := PostResults_complete_ok w1' w2 _ hpost
      rw [Option.some.injEq] at hp'
      subst hp'
      rw [e1] at hrb hw2
      simp only at hrb hw2
      subst hw2
      subst hw
      refine ⟨⟨?_, ?_, ?_⟩, rfl⟩
      · unfold World.held
        simp only [hp]
        exact SlotsAccounted_release w.dev.ring_buf w.inflight _ _ rb p h1 hrb
      · simp only [hp]; rfl
      · intro _; simp only [hp]; rfl
    · rw [e1] at hw2
      simp only at hw2
      subst hw2
      subst hw
      refine ⟨⟨?_, ?_, ?_⟩, rfl⟩
      · unfold World.held
        simp only [hp]
        exact SlotsAccounted_perm w.dev.ring_buf (p :: w.inflight) (w.inflight ++ [p]) _ _
          (List.perm_append_singleton p w.inflight) h1
      · simp only [hp]; rfl
      · intro _; simp only [hp]; rfl

theorem SlotInv_complete {Sample : Type} (w w' : World Sample) (i : Nat) (p : Payload Sample)
    (hinv : w.SlotInv) (hp : w.inflight[i]? = some p)
    (h : PostResults { w with inflight := w.inflight.eraseIdx i }
      QAicEventCompletionType.QAIC_EVENT_DEVICE_COMPLETE (some p) = Except.ok w') :
    w'.SlotInv ∧ w'.dev.cfg = w.dev.cfg := by
  obtain ⟨h1, h2, h3⟩ := hinv
  obtain ⟨p', out_a, out, rb, hp', -, -, hrb, hw⟩ := PostResults_complete_ok _ w' _ h
  rw [Option.some.injEq] at hp'
  subst hp'
  simp only at hrb
  subst hw
  refine ⟨⟨?_, h2, h3⟩, rfl⟩
  apply SlotsAccounted_release w.dev.ring_buf _ _ _ rb p _ hrb
  refine SlotsAccounted_perm w.dev.ring_buf w.held _ _ _ ?_ h1
  unfold World.held
  exact List.Perm.trans List.perm_middle.symm
    (List.Perm.append_left _ (perm_cons_eraseIdx _ i p hp).symm)

theorem Inference_eq_some {Sample : Type} (d d' : Device Sample) (b : List Sample) (r : Int)
    (h : d.Inference b = some (r, d')) :
    d' = d ∨ ∃ q, d' = { d with samples_queue := q, sback := d.sback + 1 } := by
  unfold Device.Inference at h
  by_cases hf : d.sback ≥ wrapInt (d.sfront + d.samples_queue_depth)
  · rw [if_pos hf] at h
    simp only [Option.some.injEq, Prod.mk.injEq] at h
    exact Or.inl h.2.symm
  · rw [if_neg hf] at h
    simp only [Option.bind_eq_bind, Option.bind_eq_some, Option.some.injEq, Prod.mk.injEq] at h
    obtain ⟨i, -, q, -, -, h⟩ := h
    exact Or.inr ⟨q, h.symm⟩

/-- Every step keeps the slot invariant and the configuration. -/
theorem step_SlotInv {Sample : Type} (w w' : World Sample) (a : Action Sample)
    (o : Obs Sample) (hinv : w.SlotInv) (h : step w a = Except.ok (o, w')) :
    w'.SlotInv ∧ w'.dev.cfg = w.dev.cfg := by
  cases a with
  | inference b =>
    simp only [step, bind_eq_ok, ofOption_eq_ok, pure_eq_ok, Prod.mk.injEq, Prod.exists] at h
    obtain ⟨r, d', hi, -, hw⟩ := h
    subst hw
    rcases Inference_eq_some _ _ b r hi with e | ⟨q, e⟩
    · subst e
      exact ⟨SlotInv_frame w _ rfl rfl rfl rfl (fun e => e) hinv, rfl⟩
    · subst e
      exact ⟨SlotInv_frame w _ rfl rfl rfl rfl (fun e => e) hinv, rfl⟩
  | sched fuel =>
    unfold step QueueSchedulerStep at h
    cases hpc : w.pc with
    | outer =>
      rw [hpc] at h
      simp only at h
      have hne : w.pc = SchedPc.shim → False := by rw [hpc]; simp
      by_cases ht : w.dev.scheduler_terminate = true
      · rw [if_pos ht, pure_eq_ok] at h
        simp only [Prod.mk.injEq] at h
        rw [← h.2]
        exact ⟨SlotInv_frame w _ rfl rfl rfl rfl (fun e => absurd e hne) hinv, rfl⟩
      · rw [if_neg ht] at h
        rcases schedulerPop_ok w w' o h with ⟨-, -, hw⟩ | ⟨-, i, b, -, -, -, hw⟩
        · rw [hw]; exact ⟨hinv, rfl⟩
        · rw [hw]
          exact ⟨SlotInv_frame w _ rfl rfl rfl rfl (fun e => absurd e hne) hinv, rfl⟩
    | inner =>
      rw [hpc] at h
      simp only at h
      have hne : w.pc = SchedPc.shim → False := by rw [hpc]; simp
      by_cases ht : w.dev.scheduler_terminate = true
      · rw [if_pos ht, pure_eq_ok] at h
        simp only [Prod.mk.injEq] at h
        rw [← h.2]
        exact ⟨SlotInv_frame w _ rfl rfl rfl rfl (fun e => absurd e hne) hinv, rfl⟩
      · rw [if_neg ht] at h
        exact SlotInv_acquire w w' o hinv hne h
    | shim =>
      rw [hpc] at h
      simp only [bind_eq_ok, pure_eq_ok, Prod.mk.injEq] at h
      obtain ⟨w1, h1, -, hw⟩ := h
      rw [← hw]
      exact SlotInv_shim w w1 hinv (EnqueueShim_ok 0 fuel w w1 h1)
    | done =>
      rw [hpc] at h
      simp only [pure_eq_ok, Prod.mk.injEq] at h
      rw [← h.2]; exact ⟨hinv, rfl⟩
  | complete i =>
    simp only [step] at h
    cases hp : w.inflight[i]? with
    | none =>
      simp only [hp, pure_eq_ok, Prod.mk.injEq] at h
      rw [← h.2]; exact ⟨hinv, rfl⟩
    | some p =>
      simp only [hp, bind_eq_ok, pure_eq_ok, Prod.mk.injEq] at h
      obtain ⟨w1, h1, -, hw⟩ := h
      rw [← hw]
      exact SlotInv_complete w w1 i p hinv hp h1
  | event code i =>
    simp only [step] at h
    cases hp : w.inflight[i]? with
    | none =>
      simp only [hp, pure_eq_ok, Prod.mk.injEq] at h
      rw [← h.2]; exact ⟨hinv, rfl⟩
    | some p =>
      simp only [hp, bind_eq_ok, pure_eq_ok, Prod.mk.injEq, PostResults_other] at h
      obtain ⟨w1, h1, -, hw⟩ := h
      rw [← hw, ← Except.ok.inj h1]; exact ⟨hinv, rfl⟩
  | shutdown =>
    simp only [step, pure_eq_ok, Prod.mk.injEq] at h
    rw [← h.2]
    exact ⟨SlotInv_frame w _ rfl rfl rfl rfl (fun e => e) hinv, rfl⟩

theorem DeviceInit_SlotInv {Sample : Type} [Inhabited Sample] (cfg : Config)
    (getBufferPtr : Int → Int → Int → Nat) (init_status : QStatus)
    (run_status : List QStatus) (w0 : World Sample)
    (h : DeviceInit cfg getBufferPtr init_status run_status = some w0) : w0.SlotInv := by
  obtain ⟨-, hn, hss, -, -, hcfg, hrb, -, -, -, -, hp, -, -, -, -, -, -, hi, -⟩ :=
    DeviceInit_ok cfg getBufferPtr init_status run_status w0 h
  unfold World.SlotInv World.held
  rw [hrb, hp, hi, hcfg]
  refine ⟨⟨?_, ?_, ?_⟩, rfl, fun _ => rfl⟩
  · simp only [List.length_map, List.length_range]; omega
  · intro p hp; simp at hp
  · intro a rb hrb
    simp only [List.getElem?_map, List.getElem?_range, Option.map_eq_some'] at hrb
    obtain ⟨a', ha', hrb⟩ := hrb
    have hlt : a < cfg.activation_count.toNat := by
      by_contra hcon
      rw [List.getElem?_eq_none (by simpa using Nat.le_of_not_lt hcon)] at ha'
      exact absurd ha' (by simp)
    rw [List.getElem?_range hlt, Option.some.injEq] at ha'
    subst ha' hrb
    constructor
    · intro x hx
      simp only [RingBuffer.new, List.mem_map, List.mem_range] at hx
      obtain ⟨s, -, hx⟩ := hx
      exact ⟨_, hx.symm, rfl⟩
    · simp only [RingBuffer.new, List.filterMap_map, List.filterMap_nil, List.append_nil,
        List.filter_nil]
      have : (List.filterMap (id ∘ fun (i : Nat) => some
          ({ samples := [], device := 0, activation := (a : Int), set := (i : Int) } :
            Payload Sample)) (List.range cfg.set_size.toNat))
          = (List.range cfg.set_size.toNat).map (fun (i : Nat) =>
          ({ samples := [], device := 0, activation := (a : Int), set := (i : Int) } :
            Payload Sample)) := by
        rw [← List.filterMap_eq_map]; rfl
      rw [this]
      have hnil : List.filterMap id [(none : Option (Payload Sample))] = [] := rfl
      rw [hnil, List.filter_nil, List.append_nil, List.map_map]
      exact List.Perm.refl _

/-- The slot invariant holds, with the initial configuration, after every run. -/
theorem exec_SlotInv {Sample : Type} [Inhabited Sample] (cfg : Config)
    (getBufferPtr : Int → Int → Int → Nat) (init_status : QStatus)
    (run_status : List QStatus) (w0 : World Sample)
    (h0 : DeviceInit cfg getBufferPtr init_status run_status = some w0)
    (as : List (Action Sample)) (os : List (Obs Sample)) (w : World Sample)
    (h : exec w0 as = Except.ok (os, w)) : w.SlotInv ∧ w.dev.cfg = cfg := by
  have hi := DeviceInit_ok cfg getBufferPtr init_status run_status w0 h0
  refine exec_invariant (fun w => w.SlotInv ∧ w.dev.cfg = cfg) ?_ as w0 w os
    ⟨DeviceInit_SlotInv cfg getBufferPtr init_status run_status w0 h0, hi.2.2.2.2.2.1⟩ h
  intro w a o w' hP hs
  obtain ⟨h1, h2⟩ := step_SlotInv w w' a o hP.1 hs
  exact ⟨h1, h2.trans hP.2⟩

theorem map_some_filterMap_id {α : Type} :
    ∀ (l : List (Option α)), (∀ x ∈ l, x ≠ none) → (l.filterMap id).map some = l := by
  intro l
  induction l with
  | nil => intro _; rfl
  | cons x xs ih =>
    intro h
    cases x with
    | none => exact absurd rfl (h none (List.mem_cons_self _ _))
    | some y =>
      have e : List.filterMap id (some y :: xs) = y :: List.filterMap id xs := rfl
      rw [e, List.map_cons, ih (fun x hx => h x (List.mem_cons_of_mem _ hx))]

theorem nodup_key {Sample : Type} :
    ∀ (H : List (Payload Sample)),
      (∀ a : Int, ((H.filter fun p => decide (p.activation = a)).map fun p => p.set).Nodup) →
      (H.map fun p => (p.activation, p.set)).Nodup := by
  intro H
  induction H with
  | nil => intro _; exact List.nodup_nil
  | cons p H ih =>
    intro h
    rw [List.map_cons, List.nodup_cons]
    constructor
    · intro hin
      rw [List.mem_map] at hin
      obtain ⟨q, hq, hk⟩ := hin
      simp only [Prod.mk.injEq] at hk
      have hp := h p.activation
      simp only [List.filter_cons, decide_True, if_true, List.map_cons, List.nodup_cons] at hp
      apply hp.1
      rw [List.mem_map]
      exact ⟨q, List.mem_filter.mpr ⟨hq, by simp [hk.1]⟩, hk.2⟩
    · apply ih
      intro a
      have ha := h a
      by_cases e : p.activation = a
      · have hf : decide (p.activation = a) = true := by simp [e]
        simp only [List.filter_cons, hf, if_true, List.map_cons, List.nodup_cons] at ha
        exact ha.2
      · have hf : decide (p.activation = a) = false := by simp [e]
        simp only [List.filter_cons, hf, Bool.false_eq_true, if_false] at ha
        exact ha

theorem nodup_range_cast (n : Nat) : ((List.range n).map fun (s : Nat) => (s : Int)).Nodup :=
  List.Nodup.map (fun _ _ h => Int.ofNat.inj h) (List.nodup_range n)

/-- C5: in every state reached from `DeviceInit` - by scheduler steps,
completions delivered once per accepted run, and the other steps - and for
every activation `a`: the slots free in `ring_buf[a]`, in hand and in flight
carry the set numbers `0 .. set_size - 1`, each exactly once, so their
numbers add up to `set_size`; they all belong to activation `a`, and the queue
of the ring buffer holds exactly the free ones (no null pointer). -/
theorem slot_conservation {Sample : Type} [Inhabited Sample] (cfg : Config)
    (getBufferPtr : Int → Int → Int → Nat) (init_status : QStatus)
    (run_status : List QStatus) (w0 : World Sample)
    (h0 : DeviceInit cfg getBufferPtr init_status run_status = some w0)
    (as : List (Action Sample)) (os : List (Obs Sample)) (w : World Sample)
    (h : exec w0 as = Except.ok (os, w)) (a : Int) (ha0 : 0 ≤ a)
    (ha : a < cfg.activation_count) :
    List.Perm ((w.freeSlots a ++ w.inHand a ++ w.inFlight a).map fun p => p.set)
      ((List.range cfg.set_size.toNat).map fun (s : Nat) => (s : Int)) ∧
    (∀ s : Int, 0 ≤ s → s < cfg.set_size →
      ((w.freeSlots a ++ w.inHand a ++ w.inFlight a).map fun p => p.set).count s = 1) ∧
    (((w.freeSlots a).length + (w.inHand a).length + (w.inFlight a).length : Nat) : Int)
      = cfg.set_size ∧
    (∀ p ∈ w.freeSlots a ++ w.inHand a ++ w.inFlight a, p.activation = a) ∧
    (∃ rb, vecGet w.dev.ring_buf a = some rb ∧ rb.q = (w.freeSlots a).map some) := by
  have hss := (DeviceInit_ok cfg getBufferPtr init_status run_status w0 h0).2.2.1 (by omega)
  obtain ⟨⟨⟨h1, h2, h3⟩, -, -⟩, hcfg⟩ :=
    exec_SlotInv cfg getBufferPtr init_status run_status w0 h0 as os w h
  rw [hcfg] at h1 h3
  have hlt : a.toNat < w.dev.ring_buf.length := by omega
  obtain ⟨rb, hrb⟩ : ∃ rb, w.dev.ring_buf[a.toNat]? = some rb :=
    ⟨_, List.getElem?_eq_getElem hlt⟩
  have hget : vecGet w.dev.ring_buf a = some rb := by
    rw [vecGet_eq_some]; exact ⟨ha0, hrb⟩
  obtain ⟨h4, h5⟩ := h3 a.toNat rb hrb
  have hcast : ((a.toNat : Nat) : Int) = a := by omega
  rw [hcast] at h4 h5
  have hfree : w.freeSlots a = rb.q.filterMap id := by
    unfold World.freeSlots; rw [hget]
  have hheld : w.inHand a ++ w.inFlight a =
      w.held.filter fun p => decide (p.activation = a) := by
    unfold World.inHand World.inFlight World.held
    rw [List.filter_append]
  have hperm : List.Perm ((w.freeSlots a ++ w.inHand a ++ w.inFlight a).map fun p => p.set)
      ((List.range cfg.set_size.toNat).map fun (s : Nat) => (s : Int)) := by
    rw [List.append_assoc, hfree, hheld]; exact h5
  refine ⟨hperm, ?_, ?_, ?_, rb, hget, ?_⟩
  · intro s hs0 hs
    rw [hperm.count_eq]
    apply List.count_eq_one_of_mem (nodup_range_cast _)
    rw [List.mem_map]
    exact ⟨s.toNat, List.mem_range.mpr (by omega), by omega⟩
  · have := hperm.length_eq
    simp only [List.length_map, List.length_append, List.length_range] at this
    omega
  · intro p hp
    rw [List.append_assoc, hfree, hheld] at hp
    rcases List.mem_append.mp hp with hp | hp
    · rw [List.mem_filterMap] at hp
      obtain ⟨x, hx, hxp⟩ := hp
      obtain ⟨p', e, hp'⟩ := h4 x hx
      rw [e] at hxp
      simp only [id, Option.some.injEq] at hxp
      rw [← hxp]; exact hp'
    · have := (List.mem_filter.mp hp).2
      simpa using this
  · rw [hfree, map_some_filterMap_id]
    intro x hx e
    obtain ⟨p', e', -⟩ := h4 x hx
    rw [e'] at e; exact absurd e (by simp)

/-- C6: in every state reached from `DeviceInit`, with one device-complete
delivered per accepted run, no two payloads that are in a hand-off cell or in
flight share their `(activation, set)` pair: the runs outstanding at the
backend are on pairwise different pairs, and the payload the shim is about to
pass to `run` is on a pair with no outstanding run. -/
theorem one_outstanding_run_per_slot {Sample : Type} [Inhabited Sample] (cfg : Config)
    (getBufferPtr : Int → Int → Int → Nat) (init_status : QStatus)
    (run_status : List QStatus) (w0 : World Sample)
    (h0 : DeviceInit cfg getBufferPtr init_status run_status = some w0)
    (as : List (Action Sample)) (os : List (Obs Sample)) (w : World Sample)
    (h : exec w0 as = Except.ok (os, w)) :
    (w.inflight.map fun p => (p.activation, p.set)).Nodup ∧
    (∀ p, some p ∈ w.dev.payloads →
      (p.activation, p.set) ∉ w.inflight.map fun q => (q.activation, q.set)) ∧
    (w.held.map fun p => (p.activation, p.set)).Nodup := by
  obtain ⟨⟨⟨h1, h2, h3⟩, -, -⟩, hcfg⟩ :=
    exec_SlotInv cfg getBufferPtr init_status run_status w0 h0 as os w h
  have hnd : (w.held.map fun p => (p.activation, p.set)).Nodup := by
    apply nodup_key
    intro a
    by_cases hmem : ∃ p ∈ w.held, p.activation = a
    · obtain ⟨p, hp, hpa⟩ := hmem
      obtain ⟨ha0, ha⟩ := h2 p hp
      rw [hpa] at ha0 ha
      have hlt : a.toNat < w.dev.ring_buf.length := by omega
      obtain ⟨-, h5⟩ := h3 a.toNat _ (List.getElem?_eq_getElem hlt)
      have hcast : ((a.toNat : Nat) : Int) = a := by omega
      rw [hcast] at h5
      have hnd := (h5.nodup_iff).mpr (nodup_range_cast _)
      rw [List.map_append] at hnd
      exact hnd.of_append_right
    · have he : (w.held.filter fun p => decide (p.activation = a)) = [] := by
        rw [List.filter_eq_nil_iff]
        intro p hp hpa
        exact hmem ⟨p, hp, by simpa using hpa⟩
      rw [he]; exact List.nodup_nil
  unfold World.held at hnd
  rw [List.map_append, List.nodup_append] at hnd
  refine ⟨hnd.2.1, ?_, by unfold World.held; rw [List.map_append, List.nodup_append]; exact hnd⟩
  intro p hp hin
  apply hnd.2.2 _ hin
  rw [List.mem_map]
  exact ⟨p, List.mem_filterMap.mpr ⟨some p, hp, rfl⟩, rfl⟩

/-! ### Round robin over the activations -/

theorem attempts_cons {Sample : Type} (o : Obs Sample) (os : List (Obs Sample)) :
    attempts (o :: os) = attempts [o] ++ attempts os := by
  unfold attempts
  rw [← List.filterMap_append]; rfl

/-- What a step does to the activation index of the scheduler: nothing, or -
for a slot-acquire attempt, successful or not - advance it by one modulo the
activation count, the payload acquired being one of that activation. -/
theorem step_activation {Sample : Type} (w w' : World Sample) (a : Action Sample)
    (o : Obs Sample) (hinv : w.SlotInv) (hact : -1 ≤ w.activation)
    (h : step w a = Except.ok (o, w')) :
    (attempts [o] = [] ∧ (∀ a0 p, o ≠ Obs.acquired a0 p) ∧ w'.activation = w.activation) ∨
    (0 < w.dev.cfg.activation_count ∧
      w'.activation = (w.activation + 1) % w.dev.cfg.activation_count ∧
      (o = Obs.noSlot w'.activation ∨
        ∃ p, o = Obs.acquired w'.activation p ∧ p.activation = w'.activation)) := by
  cases a with
  | inference b =>
    simp only [step, bind_eq_ok, ofOption_eq_ok, pure_eq_ok, Prod.mk.injEq, Prod.exists] at h
    obtain ⟨r, d', -, ho, hw⟩ := h
    subst hw ho
    exact Or.inl ⟨rfl, (fun _ _ e => by cases e), rfl⟩
  | sched fuel =>
    unfold step QueueSchedulerStep at h
    cases hpc : w.pc with
    | outer =>
      rw [hpc] at h
      simp only at h
      left
      by_cases ht : w.dev.scheduler_terminate = true
      · rw [if_pos ht, pure_eq_ok] at h
        simp only [Prod.mk.injEq] at h
        rw [← h.1, ← h.2]
        exact ⟨rfl, (fun _ _ e => by cases e), rfl⟩
      · rw [if_neg ht] at h
        rcases schedulerPop_ok w w' o h with ⟨-, ho, hw⟩ | ⟨-, i, b, -, -, ho, hw⟩
        · rw [ho, hw]; exact ⟨rfl, (fun _ _ e => by cases e), rfl⟩
        · rw [ho, hw]; exact ⟨rfl, (fun _ _ e => by cases e), rfl⟩
    | inner =>
      rw [hpc] at h
      simp only at h
      by_cases ht : w.dev.scheduler_terminate = true
      · rw [if_pos ht, pure_eq_ok] at h
        simp only [Prod.mk.injEq] at h
        rw [← h.1, ← h.2]
        exact Or.inl ⟨rfl, (fun _ _ e => by cases e), rfl⟩
      · rw [if_neg ht] at h
        right
        obtain ⟨a0, rb, ha0, hrb, h⟩ := schedulerAcquire_ok w w' o h
        have hn0 : w.dev.cfg.activation_count ≠ 0 := by
          intro e; simp [cmod, e] at ha0
        have hn : 0 < w.dev.cfg.activation_count := by
          have := hinv.1.1
          omega
        rw [cmod_of_nonneg (by omega) hn, Option.some.injEq] at ha0
        rw [vecGet_eq_some] at hrb
        obtain ⟨h4, -⟩ := hinv.1.2.2 _ rb hrb.2
        have hcast : ((a0.toNat : Nat) : Int) = a0 := by omega
        rcases h with ⟨-, ho, hw⟩ | ⟨p, hp, -, ho, hw⟩
        · rw [ho, hw]
          exact ⟨hn, ha0.symm, Or.inl rfl⟩
        · obtain ⟨rest, hrest, -⟩ := getPayload_some rb p hp
          obtain ⟨p', e, hp'⟩ := h4 (some p) (by rw [hrest]; exact List.mem_cons_self _ _)
          rw [Option.some.injEq] at e
          subst e
          rw [ho, hw]
          exact ⟨hn, ha0.symm, Or.inr ⟨_, rfl, by rw [← hcast]; exact hp'⟩⟩
    | shim =>
      rw [hpc] at h
      simp only [bind_eq_ok, pure_eq_ok, Prod.mk.injEq] at h
      obtain ⟨w1, h1, ho, hw⟩ := h
      obtain ⟨-, -, -, hact', -⟩ := EnqueueShimBody_frame w w1 0 (EnqueueShim_ok 0 fuel w w1 h1)
      rw [← ho, ← hw]
      exact Or.inl ⟨rfl, (fun _ _ e => by cases e), hact'⟩
    | done =>
      rw [hpc] at h
      simp only [pure_eq_ok, Prod.mk.injEq] at h
      rw [← h.1, ← h.2]
      exact Or.inl ⟨rfl, (fun _ _ e => by cases e), rfl⟩
  | complete i =>
    left
    simp only [step] at h
    cases hp : w.inflight[i]? with
    | none =>
      simp only [hp, pure_eq_ok, Prod.mk.injEq] at h
      rw [← h.1, ← h.2]
      exact ⟨rfl, (fun _ _ e => by cases e), rfl⟩
    | some p =>
      simp only [hp, bind_eq_ok, pure_eq_ok, Prod.mk.injEq] at h
      obtain ⟨w1, h1, ho, hw⟩ := h
      obtain ⟨-, -, -, -, -, hact', -⟩ := PostResults_frame _ w1 _ _ h1
      rw [← ho, ← hw]
      exact ⟨rfl, (fun _ _ e => by cases e), hact'⟩
  | event code i =>
    left
    simp only [step] at h
    cases hp : w.inflight[i]? with
    | none =>
      simp only [hp, pure_eq_ok, Prod.mk.injEq] at h
      rw [← h.1, ← h.2]
      exact ⟨rfl, (fun _ _ e => by cases e), rfl⟩
    | some p =>
      simp only [hp, bind_eq_ok, pure_eq_ok, Prod.mk.injEq] at h
      obtain ⟨w1, h1, ho, hw⟩ := h
      obtain ⟨-, -, -, -, -, hact', -⟩ := PostResults_frame _ w1 _ _ h1
      rw [← ho, ← hw]
      exact ⟨rfl, (fun _ _ e => by cases e), hact'⟩
  | shutdown =>
    left
    simp only [step, pure_eq_ok, Prod.mk.injEq] at h
    rw [← h.1, ← h.2]
    exact ⟨rfl, (fun _ _ e => by cases e), rfl⟩

theorem exec_attempts {Sample : Type} (n : Int) :
    ∀ (as : List (Action Sample)) (w w' : World Sample) (os : List (Obs Sample)),
      w.SlotInv → w.dev.cfg.activation_count = n → -1 ≤ w.activation →
      exec w as = Except.ok (os, w') →
      attempts os = (List.range (attempts os).length).map
        (fun (k : Nat) => (w.activation + 1 + (k : Int)) % n) ∧
      (∀ a0 p, Obs.acquired a0 p ∈ os → p.activation = a0) := by
  intro as
  induction as with
  | nil =>
    intro w w' os _ _ _ h
    rw [exec_nil_ok] at h
    rw [h.1]
    exact ⟨rfl, fun _ _ hm => absurd hm (List.not_mem_nil _)⟩
  | cons a as ih =>
    intro w w' os hinv hn hact h
    rw [exec_cons_ok] at h
    obtain ⟨o, w1, os', h1, h2, h3⟩ := h
    obtain ⟨hinv1, hcfg1⟩ := step_SlotInv w w1 a o hinv h1
    rcases step_activation w w1 a o hinv hact h1 with ⟨e1, e2, e3⟩ | ⟨hpos, e1, e2⟩
    · obtain ⟨i1, i2⟩ := ih w1 w' os' hinv1 (by rw [hcfg1]; exact hn) (by rw [e3]; exact hact) h2
      rw [h3, attempts_cons, e1, List.nil_append]
      rw [e3] at i1
      refine ⟨i1, ?_⟩
      intro a0 p hm
      rcases List.mem_cons.mp hm with e | hm
      · exact absurd e.symm (e2 a0 p)
      · exact i2 a0 p hm
    · rw [hn] at e1 hpos
      have hge : 0 ≤ w1.activation := by rw [e1]; exact Int.emod_nonneg _ (by omega)
      obtain ⟨i1, i2⟩ := ih w1 w' os' hinv1 (by rw [hcfg1]; exact hn) (by omega) h2
      have hatt : attempts [o] = [w1.activation] := by
        rcases e2 with e | ⟨p, e, -⟩ <;> rw [e] <;> rfl
      rw [h3, attempts_cons, hatt]
      constructor
      · simp only [List.singleton_append, List.length_cons, List.range_succ_eq_map,
          List.map_cons, List.map_map]
        congr 1
        · rw [e1]; simp
        · rw [i1]
          simp only [List.length_map, List.length_range]
          apply List.map_congr_left
          intro k _
          simp only [Function.comp, Nat.cast_succ]
          rw [e1, add_assoc, Int.emod_add_emod]
          congr 1
          omega
      · intro a0 p hm
        rcases List.mem_cons.mp hm with e | hm
        · rcases e2 with e' | ⟨p', e', hp'⟩
          · rw [e'] at e; cases e
          · rw [e'] at e
            cases e
            exact hp'
        · exact i2 a0 p hm

theorem dispatchedOn_cons {Sample : Type} (o : Obs Sample) (os : List (Obs Sample)) :
    dispatchedOn (o :: os) = dispatchedOn [o] ++ dispatchedOn os := by
  unfold dispatchedOn
  rw [← List.filterMap_append]; rfl

theorem dispatchedOn_eq_attempts {Sample : Type} :
    ∀ (os : List (Obs Sample)), (∀ a, Obs.noSlot a ∉ os) →
      (∀ a0 p, Obs.acquired a0 p ∈ os → p.activation = a0) →
      dispatchedOn os = attempts os := by
  intro os
  induction os with
  | nil => intro _ _; rfl
  | cons o os ih =>
    intro h1 h2
    have ih' := ih (fun a hm => h1 a (List.mem_cons_of_mem _ hm))
      (fun a0 p hm => h2 a0 p (List.mem_cons_of_mem _ hm))
    rw [dispatchedOn_cons, attempts_cons, ih']
    congr 1
    cases o with
    | noSlot a => exact absurd (List.mem_cons_self _ _) (h1 a)
    | acquired a p =>
      have := h2 a p (List.mem_cons_self _ _)
      show [p.activation] = [a]
      rw [this]
    | _ => rfl

/-- C7: in every run from `DeviceInit` the activation indices of the
scheduler's slot-acquire attempts, successful or not, are `0, 1, 2, ...`
modulo `activation_count` - the first targets activation `0` and the index
persists over pops, completions and batches; hence when no attempt finds its
ring buffer empty, the `k`-th dispatched payload is on activation
`k mod activation_count`. -/
theorem round_robin_activations {Sample : Type} [Inhabited Sample] (cfg : Config)
    (getBufferPtr : Int → Int → Int → Nat) (init_status : QStatus)
    (run_status : List QStatus) (w0 : World Sample)
    (h0 : DeviceInit cfg getBufferPtr init_status run_status = some w0)
    (as : List (Action Sample)) (os : List (Obs Sample)) (w : World Sample)
    (h : exec w0 as = Except.ok (os, w)) :
    attempts os = (List.range (attempts os).length).map
      (fun (k : Nat) => (k : Int) % cfg.activation_count) ∧
    (∀ a, (attempts os).head? = some a → a = 0) ∧
    ((∀ a, Obs.noSlot a ∉ os) →
      dispatchedOn os = (List.range (dispatchedOn os).length).map
        (fun (k : Nat) => (k : Int) % cfg.activation_count)) := by
  have hi := DeviceInit_ok cfg getBufferPtr init_status run_status w0 h0
  have hact : w0.activation = -1 := hi.2.2.2.2.2.2.2.2.2.2.2.2.2.2.2.1
  obtain ⟨e1, e2⟩ := exec_attempts cfg.activation_count as w0 w os
    (DeviceInit_SlotInv cfg getBufferPtr init_status run_status w0 h0)
    (by rw [hi.2.2.2.2.2.1]) (by omega) h
  rw [hact] at e1
  simp only [Int.reduceNeg, neg_add_cancel, zero_add] at e1
  refine ⟨e1, ?_, ?_⟩
  · intro a ha
    rw [e1] at ha
    cases hl : (attempts os).length with
    | zero => rw [hl] at ha; simp at ha
    | succ m =>
      rw [hl, List.range_succ_eq_map] at ha
      simp at ha
      exact ha.symm
  · intro hno
    rw [dispatchedOn_eq_attempts os hno e2]
    exact e1

/-! ### Every operation is defined in the reachable states -/

/-- Every step leaves the members written by `DeviceInit` only as they are. -/
theorem step_sameStatic {Sample : Type} (w w' : World Sample) (a : Action Sample)
    (o : Obs Sample) (h : step w a = Except.ok (o, w')) : w.dev.sameStatic w'.dev := by
  cases a with
  | inference b =>
    simp only [step, bind_eq_ok, ofOption_eq_ok, pure_eq_ok, Prod.mk.injEq, Prod.exists] at h
    obtain ⟨r, d', hi, -, hw⟩ := h
    subst hw
    rcases Inference_eq_some _ _ b r hi with e | ⟨q, e⟩
    · subst e; exact ⟨rfl, rfl, rfl, rfl, rfl⟩
    · subst e; exact ⟨rfl, rfl, rfl, rfl, rfl⟩
  | sched fuel =>
    unfold step QueueSchedulerStep at h
    cases hpc : w.pc with
    | outer =>
      rw [hpc] at h
      simp only at h
      by_cases ht : w.dev.scheduler_terminate = true
      · rw [if_pos ht, pure_eq_ok] at h
        simp only [Prod.mk.injEq] at h
        rw [← h.2]; exact ⟨rfl, rfl, rfl, rfl, rfl⟩
      · rw [if_neg ht] at h
        rcases schedulerPop_ok w w' o h with ⟨-, -, hw⟩ | ⟨-, i, b, -, -, -, hw⟩
        · rw [hw]; exact ⟨rfl, rfl, rfl, rfl, rfl⟩
        · rw [hw]; exact ⟨rfl, rfl, rfl, rfl, rfl⟩
    | inner =>
      rw [hpc] at h
      simp only at h
      by_cases ht : w.dev.scheduler_terminate = true
      · rw [if_pos ht, pure_eq_ok] at h
        simp only [Prod.mk.injEq] at h
        rw [← h.2]; exact ⟨rfl, rfl, rfl, rfl, rfl⟩
      · rw [if_neg ht] at h
        obtain ⟨a, rb, -, -, h⟩ := schedulerAcquire_ok w w' o h
        rcases h with ⟨-, -, hw⟩ | ⟨p, -, -, -, hw⟩
        · rw [hw]; exact ⟨rfl, rfl, rfl, rfl, rfl⟩
        · rw [hw]; exact ⟨rfl, rfl, rfl, rfl, rfl⟩
    | shim =>
      rw [hpc] at h
      simp only [bind_eq_ok, pure_eq_ok, Prod.mk.injEq] at h
      obtain ⟨w1, h1, -, hw⟩ := h
      rw [← hw]
      exact (EnqueueShimBody_frame w w1 0 (EnqueueShim_ok 0 fuel w w1 h1)).2.1
    | done =>
      rw [hpc] at h
      simp only [pure_eq_ok, Prod.mk.injEq] at h
      rw [← h.2]; exact ⟨rfl, rfl, rfl, rfl, rfl⟩
  | complete i =>
    simp only [step] at h
    cases hp : w.inflight[i]? with
    | none =>
      simp only [hp, pure_eq_ok, Prod.mk.injEq] at h
      rw [← h.2]; exact ⟨rfl, rfl, rfl, rfl, rfl⟩
    | some p =>
      simp only [hp, bind_eq_ok, pure_eq_ok, Prod.mk.injEq] at h
      obtain ⟨w1, h1, -, hw⟩ := h
      rw [← hw]
      exact (PostResults_frame _ w1 _ _ h1).2.1
  | event code i =>
    simp only [step] at h
    cases hp : w.inflight[i]? with
    | none =>
      simp only [hp, pure_eq_ok, Prod.mk.injEq] at h
      rw [← h.2]; exact ⟨rfl, rfl, rfl, rfl, rfl⟩
    | some p =>
      simp only [hp, bind_eq_ok, pure_eq_ok, Prod.mk.injEq] at h
      obtain ⟨w1, h1, -, hw⟩ := h
      rw [← hw]
      exact (PostResults_frame _ w1 _ _ h1).2.1
  | shutdown =>
    simp only [step, pure_eq_ok, Prod.mk.injEq] at h
    rw [← h.2]; exact ⟨rfl, rfl, rfl, rfl, rfl⟩

theorem step_Safe {Sample : Type} (w w' : World Sample) (a : Action Sample)
    (o : Obs Sample) (hs : w.Safe) (h : step w a = Except.ok (o, w')) : w'.Safe := by
  obtain ⟨h1, h2, h3, h4, h5⟩ := hs
  obtain ⟨e1, e2, e3, e4, -⟩ := step_sameStatic w w' a o h
  refine ⟨step_QueueInv w w' a o h1 h, (step_SlotInv w w' a o h2 h).1, ?_, by rw [e4]; exact h4,
    ?_⟩
  · rcases step_activation w w' a o h2 h3 h with ⟨-, -, e⟩ | ⟨hpos, e, -⟩
    · rw [e]; exact h3
    · rw [e]
      have := Int.emod_nonneg (w.activation + 1) (show w.dev.cfg.activation_count ≠ 0 by omega)
      omega
  · unfold Device.BufShape
    rw [e1, e2, e3]
    exact h5

theorem vecGet_map_range {β : Type} (f : Nat → β) (n : Nat) (i : Int) (h0 : 0 ≤ i)
    (hlt : i.toNat < n) : vecGet ((List.range n).map f) i = some (f i.toNat) := by
  rw [vecGet_eq_some]
  refine ⟨h0, ?_⟩
  simp only [List.getElem?_map, List.getElem?_range hlt, Option.map_some']

theorem DeviceInit_Safe {Sample : Type} [Inhabited Sample] (cfg : Config)
    (getBufferPtr : Int → Int → Int → Nat) (init_status : QStatus)
    (run_status : List QStatus) (w0 : World Sample)
    (h : DeviceInit cfg getBufferPtr init_status run_status = some w0) : w0.Safe := by
  have hi := DeviceInit_ok cfg getBufferPtr init_status run_status w0 h
  refine ⟨DeviceInit_QueueInv cfg getBufferPtr init_status run_status w0 h,
    DeviceInit_SlotInv cfg getBufferPtr init_status run_status w0 h, ?_,
    hi.2.2.2.2.2.2.2.2.2.2.2.2.1, ?_⟩
  · rw [hi.2.2.2.2.2.2.2.2.2.2.2.2.2.2.2.1]
  · unfold DeviceInit at h
    rw [if_neg (by simp [hi.1])] at h
    by_cases hc : cfg.activation_count < 0 ∨ (0 < cfg.activation_count ∧ cfg.set_size < 0)
        ∨ cfg.samples_queue_depth < 0 ∨ cfg.batch_size < 0
    · rw [if_pos hc] at h; exact absurd h (by simp)
    · rw [if_neg hc] at h
      simp only [Option.some.injEq] at h
      subst h
      intro a s ha0 ha hs0 hs
      simp only at ha hs
      have hal : a.toNat < cfg.activation_count.toNat := by omega
      have hsl : s.toNat < cfg.set_size.toNat := by omega
      exact ⟨⟨_, _, vecGet_map_range _ _ a ha0 hal, vecGet_map_range _ _ s hs0 hsl⟩,
        ⟨_, _, vecGet_map_range _ _ a ha0 hal, vecGet_map_range _ _ s hs0 hsl⟩⟩

/-- The safety invariants hold after every run from `DeviceInit`. -/
theorem exec_Safe {Sample : Type} [Inhabited Sample] (cfg : Config)
    (getBufferPtr : Int → Int → Int → Nat) (init_status : QStatus)
    (run_status : List QStatus) (w0 : World Sample)
    (h0 : DeviceInit cfg getBufferPtr init_status run_status = some w0)
    (as : List (Action Sample)) (os : List (Obs Sample)) (w : World Sample)
    (h : exec w0 as = Except.ok (os, w)) : w.Safe :=
  exec_invariant (fun w => w.Safe) (fun w a o w' hs h => step_Safe w w' a o hs h) as w0 w os
    (DeviceInit_Safe cfg getBufferPtr init_status run_status w0 h0) h

theorem held_valid {Sample : Type} (w : World Sample) (p : Payload Sample)
    (hinv : w.SlotInv) (hp : p ∈ w.held) :
    0 ≤ p.activation ∧ p.activation < w.dev.cfg.activation_count ∧
    0 ≤ p.set ∧ p.set < w.dev.cfg.set_size ∧
    ∃ rb, vecGet w.dev.ring_buf p.activation = some rb := by
  obtain ⟨⟨h1, h2, h3⟩, -, -⟩ := hinv
  obtain ⟨ha0, ha⟩ := h2 p hp
  have hlt : p.activation.toNat < w.dev.ring_buf.length := by omega
  have hrb := List.getElem?_eq_getElem hlt
  obtain ⟨-, h5⟩ := h3 _ _ hrb
  have hmem : p.set ∈ ((List.range w.dev.cfg.set_size.toNat).map fun (s : Nat) => (s : Int)) := by
    apply h5.subset
    rw [List.mem_map]
    refine ⟨p, List.mem_append_right _ (List.mem_filter.mpr ⟨hp, ?_⟩), rfl⟩
    simp; omega
  rw [List.mem_map] at hmem
  obtain ⟨s, hs, hps⟩ := hmem
  rw [List.mem_range] at hs
  refine ⟨ha0, ha, by omega, by omega, w.dev.ring_buf[p.activation.toNat], ?_⟩
  rw [vecGet_eq_some]
  exact ⟨ha0, hrb⟩

theorem PostResults_defined {Sample : Type} (w : World Sample) (p : Payload Sample)
    (hb : w.dev.BufShape)
    (hv : 0 ≤ p.activation ∧ p.activation < w.dev.cfg.activation_count ∧
      0 ≤ p.set ∧ p.set < w.dev.cfg.set_size ∧
      ∃ rb, vecGet w.dev.ring_buf p.activation = some rb) :
    ∃ w', PostResults w QAicEventCompletionType.QAIC_EVENT_DEVICE_COMPLETE (some p)
      = Except.ok w' := by
  obtain ⟨h1, h2, h3, h4, rb, h5⟩ := hv
  obtain ⟨-, l, b, hl, hbuf⟩ := hb p.activation p.set h1 h2 h3 h4
  exact ⟨_, PostResults_complete w p l b rb hl hbuf h5⟩

theorem bind_of_ok {Sample α β : Type} (x : Res Sample α) (f : α → Res Sample β) (a : α)
    (h : x = Except.ok a) : (x >>= f) = f a := by
  rw [h]; rfl

theorem bind_of_error {Sample α β : Type} (x : Res Sample α) (f : α → Res Sample β)
    (e : Fault Sample) (h : x = Except.error e) : (x >>= f) = Except.error e := by
  rw [h]; rfl

theorem shimConfigure_defined {Sample : Type} (w : World Sample) (p : Payload Sample)
    (hb : w.dev.BufShape)
    (hv : 0 ≤ p.activation ∧ p.activation < w.dev.cfg.activation_count ∧
      0 ≤ p.set ∧ p.set < w.dev.cfg.set_size) :
    (∃ w1, shimConfigure w p = Except.ok w1) ∨
    shimConfigure w p = Except.error (Fault.assertion w) := by
  obtain ⟨v1, v2, v3, v4⟩ := hv
  obtain ⟨⟨l, b, hl, hlb⟩, -⟩ := hb p.activation p.set v1 v2 v3 v4
  unfold shimConfigure
  by_cases h0 : w.dev.cfg.input_select = 0
  · rw [if_pos h0]
    left
    simp only [hl, hlb, ofOption, bind, Except.bind]
    exact ⟨_, rfl⟩
  · rw [if_neg h0]
    by_cases h1 : w.dev.cfg.input_select = 1
    · rw [if_pos h1]; exact Or.inr rfl
    · rw [if_neg h1]; exact Or.inl ⟨_, rfl⟩

theorem shimIssue_defined {Sample : Type} (w : World Sample) (p : Payload Sample)
    (hb : w.dev.BufShape)
    (hv : 0 ≤ p.activation ∧ p.activation < w.dev.cfg.activation_count ∧
      0 ≤ p.set ∧ p.set < w.dev.cfg.set_size ∧
      ∃ rb, vecGet w.dev.ring_buf p.activation = some rb) :
    (∃ w2, shimIssue w p = Except.ok w2) ∨
    (∃ w1, shimIssue w p = Except.error (Fault.thrown "Failed to invoke qaic" w1)) := by
  unfold shimIssue
  cases hl : w.dev.loop_back with
  | true =>
    simp only [if_true]
    exact Or.inl (PostResults_defined w p hb hv)
  | false =>
    simp only [Bool.false_eq_true, if_false]
    by_cases hst : (nextStatus w.run_status).1 = QStatus.QS_SUCCESS
    · rw [if_neg (by simp [hst])]; exact Or.inl ⟨_, rfl⟩
    · rw [if_pos hst]; exact Or.inr ⟨_, rfl⟩

theorem EnqueueShimBody_of_some {Sample : Type} (w : World Sample) (id : Int)
    (p : Payload Sample) (hc : vecGet w.dev.payloads id = some (some p)) :
    EnqueueShimBody w id =
      (shimConfigure w p >>= fun w1 => shimIssue w1 p >>= fun w2 =>
        ofOption (vecSet w2.dev.payloads id none) >>= fun ps =>
          pure { w2 with dev := { w2.dev with payloads := ps } }) := by
  unfold EnqueueShimBody
  simp only [hc, ofOption, bind, Except.bind]

theorem EnqueueShimBody_defined {Sample : Type} (w : World Sample) (hs : w.Safe) :
    (∃ w', EnqueueShimBody w 0 = Except.ok w') ∨
    (∃ w1, EnqueueShimBody w 0 = Except.error (Fault.thrown "Failed to invoke qaic" w1)) ∨
    (∃ w1, EnqueueShimBody w 0 = Except.error (Fault.assertion w1)) := by
  obtain ⟨hq, hslot, hact, hterm, hbuf⟩ := hs
  have hplen := hslot.2.1
  have hcell : ∃ c, vecGet w.dev.payloads 0 = some c := by
    match hpl : w.dev.payloads, hplen with
    | [c], _ => exact ⟨c, rfl⟩
  obtain ⟨c, hc⟩ := hcell
  cases c with
  | none => exact Or.inl ⟨w, EnqueueShimBody_of_none w 0 hc⟩
  | some p =>
    have hpm : p ∈ w.held := by
      unfold World.held
      rw [payloads_eq_of_length_one _ _ hplen hc]
      simp
    obtain ⟨v1, v2, v3, v4, rb, v5⟩ := held_valid w p hslot hpm
    rw [EnqueueShimBody_of_some w 0 p hc]
    rcases shimConfigure_defined w p hbuf ⟨v1, v2, v3, v4⟩ with ⟨w1, h1⟩ | h1
    · rw [bind_of_ok _ _ w1 h1]
      have e1 := shimConfigure_ok w w1 p h1
      have hd1 : w1.dev = w.dev := by rw [e1]
      rcases shimIssue_defined w1 p (by rw [hd1]; exact hbuf)
          (by rw [hd1]; exact ⟨v1, v2, v3, v4, rb, v5⟩) with ⟨w2, h2⟩ | ⟨w2, h2⟩
      · rw [bind_of_ok _ _ w2 h2]
        have hlen2 : w2.dev.payloads.length = 1 := by
          rcases shimIssue_ok w1 w2 p h2 with ⟨-, hp⟩ | ⟨-, -, hw2⟩
          · rw [(PostResults_frame w1 w2 _ _ hp).2.2.1, hd1]; exact hplen
          · rw [hw2]; show w1.dev.payloads.length = 1; rw [hd1]; exact hplen
        have hps : vecSet w2.dev.payloads 0 none = some (w2.dev.payloads.set 0 none) := by
          unfold vecSet
          rw [if_pos ⟨le_refl _, by simp [hlen2]⟩]
          rfl
        rw [hps]
        exact Or.inl ⟨_, rfl⟩
      · rw [bind_of_error _ _ _ h2]
        exact Or.inr (Or.inl ⟨w2, rfl⟩)
    · rw [bind_of_error _ _ _ h1]
      exact Or.inr (Or.inr ⟨w, rfl⟩)

/-- In a state satisfying the safety invariants, with at least one activation
and fuel for one pass of the shim loop, a step returns, or ends in the `throw`
of a failed `run`, or in the `assert(false)` of input-select mode 1: it never
runs into undefined behaviour and the inline shim call always terminates. -/
theorem step_defined {Sample : Type} (w : World Sample) (a : Action Sample) (hs : w.Safe)
    (hn : 0 < w.dev.cfg.activation_count) (hfuel : ∀ f, a = Action.sched f → 0 < f) :
    (∃ r, step w a = Except.ok r) ∨
    (∃ w1, step w a = Except.error (Fault.thrown "Failed to invoke qaic" w1)) ∨
    (∃ w1, step w a = Except.error (Fault.assertion w1)) := by
  have hs' := hs
  obtain ⟨hq, hslot, hact, hterm, hbuf⟩ := hs
  cases a with
  | inference b =>
    left
    obtain ⟨r, d', hi⟩ := (Inference_defined w.dev b hq.1)
    exact ⟨_, by simp only [step, hi, ofOption, bind, Except.bind]; rfl⟩
  | sched fuel =>
    have hf := hfuel fuel rfl
    unfold step QueueSchedulerStep
    cases hpc : w.pc with
    | outer =>
      simp only
      left
      by_cases ht : w.dev.scheduler_terminate = true
      · rw [if_pos ht]; exact ⟨_, rfl⟩
      · rw [if_neg ht]
        unfold schedulerPop
        by_cases hfb : w.dev.sfront = w.dev.sback
        · rw [if_pos hfb]; exact ⟨_, rfl⟩
        · rw [if_neg hfb]
          obtain ⟨⟨hlen, hf0, hfb'⟩, hd⟩ := hq
          have hd0 : 0 < w.dev.samples_queue_depth := by omega
          have hm0 := Int.emod_nonneg w.dev.sfront (show w.dev.samples_queue_depth ≠ 0 by omega)
          have hm1 := Int.emod_lt_of_pos w.dev.sfront hd0
          have hlt : (w.dev.sfront % w.dev.samples_queue_depth).toNat
              < w.dev.samples_queue.length := by omega
          have hget : vecGet w.dev.samples_queue (w.dev.sfront % w.dev.samples_queue_depth)
              = some (w.dev.samples_queue[(w.dev.sfront % w.dev.samples_queue_depth).toNat]) := by
            rw [vecGet_eq_some]
            exact ⟨hm0, List.getElem?_eq_getElem hlt⟩
          rw [cmod_of_nonneg hf0 hd0]
          simp only [ofOption, bind, Except.bind, hget]
          exact ⟨_, rfl⟩
    | inner =>
      simp only
      left
      by_cases ht : w.dev.scheduler_terminate = true
      · rw [if_pos ht]; exact ⟨_, rfl⟩
      · rw [if_neg ht]
        unfold schedulerAcquire
        obtain ⟨⟨h1, h2, h3⟩, hplen, hpnone⟩ := hslot
        have hm0 := Int.emod_nonneg (w.activation + 1)
          (show w.dev.cfg.activation_count ≠ 0 by omega)
        have hm1 := Int.emod_lt_of_pos (w.activation + 1) hn
        have hlt : ((w.activation + 1) % w.dev.cfg.activation_count).toNat
            < w.dev.ring_buf.length := by omega
        have hget : vecGet w.dev.ring_buf ((w.activation + 1) % w.dev.cfg.activation_count)
            = some (w.dev.ring_buf[((w.activation + 1) % w.dev.cfg.activation_count).toNat]) := by
          rw [vecGet_eq_some]
          exact ⟨hm0, List.getElem?_eq_getElem hlt⟩
        rw [cmod_of_nonneg (by omega) hn]
        simp only [ofOption, bind, Except.bind, hget, vecSet_of_vecGet _ _ _ _ hget]
        cases hp : (w.dev.ring_buf[((w.activation + 1)
            % w.dev.cfg.activation_count).toNat]).getPayload.1 with
        | none => exact ⟨_, rfl⟩
        | some p =>
          have hps : ∀ x, vecSet w.dev.payloads 0 x = some (w.dev.payloads.set 0 x) := by
            intro x
            unfold vecSet
            rw [if_pos ⟨le_refl _, by simp [hplen]⟩]
            rfl
          simp only [hps]
          exact ⟨_, rfl⟩
    | shim =>
      simp only
      obtain ⟨fuel', rfl⟩ : ∃ f', fuel = f' + 1 := ⟨fuel - 1, by omega⟩
      rcases EnqueueShimBody_defined w hs' with ⟨w', hb⟩ | ⟨w1, hb⟩ | ⟨w1, hb⟩
      · have ht : w'.dev.shim_terminate = true := by
          rw [(EnqueueShimBody_frame w w' 0 hb).2.1.2.2.2.1]; exact hterm
        rw [bind_of_ok _ _ w' (EnqueueShim_of_terminate fuel' w w' 0 hb ht)]
        exact Or.inl ⟨_, rfl⟩
      · have he : EnqueueShim (fuel' + 1) w 0
            = Except.error (Fault.thrown "Failed to invoke qaic" w1) := by
          unfold EnqueueShim
          rw [bind_of_error _ _ _ hb]
        rw [bind_of_error _ _ _ he]
        exact Or.inr (Or.inl ⟨w1, rfl⟩)
      · have he : EnqueueShim (fuel' + 1) w 0 = Except.error (Fault.assertion w1) := by
          unfold EnqueueShim
          rw [bind_of_error _ _ _ hb]
        rw [bind_of_error _ _ _ he]
        exact Or.inr (Or.inr ⟨w1, rfl⟩)
    | done => exact Or.inl ⟨_, rfl⟩
  | complete i =>
    left
    simp only [step]
    cases hp : w.inflight[i]? with
    | none => exact ⟨_, rfl⟩
    | some p =>
      have hpm : p ∈ w.held := by
        unfold World.held
        exact List.mem_append_right _ (List.getElem?_mem hp)
      obtain ⟨w2, hw2⟩ := PostResults_defined { w with inflight := w.inflight.eraseIdx i } p hbuf
        (held_valid w p hslot hpm)
      simp only [hw2, bind, Except.bind]
      exact ⟨_, rfl⟩
  | event code i =>
    left
    simp only [step]
    cases hp : w.inflight[i]? with
    | none => exact ⟨_, rfl⟩
    | some p =>
      simp only [PostResults_other, bind, Except.bind]
      exact ⟨_, rfl⟩
  | shutdown => exact Or.inl ⟨_, rfl⟩

/-- A run from a state satisfying the safety invariants, with at least one
activation and fuel for every scheduler step, ends without a fault, or in the
`throw` of a failed `run`, or in the `assert(false)` of input-select mode 1. -/
theorem exec_defined {Sample : Type} :
    ∀ (as : List (Action Sample)) (w : World Sample), w.Safe →
      0 < w.dev.cfg.activation_count → (∀ f, Action.sched f ∈ as → 0 < f) →
      (∃ r, exec w as = Except.ok r) ∨
      (∃ w1, exec w as = Except.error (Fault.thrown "Failed to invoke qaic" w1)) ∨
      (∃ w1, exec w as = Except.error (Fault.assertion w1)) := by
  intro as
  induction as with
  | nil => intro w _ _ _; exact Or.inl ⟨_, rfl⟩
  | cons a as ih =>
    intro w hs hn hfuel
    have hstep := step_defined w a hs hn
      (fun f e => hfuel f (by rw [e]; exact List.mem_cons_self _ _))
    rcases hstep with ⟨⟨o, w1⟩, h1⟩ | ⟨w1, h1⟩ | ⟨w1, h1⟩
    · have hs1 := step_Safe w w1 a o hs h1
      have hc1 := (step_sameStatic w w1 a o h1).1
      have hrest := ih w1 hs1 (by rw [hc1]; exact hn)
        (fun f hm => hfuel f (List.mem_cons_of_mem _ hm))
      unfold exec
      rw [bind_of_ok _ _ _ h1]
      rcases hrest with ⟨r, h2⟩ | ⟨w2, h2⟩ | ⟨w2, h2⟩
      · rw [bind_of_ok _ _ _ h2]; exact Or.inl ⟨_, rfl⟩
      · rw [bind_of_error _ _ _ h2]; exact Or.inr (Or.inl ⟨w2, rfl⟩)
      · rw [bind_of_error _ _ _ h2]; exact Or.inr (Or.inr ⟨w2, rfl⟩)
    · unfold exec
      rw [bind_of_error _ _ _ h1]; exact Or.inr (Or.inl ⟨w1, rfl⟩)
    · unfold exec
      rw [bind_of_error _ _ _ h1]; exact Or.inr (Or.inr ⟨w1, rfl⟩)

/-! ### The example runs -/

theorem loopbackInit_eq :
    DeviceInit loopbackConfig exampleBufferPtr QStatus.QS_SUCCESS [] = some loopbackInit := by
  decide

theorem backendInit_eq :
    DeviceInit backendConfig exampleBufferPtr QStatus.QS_SUCCESS [] = some backendInit := by
  decide

theorem loopbackRun_eq :
    exec loopbackInit loopbackActions = Except.ok (runOf loopbackInit loopbackActions) := by
  rfl

theorem backendRun_eq :
    exec backendInit backendActions = Except.ok (runOf backendInit backendActions) := by
  rfl

theorem backendShortRun_eq :
    exec backendInit backendActionsShort
      = Except.ok (runOf backendInit backendActionsShort) := by
  rfl

theorem noSlot_not_mem {Sample : Type} (os : List (Obs Sample)) (h : noFailedAttempt os = true) :
    ∀ a, Obs.noSlot a ∉ os := by
  intro a hm
  unfold noFailedAttempt at h
  rw [List.all_eq_true] at h
  have := h _ hm
  simp at this

/-! ### The properties on the example runs -/

theorem queue_occupancy_bounds_witness :
    DeviceInit backendConfig exampleBufferPtr QStatus.QS_SUCCESS [] = some backendInit ∧
    exec backendInit backendActionsShort
      = Except.ok (runOf backendInit backendActionsShort) ∧
    (runOf backendInit backendActionsShort).2.dev.sback = 3 ∧
    (runOf backendInit backendActionsShort).2.dev.sfront = 2 ∧
    0 ≤ (runOf backendInit backendActionsShort).2.dev.sback
      - (runOf backendInit backendActionsShort).2.dev.sfront ∧
    (runOf backendInit backendActionsShort).2.dev.sback
      - (runOf backendInit backendActionsShort).2.dev.sfront
      ≤ (runOf backendInit backendActionsShort).2.dev.samples_queue_depth :=
  have h := queue_occupancy_bounds backendConfig exampleBufferPtr QStatus.QS_SUCCESS []
    backendInit backendInit_eq backendActionsShort _ _ backendShortRun_eq
  ⟨backendInit_eq, backendShortRun_eq, by decide, by decide, h.2.2.1, h.2.2.2.1⟩

theorem popped_prefix_of_accepted_witness :
    DeviceInit backendConfig exampleBufferPtr QStatus.QS_SUCCESS [] = some backendInit ∧
    exec backendInit backendActionsShort
      = Except.ok (runOf backendInit backendActionsShort) ∧
    acceptedBatches (runOf backendInit backendActionsShort).1 = [[0], [1], [3]] ∧
    poppedBatches (runOf backendInit backendActionsShort).1 = [[0], [1]] ∧
    poppedBatches (runOf backendInit backendActionsShort).1
      <+: acceptedBatches (runOf backendInit backendActionsShort).1 :=
  ⟨backendInit_eq, backendShortRun_eq, by decide, by decide,
    (popped_prefix_of_accepted backendConfig exampleBufferPtr QStatus.QS_SUCCESS []
      backendInit backendInit_eq backendActionsShort _ _ backendShortRun_eq).2.1⟩

theorem slot_conservation_witness :
    DeviceInit backendConfig exampleBufferPtr QStatus.QS_SUCCESS [] = some backendInit ∧
    exec backendInit backendActions = Except.ok (runOf backendInit backendActions) ∧
    (0 : Int) < backendConfig.activation_count ∧
    ((runOf backendInit backendActions).2.freeSlots 0).length = 0 ∧
    ((runOf backendInit backendActions).2.inFlight 0).length = 2 ∧
    ((((runOf backendInit backendActions).2.freeSlots 0).length
      + ((runOf backendInit backendActions).2.inHand 0).length
      + ((runOf backendInit backendActions).2.inFlight 0).length : Nat) : Int)
      = backendConfig.set_size :=
  ⟨backendInit_eq, backendRun_eq, by decide, by decide, by decide,
    (slot_conservation backendConfig exampleBufferPtr QStatus.QS_SUCCESS []
      backendInit backendInit_eq backendActions _ _ backendRun_eq 0 (by decide)
      (by decide)).2.2.1⟩

theorem one_outstanding_run_per_slot_witness :
    DeviceInit backendConfig exampleBufferPtr QStatus.QS_SUCCESS [] = some backendInit ∧
    exec backendInit backendActions = Except.ok (runOf backendInit backendActions) ∧
    ((runOf backendInit backendActions).2.inflight.map fun p => (p.activation, p.set))
      = [(0, 0), (0, 1)] ∧
    ((runOf backendInit backendActions).2.inflight.map
      fun p => (p.activation, p.set)).Nodup :=
  ⟨backendInit_eq, backendRun_eq, by decide,
    (one_outstanding_run_per_slot backendConfig exampleBufferPtr QStatus.QS_SUCCESS []
      backendInit backendInit_eq backendActions _ _ backendRun_eq).1⟩

theorem round_robin_activations_witness :
    DeviceInit loopbackConfig exampleBufferPtr QStatus.QS_SUCCESS [] = some loopbackInit ∧
    exec loopbackInit loopbackActions = Except.ok (runOf loopbackInit loopbackActions) ∧
    noFailedAttempt (runOf loopbackInit loopbackActions).1 = true ∧
    dispatchedOn (runOf loopbackInit loopbackActions).1 = [0, 1, 2, 3, 0, 1, 2, 3] :=
  ⟨loopbackInit_eq, loopbackRun_eq, by decide,
    ((round_robin_activations loopbackConfig exampleBufferPtr QStatus.QS_SUCCESS []
      loopbackInit loopbackInit_eq loopbackActions _ _ loopbackRun_eq).2.2
        (noSlot_not_mem _ (by decide))).trans (by decide)⟩

theorem getPayload_fifo_witness :
    (∀ x ∈ (RingBuffer.new 0 0 2 : RingBuffer Nat).q, x ≠ none) ∧
    (((RingBuffer.new 0 0 2 : RingBuffer Nat).getPayload).1 = none ↔
      (RingBuffer.new 0 0 2 : RingBuffer Nat).q = []) ∧
    ((RingBuffer.new 0 0 2 : RingBuffer Nat).getPayload).1
      = some { samples := [], device := 0, activation := 0, set := 0 } :=
  ⟨by decide, (getPayload_fifo (RingBuffer.new 0 0 2 : RingBuffer Nat) (by decide)).1,
    by decide⟩

theorem PostResults_acts_iff_complete_witness :
    vecGet loopbackInit.dev.buffers_out examplePayload.activation = some [[201, 202]] ∧
    vecGet [[201, 202]] examplePayload.set = some [201, 202] ∧
    vecGet loopbackInit.dev.ring_buf examplePayload.activation
      = some { q := [some { samples := [], device := 0, activation := 2, set := 0 }],
               size := 1 } ∧
    ∃ w', PostResults loopbackInit QAicEventCompletionType.QAIC_EVENT_DEVICE_COMPLETE
        (some examplePayload) = Except.ok w' ∧
      w'.calls = loopbackInit.calls ++ [Call.postprocessResults examplePayload.samples [201, 202]] ∧
      vecGet w'.dev.ring_buf examplePayload.activation
        = some { q := [some { samples := [], device := 0, activation := 2, set := 0 }]
                   ++ [some examplePayload],
                 size := 1 } :=
  ⟨by decide, by decide, by decide,
    ((PostResults_acts_iff_complete loopbackInit
      QAicEventCompletionType.QAIC_EVENT_DEVICE_COMPLETE examplePayload [[201, 202]] [201, 202]
      { q := [some { samples := [], device := 0, activation := 2, set := 0 }], size := 1 }
      (by decide) (by decide) (by decide)).2 rfl).elim
      fun w' h => ⟨w', h.1, h.2.1, h.2.2.1⟩⟩

/-! ### `Inference` and the terminate flag -/

/-- C14 (counterexample): with the terminate flag set and room in the queue,
`Inference` stores the batch and advances `sback`. -/
theorem Inference_accepts_after_terminate :
    drainingDevice.scheduler_terminate = true ∧
    drainingDevice.Inference [9]
      = some (1, { drainingDevice with samples_queue := [[9], []], sback := 1 }) := by
  decide

/-- C14 (amended): `Inference` does not consult the terminate flag: setting the
flag to any value changes neither the return value nor what is stored. So
with the flag set, on a well-formed queue whose sum
`sfront + samples_queue_depth` is in the range of `int`, the batch is stored
and `sback` advanced when `sback - sfront < samples_queue_depth`, and the call
returns `-1` and changes nothing otherwise. -/
theorem Inference_ignores_terminate {Sample : Type} (d : Device Sample) (b : List Sample)
    (t : Bool) :
    Device.Inference { d with scheduler_terminate := t } b
      = ((d.Inference b).map fun r => (r.1, { r.2 with scheduler_terminate := t })) ∧
    (d.QueueWF → d.sfront + d.samples_queue_depth < 2147483648 →
      (d.sback - d.sfront < d.samples_queue_depth →
        ∃ d', Device.Inference { d with scheduler_terminate := true } b
            = some (d.samples_queue_depth - (d.sback + 1 - d.sfront), d') ∧
          d'.sback = d.sback + 1 ∧
          d'.samples_queue[(d.sback % d.samples_queue_depth).toNat]? = some b) ∧
      (d.samples_queue_depth ≤ d.sback - d.sfront →
        Device.Inference { d with scheduler_terminate := true } b
          = some (-1, { d with scheduler_terminate := true }))) := by
  have key : Device.Inference { d with scheduler_terminate := t } b
      = ((d.Inference b).map fun r => (r.1, { r.2 with scheduler_terminate := t })) := by
    unfold Device.Inference
    by_cases hf : d.sback ≥ wrapInt (d.sfront + d.samples_queue_depth)
    · simp only [hf, if_true, Option.map_some']
    · simp only [hf, if_false]
      cases cmod d.sback d.samples_queue_depth with
      | none => rfl
      | some i =>
        cases hq : vecSet d.samples_queue i b with
        | none => simp [hq]
        | some q => simp [hq]
  refine ⟨key, ?_⟩
  intro hwf hs
  constructor
  · intro h
    have hacc := Inference_of_not_full { d with scheduler_terminate := true } b hwf hs h
    obtain ⟨hlen, hf, hfb⟩ := hwf
    have hd : 0 < d.samples_queue_depth := by omega
    have hm0 : 0 ≤ d.sback % d.samples_queue_depth := Int.emod_nonneg _ (by omega)
    have hm1 : d.sback % d.samples_queue_depth < d.samples_queue_depth :=
      Int.emod_lt_of_pos _ hd
    refine ⟨_, hacc, rfl, ?_⟩
    simp only [List.getElem?_set, if_true]
    rw [if_pos (by omega)]
  · intro h
    obtain ⟨hlen, hf, hfb⟩ := hwf
    exact Inference_of_full { d with scheduler_terminate := true } b
      (show -2147483648 ≤ d.sfront + d.samples_queue_depth by omega) h

theorem Inference_ignores_terminate_witness :
    backendInit.dev.QueueWF ∧
    backendInit.dev.sfront + backendInit.dev.samples_queue_depth < 2147483648 ∧
    backendInit.dev.sback - backendInit.dev.sfront < backendInit.dev.samples_queue_depth ∧
    ∃ d', drainingDevice.Inference [9] = some (1, d') ∧ d'.sback = 1 ∧
      d'.samples_queue[0]? = some [9] :=
  ⟨⟨by decide, by decide, by decide⟩, by decide, by decide,
    (((Inference_ignores_terminate backendInit.dev [9] true).2
      ⟨by decide, by decide, by decide⟩ (by decide)).1 (by decide)).elim
      fun d' h => ⟨d', h.1, h.2.1, h.2.2⟩⟩

/-! ### The steps, case by case -/

/-- Every successful step is one of the cases of `Step`. -/
theorem step_shape {Sample : Type} (w w' : World Sample) (a : Action Sample)
    (o : Obs Sample) (h : step w a = Except.ok (o, w')) : Step w a o w' := by
  cases a with
  | inference b =>
    simp only [step, bind_eq_ok, ofOption_eq_ok, pure_eq_ok, Prod.mk.injEq, Prod.exists] at h
    obtain ⟨r, d', hi, ho, hw⟩ := h
    subst hw ho
    exact Step.inference w b r d' hi
  | sched fuel =>
    unfold step QueueSchedulerStep at h
    cases hpc : w.pc with
    | outer =>
      rw [hpc] at h
      simp only at h
      cases ht : w.dev.scheduler_terminate with
      | true =>
        rw [ht, if_pos rfl, pure_eq_ok] at h
        simp only [Prod.mk.injEq] at h
        rw [← h.1, ← h.2]
        exact Step.leftOuter w fuel hpc ht
      | false =>
        rw [ht] at h
        simp only [Bool.false_eq_true, if_false] at h
        rcases schedulerPop_ok w w' o h with ⟨hfb, ho, hw⟩ | ⟨hne, i, b, hi, hb, ho, hw⟩
        · rw [ho, hw]; exact Step.popNone w fuel hpc ht hfb
        · rw [ho, hw]; exact Step.popped w fuel i b hpc ht hne hi hb
    | inner =>
      rw [hpc] at h
      simp only at h
      cases ht : w.dev.scheduler_terminate with
      | true =>
        rw [ht, if_pos rfl, pure_eq_ok] at h
        simp only [Prod.mk.injEq] at h
        rw [← h.1, ← h.2]
        exact Step.leftInner w fuel hpc ht
      | false =>
        rw [ht] at h
        simp only [Bool.false_eq_true, if_false] at h
        obtain ⟨a, rb, ha, hrb, h⟩ := schedulerAcquire_ok w w' o h
        rcases h with ⟨hn, ho, hw⟩ | ⟨p, hp, hlen, ho, hw⟩
        · rw [ho, hw]; exact Step.noSlot w fuel a rb hpc ht ha hrb hn
        · rw [ho, hw]; exact Step.acquired w fuel a rb p hpc ht ha hrb hp hlen
    | shim =>
      rw [hpc] at h
      simp only [bind_eq_ok, pure_eq_ok, Prod.mk.injEq] at h
      obtain ⟨w1, h1, ho, hw⟩ := h
      rw [← ho, ← hw]
      exact Step.shim w fuel w1 hpc (EnqueueShim_ok 0 fuel w w1 h1)
    | done =>
      rw [hpc] at h
      simp only [pure_eq_ok, Prod.mk.injEq] at h
      rw [← h.1, ← h.2]
      exact Step.stopped w fuel hpc
  | complete i =>
    simp only [step] at h
    cases hp : w.inflight[i]? with
    | none =>
      simp only [hp, pure_eq_ok, Prod.mk.injEq] at h
      rw [← h.1, ← h.2]
      exact Step.completeNone w i hp
    | some p =>
      simp only [hp, bind_eq_ok, pure_eq_ok, Prod.mk.injEq] at h
      obtain ⟨w1, h1, ho, hw⟩ := h
      rw [← ho, ← hw]
      exact Step.complete w i p w1 hp h1
  | event code i =>
    simp only [step] at h
    cases hp : w.inflight[i]? with
    | none =>
      simp only [hp, pure_eq_ok, Prod.mk.injEq] at h
      rw [← h.1, ← h.2]
      exact Step.eventNone w code i hp
    | some p =>
      simp only [hp, bind_eq_ok, pure_eq_ok, Prod.mk.injEq, PostResults_other] at h
      obtain ⟨w1, h1, ho, hw⟩ := h
      rw [← ho, ← hw, ← Except.ok.inj h1]
      exact Step.event w code i p hp
  | shutdown =>
    simp only [step, pure_eq_ok, Prod.mk.injEq] at h
    rw [← h.1, ← h.2]
    exact Step.shutdown w

/-- A property of the history of observations and the state that every step
keeps holds along every run. -/
theorem exec_history_invariant {Sample : Type}
    (P : List (Obs Sample) → World Sample → Prop)
    (hstep : ∀ hist w a o w', P hist w → step w a = Except.ok (o, w') → P (hist ++ [o]) w') :
    ∀ (as : List (Action Sample)) (hist : List (Obs Sample)) (w w' : World Sample)
      (os : List (Obs Sample)),
      P hist w → exec w as = Except.ok (os, w') → P (hist ++ os) w' := by
  intro as
  induction as with
  | nil =>
    intro hist w w' os hP h
    rw [exec_nil_ok] at h
    rw [h.1, h.2, List.append_nil]; exact hP
  | cons a as ih =>
    intro hist w w' os hP h
    rw [exec_cons_ok] at h
    obtain ⟨o, w1, os', h1, h2, h3⟩ := h
    have := ih (hist ++ [o]) w1 w' os' (hstep hist w a o w1 hP h1) h2
    rw [h3]
    simpa using this

/-! ### The shim body, outcome by outcome -/

theorem shimConfigure_eval {Sample : Type} (w : World Sample) (p : Payload Sample)
    (in_a : List (List Nat)) (inp : List Nat)
    (hin : vecGet w.dev.buffers_in p.activation = some in_a)
    (hin2 : vecGet in_a p.set = some inp) (hsel : w.dev.cfg.input_select ≠ 1) :
    shimConfigure w p = Except.ok
      { w with calls := w.calls ++ configureCalls w.dev.cfg.input_select p.samples inp } := by
  unfold shimConfigure configureCalls
  by_cases h0 : w.dev.cfg.input_select = 0
  · simp only [if_pos h0, hin, hin2, ofOption, bind, Except.bind]
    rfl
  · simp only [if_neg h0, if_neg hsel, List.append_nil]
    rfl

theorem shimConfigure_assert {Sample : Type} (w : World Sample) (p : Payload Sample)
    (hsel : w.dev.cfg.input_select = 1) :
    shimConfigure w p = Except.error (Fault.assertion w) := by
  unfold shimConfigure
  rw [if_neg (by omega), if_pos hsel]

theorem EnqueueShimBody_assert {Sample : Type} (w : World Sample) (p : Payload Sample)
    (hc : vecGet w.dev.payloads 0 = some (some p)) (hsel : w.dev.cfg.input_select = 1) :
    EnqueueShimBody w 0 = Except.error (Fault.assertion w) := by
  rw [EnqueueShimBody_of_some w 0 p hc, bind_of_error _ _ _ (shimConfigure_assert w p hsel)]

theorem vecSet_zero {α : Type} (l : List α) (x : α) (hl : 0 < l.length) :
    vecSet l 0 x = some (l.set 0 x) := by
  unfold vecSet
  rw [if_pos ⟨le_refl _, by simpa using hl⟩]
  rfl

theorem EnqueueShimBody_loopback {Sample : Type} (w : World Sample) (p : Payload Sample)
    (in_a : List (List Nat)) (inp : List Nat) (out_a : List (List Nat)) (out : List Nat)
    (rb : RingBuffer Sample)
    (hc : vecGet w.dev.payloads 0 = some (some p))
    (hin : vecGet w.dev.buffers_in p.activation = some in_a)
    (hin2 : vecGet in_a p.set = some inp)
    (hout : vecGet w.dev.buffers_out p.activation = some out_a)
    (hout2 : vecGet out_a p.set = some out)
    (hrb : vecGet w.dev.ring_buf p.activation = some rb)
    (hsel : w.dev.cfg.input_select ≠ 1) (hl : w.dev.loop_back = true) :
    EnqueueShimBody w 0 = Except.ok
      { w with
        calls := w.calls ++ configureCalls w.dev.cfg.input_select p.samples inp
          ++ [Call.postprocessResults p.samples out]
        dev := { w.dev with
          ring_buf := w.dev.ring_buf.set p.activation.toNat { rb with q := rb.q ++ [some p] }
          payloads := w.dev.payloads.set 0 none }
        cerr := w.cerr ++ (rb.release (some p)).1 } := by
  have hlen : 0 < w.dev.payloads.length := (vecGet_lt _ _ _ hc).2
  rw [EnqueueShimBody_of_some w 0 p hc,
    bind_of_ok _ _ _ (shimConfigure_eval w p in_a inp hin hin2 hsel)]
  have hiss : shimIssue
      { w with calls := w.calls ++ configureCalls w.dev.cfg.input_select p.samples inp } p
      = PostResults
        { w with calls := w.calls ++ configureCalls w.dev.cfg.input_select p.samples inp }
        QAicEventCompletionType.QAIC_EVENT_DEVICE_COMPLETE (some p) := by
    unfold shimIssue
    rw [if_pos hl]
  rw [bind_of_ok _ _ _ (hiss.trans (PostResults_complete _ p out_a out rb hout hout2 hrb))]
  simp only [vecSet_zero _ _ hlen, ofOption, bind, Except.bind]
  rfl

theorem EnqueueShimBody_run_ok {Sample : Type} (w : World Sample) (p : Payload Sample)
    (in_a : List (List Nat)) (inp : List Nat)
    (hc : vecGet w.dev.payloads 0 = some (some p))
    (hin : vecGet w.dev.buffers_in p.activation = some in_a)
    (hin2 : vecGet in_a p.set = some inp)
    (hsel : w.dev.cfg.input_select ≠ 1) (hl : w.dev.loop_back = false)
    (hst : (nextStatus w.run_status).1 = QStatus.QS_SUCCESS) :
    EnqueueShimBody w 0 = Except.ok
      { w with
        calls := w.calls ++ configureCalls w.dev.cfg.input_select p.samples inp
          ++ [Call.run p.activation p.set p]
        run_status := (nextStatus w.run_status).2
        inflight := w.inflight ++ [p]
        dev := { w.dev with payloads := w.dev.payloads.set 0 none } } := by
  have hlen : 0 < w.dev.payloads.length := (vecGet_lt _ _ _ hc).2
  rw [EnqueueShimBody_of_some w 0 p hc,
    bind_of_ok _ _ _ (shimConfigure_eval w p in_a inp hin hin2 hsel)]
  have hiss : shimIssue
      { w with calls := w.calls ++ configureCalls w.dev.cfg.input_select p.samples inp } p
      = Except.ok
        { w with
          calls := w.calls ++ configureCalls w.dev.cfg.input_select p.samples inp
            ++ [Call.run p.activation p.set p]
          run_status := (nextStatus w.run_status).2
          inflight := w.inflight ++ [p] } := by
    unfold shimIssue
    rw [if_neg (by simp [hl])]
    simp only
    rw [if_neg (by simp [hst])]
    rfl
  rw [bind_of_ok _ _ _ hiss]
  simp only [vecSet_zero _ _ hlen, ofOption, bind, Except.bind]
  rfl

theorem EnqueueShimBody_run_failed {Sample : Type} (w : World Sample) (p : Payload Sample)
    (in_a : List (List Nat)) (inp : List Nat)
    (hc : vecGet w.dev.payloads 0 = some (some p))
    (hin : vecGet w.dev.buffers_in p.activation = some in_a)
    (hin2 : vecGet in_a p.set = some inp)
    (hsel : w.dev.cfg.input_select ≠ 1) (hl : w.dev.loop_back = false)
    (hst : (nextStatus w.run_status).1 ≠ QStatus.QS_SUCCESS) :
    EnqueueShimBody w 0 = Except.error (Fault.thrown "Failed to invoke qaic"
      { w with
        calls := w.calls ++ configureCalls w.dev.cfg.input_select p.samples inp
          ++ [Call.run p.activation p.set p]
        run_status := (nextStatus w.run_status).2 }) := by
  rw [EnqueueShimBody_of_some w 0 p hc,
    bind_of_ok _ _ _ (shimConfigure_eval w p in_a inp hin hin2 hsel)]
  have hiss : shimIssue
      { w with calls := w.calls ++ configureCalls w.dev.cfg.input_select p.samples inp } p
      = Except.error (Fault.thrown "Failed to invoke qaic"
        { w with
          calls := w.calls ++ configureCalls w.dev.cfg.input_select p.samples inp
            ++ [Call.run p.activation p.set p]
          run_status := (nextStatus w.run_status).2 }) := by
    unfold shimIssue
    rw [if_neg (by simp [hl])]
    simp only
    rw [if_pos hst]
  rw [bind_of_error _ _ _ hiss]

theorem EnqueueShim_of_error {Sample : Type} (fuel : Nat) (w : World Sample) (id : Int)
    (e : Fault Sample) (hb : EnqueueShimBody w id = Except.error e) :
    EnqueueShim (fuel + 1) w id = Except.error e := by
  unfold EnqueueShim
  rw [bind_of_error _ _ _ hb]

/-! ### The hand-off invariant -/

theorem acquiredBatches_snoc {Sample : Type} (hist : List (Obs Sample)) (o : Obs Sample) :
    acquiredBatches (hist ++ [o]) = acquiredBatches hist ++ acquiredBatches [o] := by
  simp [acquiredBatches, List.filterMap_append]

theorem poppedBatches_snoc {Sample : Type} (hist : List (Obs Sample)) (o : Obs Sample) :
    poppedBatches (hist ++ [o]) = poppedBatches hist ++ poppedBatches [o] := by
  simp [poppedBatches, List.filterMap_append]

theorem postprocessed_append {Sample : Type} (c1 c2 : List (Call Sample)) :
    postprocessed (c1 ++ c2) = postprocessed c1 ++ postprocessed c2 := by
  simp [postprocessed, List.filterMap_append]

theorem runPayloads_append {Sample : Type} (c1 c2 : List (Call Sample)) :
    runPayloads (c1 ++ c2) = runPayloads c1 ++ runPayloads c2 := by
  simp [runPayloads, List.filterMap_append]

theorem postprocessed_configureCalls {Sample : Type} (sel : Int) (s : List Sample)
    (inp : List Nat) : postprocessed (configureCalls sel s inp) = [] := by
  unfold configureCalls
  by_cases h : sel = 0
  · rw [if_pos h]; rfl
  · rw [if_neg h]; rfl

theorem runPayloads_configureCalls {Sample : Type} (sel : Int) (s : List Sample)
    (inp : List Nat) : runPayloads (configureCalls sel s inp) = [] := by
  unfold configureCalls
  by_cases h : sel = 0
  · rw [if_pos h]; rfl
  · rw [if_neg h]; rfl

/-- In a safe state the payload in the hand-off cell indexes the buffer
tables and the ring buffers. -/
theorem shim_ready {Sample : Type} (w : World Sample) (p : Payload Sample) (hs : w.Safe)
    (hc : w.dev.payloads = [some p]) :
    vecGet w.dev.payloads 0 = some (some p) ∧
    ∃ in_a inp out_a out rb,
      vecGet w.dev.buffers_in p.activation = some in_a ∧ vecGet in_a p.set = some inp ∧
      vecGet w.dev.buffers_out p.activation = some out_a ∧ vecGet out_a p.set = some out ∧
      vecGet w.dev.ring_buf p.activation = some rb := by
  obtain ⟨-, hslot, -, -, hbuf⟩ := hs
  have hp : p ∈ w.held := by
    unfold World.held
    rw [hc]
    simp
  obtain ⟨h1, h2, h3, h4, rb, h5⟩ := held_valid w p hslot hp
  obtain ⟨⟨in_a, inp, hin, hin2⟩, ⟨out_a, out, hout, hout2⟩⟩ := hbuf p.activation p.set h1 h2 h3 h4
  refine ⟨?_, in_a, inp, out_a, out, rb, hin, hin2, hout, hout2, h5⟩
  rw [hc]
  rfl

theorem HandOffInv_frame {Sample : Type} (hist : List (Obs Sample)) (w w' : World Sample)
    (o : Obs Sample) (hi : HandOffInv hist w)
    (e1 : w'.pc = w.pc) (e2 : w'.dev.payloads = w.dev.payloads)
    (e3 : w'.dev.scheduler_terminate = w.dev.scheduler_terminate ∨
      w'.dev.scheduler_terminate = true)
    (e4 : w'.dev.loop_back = w.dev.loop_back) (e5 : w'.qs = w.qs)
    (e6 : w.dev.loop_back = true → w'.calls = w.calls ∧ w'.inflight = w.inflight)
    (ha : acquiredBatches [o] = []) (hp : poppedBatches [o] = []) :
    HandOffInv (hist ++ [o]) w' := by
  obtain ⟨h1, h2, h3, h4, rest, h5, h6, h7, h8, h9⟩ := hi
  have hcb : w'.cellBatches = w.cellBatches := by unfold World.cellBatches; rw [e2]
  unfold HandOffInv
  rw [acquiredBatches_snoc, poppedBatches_snoc, ha, hp, List.append_nil, List.append_nil,
    e1, e2, e4, e5, hcb]
  refine ⟨h1, h2, ?_, ?_, rest, h5, h6, h7, h8, ?_⟩
  · intro hd
    rcases e3 with e | e
    · rw [e]; exact h3 hd
    · exact e
  · intro hl
    obtain ⟨a, b, c⟩ := h4 hl
    obtain ⟨c1, c2⟩ := e6 hl
    rw [c1, c2]
    exact ⟨a, b, c⟩
  · intro ho ht
    rcases e3 with e | e
    · rw [e] at ht; exact h9 ho ht
    · rw [e] at ht; cases ht

theorem HandOffInv_leave {Sample : Type} (hist : List (Obs Sample)) (w w' : World Sample)
    (o : Obs Sample) (hi : HandOffInv hist w) (hpc : w.pc ≠ SchedPc.shim)
    (e1 : w'.pc = SchedPc.done ∨ w'.pc = SchedPc.outer)
    (e2 : w'.dev.payloads = w.dev.payloads)
    (e3 : w'.dev.scheduler_terminate = true)
    (e4 : w'.dev.loop_back = w.dev.loop_back)
    (e6 : w'.calls = w.calls) (e7 : w'.inflight = w.inflight)
    (ha : acquiredBatches [o] = []) (hp : poppedBatches [o] = []) :
    HandOffInv (hist ++ [o]) w' := by
  obtain ⟨-, h2, -, h4, rest, h5, h6, -, -, -⟩ := hi
  have hcb : w'.cellBatches = w.cellBatches := by unfold World.cellBatches; rw [e2]
  unfold HandOffInv
  rw [acquiredBatches_snoc, poppedBatches_snoc, ha, hp, List.append_nil, List.append_nil,
    e2, e3, e4, e6, e7, hcb]
  refine ⟨?_, fun _ => h2 hpc, fun _ => rfl, h4, rest, h5, h6, ?_, ?_, ?_⟩
  · intro e; rcases e1 with e1 | e1 <;> rw [e1] at e <;> cases e
  · intro e; rcases e1 with e1 | e1 <;> rw [e1] at e <;> cases e
  · intro e; rcases e1 with e1 | e1 <;> rw [e1] at e <;> cases e
  · intro _ e; cases e

/-- The pass of the shim body for the payload in the hand-off cell of a safe
state, outcome by outcome. -/
theorem EnqueueShimBody_cases {Sample : Type} (w : World Sample) (p : Payload Sample)
    (hs : w.Safe) (hc : w.dev.payloads = [some p]) :
    ∃ inp out rb,
      (vecGet w.dev.buffers_in p.activation).bind (fun l => vecGet l p.set) = some inp ∧
      (vecGet w.dev.buffers_out p.activation).bind (fun l => vecGet l p.set) = some out ∧
      vecGet w.dev.ring_buf p.activation = some rb ∧
      (w.dev.cfg.input_select = 1 →
        EnqueueShimBody w 0 = Except.error (Fault.assertion w)) ∧
      (w.dev.cfg.input_select ≠ 1 → w.dev.loop_back = true →
        EnqueueShimBody w 0 = Except.ok
          { w with
            calls := w.calls ++ configureCalls w.dev.cfg.input_select p.samples inp
              ++ [Call.postprocessResults p.samples out]
            dev := { w.dev with
              ring_buf := w.dev.ring_buf.set p.activation.toNat
                { rb with q := rb.q ++ [some p] }
              payloads := [none] }
            cerr := w.cerr ++ (rb.release (some p)).1 }) ∧
      (w.dev.cfg.input_select ≠ 1 → w.dev.loop_back = false →
        (nextStatus w.run_status).1 = QStatus.QS_SUCCESS →
        EnqueueShimBody w 0 = Except.ok
          { w with
            calls := w.calls ++ configureCalls w.dev.cfg.input_select p.samples inp
              ++ [Call.run p.activation p.set p]
            run_status := (nextStatus w.run_status).2
            inflight := w.inflight ++ [p]
            dev := { w.dev with payloads := [none] } }) ∧
      (w.dev.cfg.input_select ≠ 1 → w.dev.loop_back = false →
        (nextStatus w.run_status).1 ≠ QStatus.QS_SUCCESS →
        EnqueueShimBody w 0 = Except.error (Fault.thrown "Failed to invoke qaic"
          { w with
            calls := w.calls ++ configureCalls w.dev.cfg.input_select p.samples inp
              ++ [Call.run p.activation p.set p]
            run_status := (nextStatus w.run_status).2 })) := by
  obtain ⟨hcell, in_a, inp, out_a, out, rb, hin, hin2, hout, hout2, hrb⟩ :=
    shim_ready w p hs hc
  have hset : w.dev.payloads.set 0 none = [none] := by rw [hc]; rfl
  refine ⟨inp, out, rb, by rw [hin]; exact hin2, by rw [hout]; exact hout2, hrb,
    fun hsel => EnqueueShimBody_assert w p hcell hsel, ?_, ?_, ?_⟩
  · intro hsel hl
    rw [EnqueueShimBody_loopback w p in_a inp out_a out rb hcell hin hin2 hout hout2 hrb hsel hl,
      hset]
  · intro hsel hl hst
    rw [EnqueueShimBody_run_ok w p in_a inp hcell hin hin2 hsel hl hst, hset]
  · intro hsel hl hst
    exact EnqueueShimBody_run_failed w p in_a inp hcell hin hin2 hsel hl hst

theorem step_shim_ok {Sample : Type} (fuel : Nat) (w w1 : World Sample)
    (hpc : w.pc = SchedPc.shim) (hb : EnqueueShimBody w 0 = Except.ok w1)
    (ht : w1.dev.shim_terminate = true) :
    step w (Action.sched (fuel + 1))
      = Except.ok (Obs.shimReturned, { w1 with pc := SchedPc.outer }) := by
  unfold step QueueSchedulerStep
  rw [hpc]
  simp only
  rw [bind_of_ok _ _ _ (EnqueueShim_of_terminate fuel w w1 0 hb ht)]
  rfl

theorem step_shim_error {Sample : Type} (fuel : Nat) (w : World Sample) (e : Fault Sample)
    (hpc : w.pc = SchedPc.shim) (hb : EnqueueShimBody w 0 = Except.error e) :
    step w (Action.sched (fuel + 1)) = Except.error e := by
  unfold step QueueSchedulerStep
  rw [hpc]
  simp only
  rw [bind_of_error _ _ _ (EnqueueShim_of_error fuel w 0 e hb)]

theorem step_HandOffInv {Sample : Type} (hist : List (Obs Sample)) (w w' : World Sample)
    (a : Action Sample) (o : Obs Sample) (hs : w.Safe) (hi : HandOffInv hist w)
    (h : step w a = Except.ok (o, w')) : HandOffInv (hist ++ [o]) w' := by
  have hS := step_shape w w' a o h
  obtain ⟨h1, h2, h3, h4, rest, h5, h6, h7, h8, h9⟩ := id hi
  cases hS with
  | inference b r d' hinf =>
    rcases Inference_eq_some _ _ b r hinf with e | ⟨q, e⟩ <;> subst e <;>
    exact HandOffInv_frame hist w _ _ hi rfl rfl (Or.inl rfl) rfl rfl (fun _ => ⟨rfl, rfl⟩) rfl rfl
  | leftOuter f hpc ht =>
    exact HandOffInv_leave hist w _ _ hi (by rw [hpc]; decide) (Or.inl rfl) rfl ht rfl rfl rfl
      rfl rfl
  | leftInner f hpc ht =>
    exact HandOffInv_leave hist w _ _ hi (by rw [hpc]; decide) (Or.inr rfl) rfl ht rfl rfl rfl
      rfl rfl
  | popNone f hpc ht hfb =>
    exact HandOffInv_frame hist w _ _ hi rfl rfl (Or.inl rfl) rfl rfl (fun _ => ⟨rfl, rfl⟩) rfl rfl
  | noSlot f a rb hpc ht ha hrb hn =>
    exact HandOffInv_frame hist w _ _ hi rfl rfl (Or.inl rfl) rfl rfl (fun _ => ⟨rfl, rfl⟩) rfl rfl
  | stopped f hpc =>
    exact HandOffInv_frame hist w _ _ hi rfl rfl (Or.inl rfl) rfl rfl (fun _ => ⟨rfl, rfl⟩) rfl rfl
  | completeNone i hp =>
    exact HandOffInv_frame hist w _ _ hi rfl rfl (Or.inl rfl) rfl rfl (fun _ => ⟨rfl, rfl⟩) rfl rfl
  | eventNone code i hp =>
    exact HandOffInv_frame hist w _ _ hi rfl rfl (Or.inl rfl) rfl rfl (fun _ => ⟨rfl, rfl⟩) rfl rfl
  | event code i p hp =>
    exact HandOffInv_frame hist w _ _ hi rfl rfl (Or.inl rfl) rfl rfl (fun _ => ⟨rfl, rfl⟩) rfl rfl
  | shutdown =>
    exact HandOffInv_frame hist w _ _ hi rfl rfl (Or.inr rfl) rfl rfl (fun _ => ⟨rfl, rfl⟩) rfl rfl
  | complete i p w1 hp hpr =>
    obtain ⟨-, ⟨-, -, -, -, e5⟩, e6, e7, -, -, e8, e9, -, -⟩ := PostResults_frame _ _ _ _ hpr
    refine HandOffInv_frame hist w _ _ hi e9 e6 (Or.inl e7) e5 e8 ?_ rfl rfl
    intro hl
    rw [(h4 hl).2.2] at hp
    cases hp
  | popped f i b hpc ht hne hi' hb =>
    have hr := h9 hpc ht
    subst hr
    unfold HandOffInv
    rw [acquiredBatches_snoc, poppedBatches_snoc]
    refine ⟨(fun e => by cases e), (fun _ => h2 (by rw [hpc]; decide)), (fun e => by cases e), ?_,
      [b], ?_, (by simp), (fun _ => rfl), (fun e => by cases e), (fun e => by cases e)⟩
    · intro hl
      have := h4 hl
      simpa [acquiredBatches] using this
    · rw [h5]
      simp [acquiredBatches, poppedBatches]
  | acquired f a rb p hpc ht ha hrb hp hlen =>
    have hr := h7 hpc
    subst hr
    have hpl := h2 (by rw [hpc]; decide)
    unfold HandOffInv
    rw [acquiredBatches_snoc, poppedBatches_snoc]
    refine ⟨fun _ => ⟨{ p with samples := w.qs }, (by simp [hpl]), (by simp [acquiredBatches])⟩,
      fun e => absurd rfl e, (fun e => by cases e), ?_, [], ?_, (by simp), (fun e => by cases e),
      fun _ => rfl, (fun e => by cases e)⟩
    · intro hl
      obtain ⟨c1, c2, c3⟩ := h4 hl
      refine ⟨?_, c2, c3⟩
      unfold World.cellBatches at c1 ⊢
      rw [hpl] at c1
      simp only [hpl]
      simpa [acquiredBatches] using c1
    · rw [h5]
      simp [acquiredBatches, poppedBatches]
  | shim f w1 hpc hb =>
    obtain ⟨p, hpl, hmem⟩ := h1 hpc
    have hr := h8 hpc
    subst hr
    obtain ⟨inp, out, rb, -, -, -, c1, c2, c3, c4⟩ := EnqueueShimBody_cases w p hs hpl
    have hw1 : w1.dev.payloads = [none] ∧ w1.dev.loop_back = w.dev.loop_back ∧
        w1.dev.scheduler_terminate = w.dev.scheduler_terminate ∧
        (w.dev.loop_back = true →
          postprocessed w1.calls = postprocessed w.calls ++ [p.samples] ∧
          runPayloads w1.calls = runPayloads w.calls ∧ w1.inflight = w.inflight) := by
      by_cases hsel : w.dev.cfg.input_select = 1
      · rw [c1 hsel] at hb; cases hb
      · cases hl : w.dev.loop_back with
        | true =>
          rw [c2 hsel hl] at hb
          rw [← Except.ok.inj hb]
          refine ⟨rfl, hl, rfl, fun _ => ⟨?_, ?_, rfl⟩⟩
          · simp only [postprocessed_append, postprocessed_configureCalls, List.append_nil]
            rfl
          · simp only [runPayloads_append, runPayloads_configureCalls, List.append_nil]
            exact List.append_nil _
        | false =>
          by_cases hst : (nextStatus w.run_status).1 = QStatus.QS_SUCCESS
          · rw [c3 hsel hl hst] at hb
            rw [← Except.ok.inj hb]
            exact ⟨rfl, hl, rfl, (fun e => by cases e)⟩
          · rw [c4 hsel hl hst] at hb; cases hb
    obtain ⟨d1, d2, d3, d4⟩ := hw1
    unfold HandOffInv
    rw [acquiredBatches_snoc, poppedBatches_snoc]
    refine ⟨(fun e => by cases e), fun _ => d1, (fun e => by cases e), ?_, [], ?_, by simp,
      (fun e => by cases e), (fun e => by cases e), fun _ _ => rfl⟩
    · intro hl
      have hl' : w.dev.loop_back = true := by rw [← d2]; exact hl
      obtain ⟨c1, c2, c3⟩ := h4 hl'
      obtain ⟨g1, g2, g3⟩ := d4 hl'
      unfold World.cellBatches at c1 ⊢
      rw [hpl] at c1
      refine ⟨?_, (by show runPayloads w1.calls = []; rw [g2, c2]),
        (by show w1.inflight = []; rw [g3, c3])⟩
      show postprocessed w1.calls ++ (w1.dev.payloads.filterMap id).map _ = _
      rw [d1, g1]
      simpa [acquiredBatches] using c1
    · rw [h5]
      simp [acquiredBatches, poppedBatches]

theorem DeviceInit_HandOffInv {Sample : Type} [Inhabited Sample] (cfg : Config)
    (getBufferPtr : Int → Int → Int → Nat) (init_status : QStatus)
    (run_status : List QStatus) (w0 : World Sample)
    (h : DeviceInit cfg getBufferPtr init_status run_status = some w0) : HandOffInv [] w0 := by
  have hi := DeviceInit_ok cfg getBufferPtr init_status run_status w0 h
  obtain ⟨-, -, -, -, -, -, -, -, -, -, -, hpl, -, hterm, -, -, hpc, -, hinf, hcalls, -⟩ := hi
  unfold HandOffInv World.cellBatches
  rw [hpc, hpl, hcalls, hinf]
  exact ⟨(fun e => by cases e), fun _ => rfl, (fun e => by cases e), fun _ => ⟨rfl, rfl, rfl⟩, [],
    rfl, (by simp), (fun e => by cases e), (fun e => by cases e), fun _ _ => rfl⟩

/-- Safety and the hand-off invariant hold after every run from `DeviceInit`. -/
theorem exec_HandOffInv {Sample : Type} [Inhabited Sample] (cfg : Config)
    (getBufferPtr : Int → Int → Int → Nat) (init_status : QStatus)
    (run_status : List QStatus) (w0 : World Sample)
    (h0 : DeviceInit cfg getBufferPtr init_status run_status = some w0)
    (as : List (Action Sample)) (os : List (Obs Sample)) (w : World Sample)
    (h : exec w0 as = Except.ok (os, w)) : w.Safe ∧ HandOffInv os w := by
  have := exec_history_invariant (fun hist w => w.Safe ∧ HandOffInv hist w)
    (fun hist w a o w' hP hstep =>
      ⟨step_Safe w w' a o hP.1 hstep, step_HandOffInv hist w w' a o hP.1 hP.2 hstep⟩)
    as [] w0 w os
    ⟨DeviceInit_Safe cfg getBufferPtr init_status run_status w0 h0,
      DeviceInit_HandOffInv cfg getBufferPtr init_status run_status w0 h0⟩ h
  simpa using this

/-! ### Runs that continue or stop -/

theorem exec_cons_error {Sample : Type} (w : World Sample) (a : Action Sample)
    (rest : List (Action Sample)) (e : Fault Sample) (h : step w a = Except.error e) :
    exec w (a :: rest) = Except.error e := by
  unfold exec
  rw [bind_of_error _ _ _ h]

theorem exec_append_error {Sample : Type} (bs : List (Action Sample)) (e : Fault Sample) :
    ∀ (as : List (Action Sample)) (w0 w : World Sample) (os : List (Obs Sample)),
      exec w0 as = Except.ok (os, w) → exec w bs = Except.error e →
      exec w0 (as ++ bs) = Except.error e := by
  intro as
  induction as with
  | nil =>
    intro w0 w os h hb
    rw [exec_nil_ok] at h
    rw [List.nil_append, ← h.2]; exact hb
  | cons a as ih =>
    intro w0 w os h hb
    rw [exec_cons_ok] at h
    obtain ⟨o, w1, os', h1, h2, -⟩ := h
    rw [List.cons_append]
    unfold exec
    rw [bind_of_ok _ _ _ h1]
    simp only
    rw [bind_of_error _ _ _ (ih w1 w os' h2 hb)]

/-- The batches handed to the shim are a prefix of the batches accepted. -/
theorem acquired_prefix_accepted {Sample : Type} [Inhabited Sample] (cfg : Config)
    (getBufferPtr : Int → Int → Int → Nat) (init_status : QStatus)
    (run_status : List QStatus) (w0 : World Sample)
    (h0 : DeviceInit cfg getBufferPtr init_status run_status = some w0)
    (as : List (Action Sample)) (os : List (Obs Sample)) (w : World Sample)
    (h : exec w0 as = Except.ok (os, w)) :
    ∃ rest, rest.length ≤ 1 ∧ poppedBatches os = acquiredBatches os ++ rest ∧
      acceptedBatches os = acquiredBatches os ++ rest ++ w.dev.pending := by
  have hi := DeviceInit_ok cfg getBufferPtr init_status run_status w0 h0
  have hq := DeviceInit_QueueInv cfg getBufferPtr init_status run_status w0 h0
  have e := exec_pending as w0 w os hq h
  have hp0 : w0.dev.pending = [] := by
    unfold Device.pending
    rw [hi.2.2.2.2.2.2.2.2.1, hi.2.2.2.2.2.2.2.2.2.1]
    rfl
  rw [hp0, List.nil_append] at e
  obtain ⟨-, -, -, -, -, rest, h5, h6, -⟩ :=
    exec_HandOffInv cfg getBufferPtr init_status run_status w0 h0 as os w h
  exact ⟨rest, h6, h5, by rw [e, h5]⟩

/-- In a state reached from `DeviceInit` in which the scheduler is about to
call the shim, the hand-off cell holds a payload that carries an accepted
batch. -/
theorem reachable_shim {Sample : Type} [Inhabited Sample] (cfg : Config)
    (getBufferPtr : Int → Int → Int → Nat) (init_status : QStatus)
    (run_status : List QStatus) (w0 : World Sample)
    (h0 : DeviceInit cfg getBufferPtr init_status run_status = some w0)
    (as : List (Action Sample)) (os : List (Obs Sample)) (w : World Sample)
    (h : exec w0 as = Except.ok (os, w)) (hpc : w.pc = SchedPc.shim) :
    w.Safe ∧ w.dev.cfg = cfg ∧ w.dev.loop_back = cfg.loop_back ∧
    acquiredBatches os <+: acceptedBatches os ∧
    ∃ p, w.dev.payloads = [some p] ∧ p.samples ∈ acceptedBatches os ∧
      (cfg.loop_back = true → runPayloads w.calls = [] ∧ w.inflight = [] ∧
        postprocessed w.calls ++ [p.samples] = acquiredBatches os) := by
  have hi := DeviceInit_ok cfg getBufferPtr init_status run_status w0 h0
  obtain ⟨hs, h1, -, -, h4, -⟩ :=
    exec_HandOffInv cfg getBufferPtr init_status run_status w0 h0 as os w h
  have hcfg := (exec_SlotInv cfg getBufferPtr init_status run_status w0 h0 as os w h).2
  have hlb : w.dev.loop_back = cfg.loop_back :=
    exec_invariant (fun v => v.dev.loop_back = cfg.loop_back)
      (fun v a o v' hP hst => (step_sameStatic v v' a o hst).2.2.2.2.trans hP) as w0 w os
      hi.2.2.2.2.2.2.2.2.2.2.2.2.2.2.1 h
  obtain ⟨rest, -, -, hacc⟩ :=
    acquired_prefix_accepted cfg getBufferPtr init_status run_status w0 h0 as os w h
  obtain ⟨p, hpl, hmem⟩ := h1 hpc
  have hpre : acquiredBatches os <+: acceptedBatches os :=
    ⟨rest ++ w.dev.pending, by rw [hacc, List.append_assoc]⟩
  refine ⟨hs, hcfg, hlb, hpre, p, hpl, hpre.subset hmem, ?_⟩
  intro hl
  obtain ⟨c1, c2, c3⟩ := h4 (hlb.trans hl)
  refine ⟨c2, c3, ?_⟩
  unfold World.cellBatches at c1
  rw [hpl] at c1
  exact c1

/-! ### The shim: loopback completion or backend run -/

/-- C11: in every state reached from `DeviceInit` in which the scheduler is
about to call the shim (and `getInputSelect()` is not the unsupported value
`1`), the hand-off cell holds a payload `p` whose batch was accepted by
`Inference`.  With loopback the call of the shim returns having logged, after
the configure call, exactly one call `postprocessResults(p.samples,
buffers_out[p.activation][p.set])` and no `run` (none was ever logged,
nothing is in flight), `p` is back at the tail of its ring buffer, and the
batches passed to `postprocessResults` so far, in order, are the batches
handed over, a prefix of the accepted ones.  Without loopback the shim logs
exactly one call `run(p.activation, p.set, p)` and no `postprocessResults`,
and leaves the ring buffers alone, whether `run` succeeds or fails. -/
theorem shim_completes_or_runs {Sample : Type} [Inhabited Sample] (cfg : Config)
    (getBufferPtr : Int → Int → Int → Nat) (init_status : QStatus)
    (run_status : List QStatus) (w0 : World Sample)
    (h0 : DeviceInit cfg getBufferPtr init_status run_status = some w0)
    (as : List (Action Sample)) (os : List (Obs Sample)) (w : World Sample)
    (h : exec w0 as = Except.ok (os, w)) (hpc : w.pc = SchedPc.shim)
    (hsel : cfg.input_select ≠ 1) (fuel : Nat) :
    ∃ p inp out rb,
      w.dev.payloads = [some p] ∧ p.samples ∈ acceptedBatches os ∧
      (vecGet w.dev.buffers_in p.activation).bind (fun l => vecGet l p.set) = some inp ∧
      (vecGet w.dev.buffers_out p.activation).bind (fun l => vecGet l p.set) = some out ∧
      vecGet w.dev.ring_buf p.activation = some rb ∧
      (cfg.loop_back = true →
        step w (Action.sched (fuel + 1)) = Except.ok (Obs.shimReturned,
          { w with
            calls := w.calls ++ configureCalls cfg.input_select p.samples inp
              ++ [Call.postprocessResults p.samples out]
            dev := { w.dev with
              ring_buf := w.dev.ring_buf.set p.activation.toNat
                { rb with q := rb.q ++ [some p] }
              payloads := [none] }
            cerr := w.cerr ++ (rb.release (some p)).1
            pc := SchedPc.outer }) ∧
        runPayloads w.calls = [] ∧ w.inflight = [] ∧
        postprocessed w.calls ++ [p.samples] = acquiredBatches os ∧
        acquiredBatches os <+: acceptedBatches os) ∧
      (cfg.loop_back = false →
        ((nextStatus w.run_status).1 = QStatus.QS_SUCCESS →
          step w (Action.sched (fuel + 1)) = Except.ok (Obs.shimReturned,
            { w with
              calls := w.calls ++ configureCalls cfg.input_select p.samples inp
                ++ [Call.run p.activation p.set p]
              run_status := (nextStatus w.run_status).2
              inflight := w.inflight ++ [p]
              dev := { w.dev with payloads := [none] }
              pc := SchedPc.outer })) ∧
        ((nextStatus w.run_status).1 ≠ QStatus.QS_SUCCESS →
          step w (Action.sched (fuel + 1)) = Except.error
            (Fault.thrown "Failed to invoke qaic"
              { w with
                calls := w.calls ++ configureCalls cfg.input_select p.samples inp
                  ++ [Call.run p.activation p.set p]
                run_status := (nextStatus w.run_status).2 }))) := by
  obtain ⟨hs, hcfg, hlb, hpre, p, hpl, hmem, hloop⟩ :=
    reachable_shim cfg getBufferPtr init_status run_status w0 h0 as os w h hpc
  subst hcfg
  obtain ⟨inp, out, rb, hin, hout, hrb, -, c2, c3, c4⟩ := EnqueueShimBody_cases w p hs hpl
  refine ⟨p, inp, out, rb, hpl, hmem, hin, hout, hrb, ?_, ?_⟩
  · intro hl
    obtain ⟨g1, g2, g3⟩ := hloop hl
    exact ⟨step_shim_ok fuel w _ hpc (c2 hsel (hlb.trans hl)) hs.2.2.2.1, g1, g2, g3, hpre⟩
  · intro hl
    exact ⟨fun hst => step_shim_ok fuel w _ hpc (c3 hsel (hlb.trans hl) hst) hs.2.2.2.1,
      fun hst => step_shim_error fuel w _ hpc (c4 hsel (hlb.trans hl) hst)⟩

theorem Process_exec_terminated {Sample : Type} (msg : String) (w : World Sample) :
    ∀ as : List (Action Sample),
      (Process.terminated msg w).exec as = Except.ok ([], Process.terminated msg w) := by
  intro as
  induction as with
  | nil => rfl
  | cons a as ih =>
    unfold Process.exec
    simp only [Process.step]
    show (Process.exec (Process.terminated msg w) as >>= fun rs => pure ([] ++ rs.1, rs.2)) = _
    rw [ih]
    rfl

theorem Process_exec_running {Sample : Type} :
    ∀ (as : List (Action Sample)) (w w' : World Sample) (os : List (Obs Sample)),
      exec w as = Except.ok (os, w') →
      (Process.running w).exec as = Except.ok (os, Process.running w') := by
  intro as
  induction as with
  | nil =>
    intro w w' os h
    rw [exec_nil_ok] at h
    rw [h.1, h.2]
    rfl
  | cons a as ih =>
    intro w w' os h
    rw [exec_cons_ok] at h
    obtain ⟨o, w1, os', h1, h2, h3⟩ := h
    unfold Process.exec
    simp only [Process.step, h1]
    show (Process.exec (Process.running w1) as >>= fun rs => pure ([o] ++ rs.1, rs.2)) = _
    rw [ih w1 w' os' h2, h3]
    rfl

theorem Process_exec_thrown {Sample : Type} (w w1 : World Sample) (a : Action Sample)
    (msg : String) (rest : List (Action Sample))
    (h : step w a = Except.error (Fault.thrown msg w1)) :
    (Process.running w).exec (a :: rest) = Except.ok ([], Process.terminated msg w1) := by
  unfold Process.exec
  simp only [Process.step, h]
  show (Process.exec (Process.terminated msg w1) rest >>= fun rs => pure ([] ++ rs.1, rs.2)) = _
  rw [Process_exec_terminated]
  rfl

theorem Process_exec_append {Sample : Type} (bs : List (Action Sample)) :
    ∀ (as : List (Action Sample)) (P P1 P2 : Process Sample) (os os1 : List (Obs Sample)),
      P.exec as = Except.ok (os, P1) → P1.exec bs = Except.ok (os1, P2) →
      P.exec (as ++ bs) = Except.ok (os ++ os1, P2) := by
  intro as
  induction as with
  | nil =>
    intro P P1 P2 os os1 h hb
    unfold Process.exec at h
    rw [pure_eq_ok] at h
    simp only [Prod.mk.injEq] at h
    rw [← h.1, h.2]
    exact hb
  | cons a as ih =>
    intro P P1 P2 os os1 h hb
    conv at h => lhs; unfold Process.exec
    simp only [bind_eq_ok, pure_eq_ok, Prod.mk.injEq, Prod.exists] at h
    obtain ⟨o, Q, h1, os', Q', h2, h3, h4⟩ := h
    subst h4
    rw [List.cons_append]
    conv_lhs => unfold Process.exec
    rw [h1]
    show (Process.exec Q (as ++ bs) >>= fun rs => pure (o ++ rs.1, rs.2)) = _
    rw [ih Q Q' P2 os' os1 h2 hb, ← h3, List.append_assoc]
    rfl

/-- C12 (counterexample): the backend fails the first `run`.  The throw of
the shim ends the process through `std::terminate`; the calls the owner makes
afterwards (`Inference [8]`, `Inference [9]`, the destructor) return nothing,
and all the owner has received from the device is the value `1` returned by
the submission made before the failure. -/
theorem failed_run_terminates_process :
    ∃ os w1,
      (Process.running failingBackendInit).exec failingRunActions
        = Except.ok (os, Process.terminated "Failed to invoke qaic" w1) ∧
      os = [Obs.inference [7] 1, Obs.popped [7],
        Obs.acquired 0 { samples := [7], device := 0, activation := 0, set := 0 }] ∧
      ownerReceives os = [1] ∧
      w1.dev.scheduler_terminate = false ∧ w1.pc = SchedPc.shim ∧
      postprocessed w1.calls = [] :=
  ⟨_, _, rfl, by decide, by decide, by decide, by decide, by decide⟩

/-- C12 (amended): in every state reached from `DeviceInit` without loopback in
which the scheduler is about to call the shim for a payload `p` and the
backend answers the coming `run` with a status other than `QS_SUCCESS`, the
call of the shim ends with the exception `"Failed to invoke qaic"` thrown
right after the one call `run(p.activation, p.set, p)`.  Nothing catches it:
it leaves the function of the scheduler thread and the process is ended by
`std::terminate`, whatever actions were to follow - no further batch is
dispatched, no later call of the owner returns, and what the owner has
received are the return values of its earlier calls of `Inference`.  At the
throw no `postprocessResults` call has been added, `p` is neither in flight
nor back in a ring buffer. -/
theorem failed_run_ends_scheduler {Sample : Type} [Inhabited Sample] (cfg : Config)
    (getBufferPtr : Int → Int → Int → Nat) (init_status : QStatus)
    (run_status : List QStatus) (w0 : World Sample)
    (h0 : DeviceInit cfg getBufferPtr init_status run_status = some w0)
    (as : List (Action Sample)) (os : List (Obs Sample)) (w : World Sample)
    (h : exec w0 as = Except.ok (os, w)) (hpc : w.pc = SchedPc.shim)
    (hsel : cfg.input_select ≠ 1) (hl : cfg.loop_back = false)
    (hst : (nextStatus w.run_status).1 ≠ QStatus.QS_SUCCESS)
    (fuel : Nat) (rest : List (Action Sample)) :
    ∃ p inp w1,
      w.dev.payloads = [some p] ∧
      (vecGet w.dev.buffers_in p.activation).bind (fun l => vecGet l p.set) = some inp ∧
      w1 = { w with
        calls := w.calls ++ configureCalls cfg.input_select p.samples inp
          ++ [Call.run p.activation p.set p]
        run_status := (nextStatus w.run_status).2 } ∧
      step w (Action.sched (fuel + 1))
        = Except.error (Fault.thrown "Failed to invoke qaic" w1) ∧
      exec w0 (as ++ Action.sched (fuel + 1) :: rest)
        = Except.error (Fault.thrown "Failed to invoke qaic" w1) ∧
      (Process.running w0).exec (as ++ Action.sched (fuel + 1) :: rest)
        = Except.ok (os, Process.terminated "Failed to invoke qaic" w1) ∧
      postprocessed w1.calls = postprocessed w.calls ∧
      runPayloads w1.calls = runPayloads w.calls ++ [p] ∧
      w1.inflight = w.inflight ∧ w1.dev.ring_buf = w.dev.ring_buf := by
  obtain ⟨hs, hcfg, hlb, -, p, hpl, -, -⟩ :=
    reachable_shim cfg getBufferPtr init_status run_status w0 h0 as os w h hpc
  subst hcfg
  obtain ⟨inp, out, rb, hin, -, -, -, -, -, c4⟩ := EnqueueShimBody_cases w p hs hpl
  have hstep := step_shim_error fuel w _ hpc (c4 hsel (hlb.trans hl) hst)
  have hproc := Process_exec_append _ as _ _ _ os [] (Process_exec_running as w0 w os h)
    (Process_exec_thrown w _ _ _ rest hstep)
  rw [List.append_nil] at hproc
  refine ⟨p, inp, _, hpl, hin, rfl, hstep,
    exec_append_error _ _ as w0 w os h (exec_cons_error w _ rest _ hstep), hproc, ?_, ?_, rfl, rfl⟩
  · simp only [postprocessed_append, postprocessed_configureCalls, List.append_nil]
    exact List.append_nil _
  · simp only [runPayloads_append, runPayloads_configureCalls, List.append_nil]
    rfl

/-- C17: in every state reached from `DeviceInit` in which the scheduler is
about to call the shim for a payload `p`: the call fails on `assert(false)`
exactly when `getInputSelect()` is `1`, and then in the very state the shim
was entered in (no `configureWorkload`, no `run`, no `postprocessResults`
logged, no slot released); for `0` the calls logged are exactly
`configureWorkload(p.samples, buffers_in[p.activation][p.set])` followed by
the one issue call (`run` for `p`, or `postprocessResults` for `p` in
loopback); for every other value no `configureWorkload` is logged and the
issue call is the only one. -/
theorem input_select_dispatch {Sample : Type} [Inhabited Sample] (cfg : Config)
    (getBufferPtr : Int → Int → Int → Nat) (init_status : QStatus)
    (run_status : List QStatus) (w0 : World Sample)
    (h0 : DeviceInit cfg getBufferPtr init_status run_status = some w0)
    (as : List (Action Sample)) (os : List (Obs Sample)) (w : World Sample)
    (h : exec w0 as = Except.ok (os, w)) (hpc : w.pc = SchedPc.shim) (fuel : Nat) :
    ∃ p inp,
      w.dev.payloads = [some p] ∧
      (vecGet w.dev.buffers_in p.activation).bind (fun l => vecGet l p.set) = some inp ∧
      ((∃ w1, step w (Action.sched (fuel + 1)) = Except.error (Fault.assertion w1)) ↔
        cfg.input_select = 1) ∧
      (cfg.input_select = 1 →
        step w (Action.sched (fuel + 1)) = Except.error (Fault.assertion w)) ∧
      (cfg.input_select = 0 → ∃ issue,
        callsAfter (step w (Action.sched (fuel + 1)))
          = some (w.calls ++ [Call.configureWorkload p.samples inp, issue]) ∧
        (issue = Call.run p.activation p.set p ∨
          ∃ out, issue = Call.postprocessResults p.samples out)) ∧
      (cfg.input_select ≠ 0 → cfg.input_select ≠ 1 → ∃ issue,
        callsAfter (step w (Action.sched (fuel + 1))) = some (w.calls ++ [issue]) ∧
        (issue = Call.run p.activation p.set p ∨
          ∃ out, issue = Call.postprocessResults p.samples out)) := by
  obtain ⟨hs, hcfg, -, -, p, hpl, -, -⟩ :=
    reachable_shim cfg getBufferPtr init_status run_status w0 h0 as os w h hpc
  subst hcfg
  obtain ⟨inp, out, rb, hin, -, -, c1, c2, c3, c4⟩ := EnqueueShimBody_cases w p hs hpl
  have key : w.dev.cfg.input_select ≠ 1 →
      (¬ ∃ w1, step w (Action.sched (fuel + 1)) = Except.error (Fault.assertion w1)) ∧
      ∃ issue, callsAfter (step w (Action.sched (fuel + 1)))
          = some (w.calls ++ configureCalls w.dev.cfg.input_select p.samples inp ++ [issue]) ∧
        (issue = Call.run p.activation p.set p ∨
          ∃ out, issue = Call.postprocessResults p.samples out) := by
    intro hsel
    cases hl : w.dev.loop_back with
    | true =>
      have e := step_shim_ok fuel w _ hpc (c2 hsel hl) hs.2.2.2.1
      rw [e]
      exact ⟨(fun ⟨_, hc⟩ => by cases hc), _, rfl, Or.inr ⟨out, rfl⟩⟩
    | false =>
      by_cases hst : (nextStatus w.run_status).1 = QStatus.QS_SUCCESS
      · have e := step_shim_ok fuel w _ hpc (c3 hsel hl hst) hs.2.2.2.1
        rw [e]
        exact ⟨(fun ⟨_, hc⟩ => by cases hc), _, rfl, Or.inl rfl⟩
      · have e := step_shim_error fuel w _ hpc (c4 hsel hl hst)
        rw [e]
        exact ⟨(fun ⟨_, hc⟩ => by cases hc), _, rfl, Or.inl rfl⟩
  refine ⟨p, inp, hpl, hin, ⟨?_, fun hsel => ⟨w, step_shim_error fuel w _ hpc (c1 hsel)⟩⟩,
    fun hsel => step_shim_error fuel w _ hpc (c1 hsel), ?_, ?_⟩
  · intro hex
    by_contra hsel
    exact (key hsel).1 hex
  · intro h0'
    obtain ⟨-, issue, e, hissue⟩ := key (by omega)
    refine ⟨issue, ?_, hissue⟩
    rw [e]
    unfold configureCalls
    rw [if_pos h0']
    simp
  · intro h0' h1'
    obtain ⟨-, issue, e, hissue⟩ := key h1'
    refine ⟨issue, ?_, hissue⟩
    rw [e]
    unfold configureCalls
    rw [if_neg h0']
    simp

/-! ### The shim on the example runs -/

theorem failingBackendInit_eq :
    DeviceInit backendConfig exampleBufferPtr QStatus.QS_SUCCESS [QStatus.QS_ERROR]
      = some failingBackendInit := by
  decide

theorem reservedInputInit_eq :
    DeviceInit reservedInputConfig exampleBufferPtr QStatus.QS_SUCCESS []
      = some reservedInputInit := by
  decide

theorem shim_completes_or_runs_witness :
    exec loopbackInit handOverActions = Except.ok (runOf loopbackInit handOverActions) ∧
    (runOf loopbackInit handOverActions).2.pc = SchedPc.shim ∧
    loopbackConfig.input_select ≠ 1 ∧
    ∃ p out,
      (runOf loopbackInit handOverActions).2.dev.payloads = [some p] ∧
      p.samples ∈ acceptedBatches (runOf loopbackInit handOverActions).1 ∧
      (vecGet (runOf loopbackInit handOverActions).2.dev.buffers_out p.activation).bind
        (fun l => vecGet l p.set) = some out ∧
      postprocessed (runOf loopbackInit handOverActions).2.calls ++ [p.samples]
        = acquiredBatches (runOf loopbackInit handOverActions).1 :=
  ⟨rfl, by decide, by decide, by
    obtain ⟨p, inp, out, rb, h1, h2, -, h3, -, h4, -⟩ :=
      shim_completes_or_runs loopbackConfig exampleBufferPtr QStatus.QS_SUCCESS []
        loopbackInit loopbackInit_eq handOverActions
        (runOf loopbackInit handOverActions).1 (runOf loopbackInit handOverActions).2
        rfl (by decide) (by decide) 0
    exact ⟨p, out, h1, h2, h3, (h4 rfl).2.2.2.1⟩⟩

theorem failed_run_ends_scheduler_witness :
    exec failingBackendInit handOverActions
      = Except.ok (runOf failingBackendInit handOverActions) ∧
    (runOf failingBackendInit handOverActions).2.pc = SchedPc.shim ∧
    backendConfig.input_select ≠ 1 ∧ backendConfig.loop_back = false ∧
    (nextStatus (runOf failingBackendInit handOverActions).2.run_status).1
      ≠ QStatus.QS_SUCCESS ∧
    ∃ w1,
      exec failingBackendInit
          (handOverActions ++ Action.sched 1 :: [Action.inference [8], Action.sched 1])
        = Except.error (Fault.thrown "Failed to invoke qaic" w1) ∧
      (Process.running failingBackendInit).exec
          (handOverActions ++ Action.sched 1 :: [Action.inference [8], Action.sched 1])
        = Except.ok ((runOf failingBackendInit handOverActions).1,
            Process.terminated "Failed to invoke qaic" w1) ∧
      postprocessed w1.calls = postprocessed (runOf failingBackendInit handOverActions).2.calls :=
  ⟨rfl, by decide, by decide, by decide, by decide, by
    obtain ⟨p, inp, w1, -, -, -, -, h1, h2, h3, -⟩ :=
      failed_run_ends_scheduler backendConfig exampleBufferPtr QStatus.QS_SUCCESS
        [QStatus.QS_ERROR] failingBackendInit failingBackendInit_eq handOverActions
        (runOf failingBackendInit handOverActions).1 (runOf failingBackendInit handOverActions).2
        rfl (by decide) (by decide) (by decide) (by decide) 0
        [Action.inference [8], Action.sched 1]
    exact ⟨w1, h1, h2, h3⟩⟩

theorem input_select_dispatch_witness :
    exec reservedInputInit handOverActions
      = Except.ok (runOf reservedInputInit handOverActions) ∧
    (runOf reservedInputInit handOverActions).2.pc = SchedPc.shim ∧
    reservedInputConfig.input_select = 1 ∧
    step (runOf reservedInputInit handOverActions).2 (Action.sched 1)
      = Except.error (Fault.assertion (runOf reservedInputInit handOverActions).2) :=
  ⟨rfl, by decide, by decide, by
    obtain ⟨p, inp, -, -, -, h1, -⟩ :=
      input_select_dispatch reservedInputConfig exampleBufferPtr QStatus.QS_SUCCESS []
        reservedInputInit reservedInputInit_eq handOverActions
        (runOf reservedInputInit handOverActions).1 (runOf reservedInputInit handOverActions).2
        rfl (by decide) 0
    exact h1 (by decide)⟩

/-! ### Loopback runs and shutdown -/

/-- Once the scheduler has left its loops with nothing in flight, no step
changes the call log. -/
theorem step_after_exit {Sample : Type} (w w' : World Sample) (a : Action Sample)
    (o : Obs Sample) (hpc : w.pc = SchedPc.done) (hin : w.inflight = [])
    (h : step w a = Except.ok (o, w')) :
    w'.pc = SchedPc.done ∧ w'.inflight = [] ∧ w'.calls = w.calls := by
  have hS := step_shape w w' a o h
  cases hS with
  | inference b r d' hinf => exact ⟨hpc, hin, rfl⟩
  | leftOuter f hpc' ht => exact ⟨rfl, hin, rfl⟩
  | leftInner f hpc' ht => rw [hpc] at hpc'; cases hpc'
  | popNone f hpc' ht hfb => exact ⟨hpc, hin, rfl⟩
  | popped f i b hpc' ht hne hi hb => rw [hpc] at hpc'; cases hpc'
  | noSlot f a rb hpc' ht ha hrb hn => rw [hpc] at hpc'; cases hpc'
  | acquired f a rb p hpc' ht ha hrb hp hlen => rw [hpc] at hpc'; cases hpc'
  | shim f w1 hpc' hb => rw [hpc] at hpc'; cases hpc'
  | stopped f hpc' => exact ⟨hpc, hin, rfl⟩
  | completeNone i hp => exact ⟨hpc, hin, rfl⟩
  | eventNone code i hp => exact ⟨hpc, hin, rfl⟩
  | event code i p hp => exact ⟨hpc, hin, rfl⟩
  | shutdown => exact ⟨hpc, hin, rfl⟩
  | complete i p w1 hp hpr => rw [hin] at hp; cases hp

/-- C13 (counterexample): a loopback device accepts the batch `[0]`, the owner
sets the terminate flag, the scheduler takes its next step and leaves its
loop: the batch was accepted and no `postprocessResults` call was made, so
the callback of its sample has not been invoked. -/
theorem accepted_batch_dropped_at_shutdown :
    DeviceInit loopbackConfig exampleBufferPtr QStatus.QS_SUCCESS [] = some loopbackInit ∧
    exec loopbackInit shutdownActions = Except.ok (runOf loopbackInit shutdownActions) ∧
    (runOf loopbackInit shutdownActions).1
      = [Obs.inference [0] 7, Obs.shutdown, Obs.leftOuter] ∧
    (runOf loopbackInit shutdownActions).2.pc = SchedPc.done ∧
    (runOf loopbackInit shutdownActions).2.dev.scheduler_terminate = true ∧
    acceptedBatches (runOf loopbackInit shutdownActions).1 = [[0]] ∧
    (runOf loopbackInit shutdownActions).2.calls = [] ∧
    postprocessed (runOf loopbackInit shutdownActions).2.calls = [] :=
  ⟨by decide, rfl, by decide, by decide, by decide, by decide, by decide, by decide⟩

/-- C13 (amended): in every run of a loopback device from `DeviceInit`, the
batches passed to `postprocessResults`, in call order and each once, followed
by the batch in the hand-off cell, are exactly the batches the scheduler
handed to the shim; the accepted batches are these, then at most one batch
popped and not handed over, then the batches still in the admission queue.
In a state where the scheduler has left its loops the terminate flag is set,
the hand-off cell is empty, so the batches whose callbacks were invoked are
the handed-over prefix of the accepted ones; the rest - the popped batch that
got no slot and the batches still queued - is dropped: no later step adds a
call. -/
theorem loopback_callbacks_at_exit {Sample : Type} [Inhabited Sample] (cfg : Config)
    (getBufferPtr : Int → Int → Int → Nat) (init_status : QStatus)
    (run_status : List QStatus) (w0 : World Sample)
    (h0 : DeviceInit cfg getBufferPtr init_status run_status = some w0)
    (hl : cfg.loop_back = true)
    (as : List (Action Sample)) (os : List (Obs Sample)) (w : World Sample)
    (h : exec w0 as = Except.ok (os, w)) :
    postprocessed w.calls ++ w.cellBatches = acquiredBatches os ∧
    ∃ rest, rest.length ≤ 1 ∧
      acceptedBatches os = acquiredBatches os ++ rest ++ w.dev.pending ∧
      (w.pc = SchedPc.done →
        w.dev.scheduler_terminate = true ∧ w.cellBatches = [] ∧
        acceptedBatches os = postprocessed w.calls ++ rest ++ w.dev.pending ∧
        ∀ (as' : List (Action Sample)) (os' : List (Obs Sample)) (w' : World Sample),
          exec w as' = Except.ok (os', w') →
          w'.pc = SchedPc.done ∧ w'.calls = w.calls) := by
  have hi := DeviceInit_ok cfg getBufferPtr init_status run_status w0 h0
  obtain ⟨-, -, h2, h3, h4, -⟩ :=
    exec_HandOffInv cfg getBufferPtr init_status run_status w0 h0 as os w h
  have hlb : w.dev.loop_back = cfg.loop_back :=
    exec_invariant (fun v => v.dev.loop_back = cfg.loop_back)
      (fun v a o v' hP hst => (step_sameStatic v v' a o hst).2.2.2.2.trans hP) as w0 w os
      hi.2.2.2.2.2.2.2.2.2.2.2.2.2.2.1 h
  obtain ⟨c1, -, c3⟩ := h4 (hlb.trans hl)
  obtain ⟨rest, hlen, -, hacc⟩ :=
    acquired_prefix_accepted cfg getBufferPtr init_status run_status w0 h0 as os w h
  refine ⟨c1, rest, hlen, hacc, ?_⟩
  intro hpc
  have hcell : w.cellBatches = [] := by
    unfold World.cellBatches
    rw [h2 (by rw [hpc]; decide)]
    rfl
  refine ⟨h3 hpc, hcell, ?_, ?_⟩
  · rw [hacc, ← c1, hcell, List.append_nil]
  · intro as' os' w' h'
    have := exec_invariant
      (fun v => v.pc = SchedPc.done ∧ v.inflight = [] ∧ v.calls = w.calls)
      (fun v a o v' hP hst =>
        have e := step_after_exit v v' a o hP.1 hP.2.1 hst
        ⟨e.1, e.2.1, e.2.2.trans hP.2.2⟩)
      as' w w' os' ⟨hpc, c3, rfl⟩ h'
    exact ⟨this.1, this.2.2⟩

theorem loopback_callbacks_at_exit_witness :
    loopbackConfig.loop_back = true ∧
    exec loopbackInit shutdownActions = Except.ok (runOf loopbackInit shutdownActions) ∧
    postprocessed (runOf loopbackInit shutdownActions).2.calls
        ++ (runOf loopbackInit shutdownActions).2.cellBatches
      = acquiredBatches (runOf loopbackInit shutdownActions).1 ∧
    ∃ rest, rest.length ≤ 1 ∧
      acceptedBatches (runOf loopbackInit shutdownActions).1
        = acquiredBatches (runOf loopbackInit shutdownActions).1 ++ rest
          ++ (runOf loopbackInit shutdownActions).2.dev.pending :=
  ⟨by decide, rfl, by
    obtain ⟨h1, rest, h2, h3, -⟩ :=
      loopback_callbacks_at_exit loopbackConfig exampleBufferPtr QStatus.QS_SUCCESS []
        loopbackInit loopbackInit_eq (by decide) shutdownActions
        (runOf loopbackInit shutdownActions).1 (runOf loopbackInit shutdownActions).2 rfl
    exact ⟨h1, rest, h2, h3⟩⟩

/-! ### Thread pinning -/

theorem driverAffinityLoop_zero :
    ∀ (aff acc : List Int),
      driverAffinityLoop 0 aff.length aff acc = some (acc ++ aff.reverse, []) := by
  intro aff
  induction aff using List.reverseRecOn with
  | nil => intro acc; simp [driverAffinityLoop]
  | append_singleton l c ih =>
    intro acc
    rw [List.length_append, List.length_singleton]
    unfold driverAffinityLoop
    rw [if_pos (by omega)]
    have e1 : (l ++ [c]).getLast? = some c := by simp
    rw [e1, List.dropLast_concat]
    simp only
    rw [ih]
    simp

theorem driverAffinityLoop_one (c : Int) :
    ∀ (rest acc : List Int),
      driverAffinityLoop 1 (c :: rest).length (c :: rest) acc
        = some (acc ++ rest.reverse, [c]) := by
  intro rest
  induction rest using List.reverseRecOn with
  | nil => intro acc; simp [driverAffinityLoop]
  | append_singleton l x ih =>
    intro acc
    have hlen : (c :: (l ++ [x])).length = (c :: l).length + 1 := by simp
    rw [hlen]
    unfold driverAffinityLoop
    rw [if_pos (by simp)]
    have e1 : (c :: (l ++ [x])).getLast? = some x := by
      show ((c :: l) ++ [x]).getLast? = some x
      rw [List.getLast?_concat]
    have e2 : (c :: (l ++ [x])).dropLast = c :: l := by
      rw [← List.cons_append, List.dropLast_concat]
    rw [e1, e2]
    simp only
    rw [ih]
    simp

theorem threadPinning_no_ringfence (aff : List Int) (c : Int)
    (h : aff.getLast? = some c) :
    threadPinning false aff = some { driver := aff.reverse, scheduler := c } := by
  unfold threadPinning Construct schedulerAffinity
  simp [driverAffinityLoop_zero, h]

theorem threadPinning_ringfence (c : Int) (rest : List Int) :
    threadPinning true (c :: rest) = some { driver := rest.reverse, scheduler := c } := by
  unfold threadPinning Construct schedulerAffinity
  simp only [if_true, driverAffinityLoop_one]
  simp

/-- C15 (counterexample): with the ringfence option and the affinity list
`[0, 1]` the scheduler is pinned to CPU `0`, the first element, while the
last element is `1`. -/
theorem ringfence_scheduler_is_first :
    threadPinning true [0, 1] = some { driver := [1], scheduler := 0 } ∧
    [(0 : Int), 1].getLast? = some 1 := by
  decide

/-- C15 (amended): for every non-empty affinity list passed to `Construct`,
the scheduler thread is pinned to the last element of the list when the
ringfence option is off and to the first element when it is on (`Construct`
then hands `DeviceInit` a list that holds the first element only). -/
theorem scheduler_pinning (aff : List Int) (hne : aff ≠ []) :
    (∃ pin, threadPinning false aff = some pin ∧ some pin.scheduler = aff.getLast?) ∧
    (∃ pin, threadPinning true aff = some pin ∧ some pin.scheduler = aff.head? ∧
      (Construct true aff).map (fun r => r.2) = some [pin.scheduler]) := by
  constructor
  · cases hl : aff.getLast? with
    | none => rw [List.getLast?_eq_none_iff] at hl; exact absurd hl hne
    | some c => exact ⟨_, threadPinning_no_ringfence aff c hl, rfl⟩
  · cases aff with
    | nil => exact absurd rfl hne
    | cons c rest =>
      refine ⟨_, threadPinning_ringfence c rest, rfl, ?_⟩
      unfold Construct
      simp only [if_true, driverAffinityLoop_one]
      rfl

theorem scheduler_pinning_witness :
    [(4 : Int), 5, 6] ≠ [] ∧
    (∃ pin, threadPinning false [4, 5, 6] = some pin ∧ some pin.scheduler = some 6) ∧
    (∃ pin, threadPinning true [4, 5, 6] = some pin ∧ some pin.scheduler = some 4 ∧
      (Construct true [4, 5, 6]).map (fun r => r.2) = some [pin.scheduler]) :=
  ⟨by decide, scheduler_pinning [4, 5, 6] (by decide)⟩

/-- C16 (counterexample): with the ringfence option and the three distinct
CPUs `[0, 1, 2]` the driver/initialisation thread is given two CPUs, `2` and
`1`, not one. -/
theorem ringfence_driver_gets_two :
    [(0 : Int), 1, 2].Nodup ∧
    threadPinning true [0, 1, 2] = some { driver := [2, 1], scheduler := 0 } := by
  decide

/-- C16 (amended): with the ringfence option and an affinity list of `n ≥ 2`
distinct CPUs, `Construct` gives the driver/initialisation thread the `n - 1`
CPUs that follow the first element (exactly one CPU only when `n = 2`); the
scheduler is pinned to the first element, which is none of them. -/
theorem ringfence_driver_pinning (aff : List Int) (hn : 2 ≤ aff.length) (hd : aff.Nodup) :
    ∃ pin, threadPinning true aff = some pin ∧
      pin.driver = aff.tail.reverse ∧ pin.driver.length = aff.length - 1 ∧
      some pin.scheduler = aff.head? ∧ pin.scheduler ∉ pin.driver ∧
      (pin.driver.length = 1 ↔ aff.length = 2) := by
  cases aff with
  | nil => simp at hn
  | cons c rest =>
    refine ⟨_, threadPinning_ringfence c rest, rfl, by simp, rfl, ?_, ?_⟩
    · simp only [List.mem_reverse]
      exact (List.nodup_cons.mp hd).1
    · simp

theorem ringfence_driver_pinning_witness :
    2 ≤ [(4 : Int), 5, 6].length ∧ [(4 : Int), 5, 6].Nodup ∧
    ∃ pin, threadPinning true [4, 5, 6] = some pin ∧
      pin.driver = [6, 5] ∧ pin.driver.length = 2 ∧
      some pin.scheduler = some 4 ∧ pin.scheduler ∉ pin.driver ∧
      (pin.driver.length = 1 ↔ [(4 : Int), 5, 6].length = 2) :=
  ⟨by decide, by decide, ringfence_driver_pinning [4, 5, 6] (by decide) (by decide)⟩

/-! ### Hand-off in the threaded-shim build -/

theorem threadedHandOff_cell {Sample : Type} (n : Int)
    (payloads ps : List (Option (Payload Sample))) (p : Payload Sample) (cell r : Int)
    (h : threadedHandOff n payloads p = some (HandOff.stored cell ps r)) :
    cell = 0 ∧ ps = payloads.set 0 (some p) ∧ payloads[0]? = some none := by
  unfold threadedHandOff at h
  simp only at h
  cases hv : vecGet payloads 0 with
  | none => rw [hv] at h; cases h
  | some c =>
    rw [hv] at h
    cases c with
    | some q => cases h
    | none =>
      simp only [Option.bind_eq_bind, Option.bind_eq_some, Option.some.injEq,
        HandOff.stored.injEq] at h
      obtain ⟨ps', h1, r', -, h2, h3, -⟩ := h
      rw [vecSet_eq_some] at h1
      rw [vecGet_eq_some] at hv
      exact ⟨h2.symm, (by rw [← h3, ← h1.2.2]; rfl), hv.2⟩

/-- C20: in the threaded-shim build every hand-off writes cell `0`: in every
run around the hand-off cells, whatever the number of shim threads and the
interleaving of dispatches and shim passes, the cells written are all `0`
(the `k`-th dispatch does not go to cell `k mod N`). -/
theorem threaded_handoff_always_cell_zero {Sample : Type} (n : Int) :
    ∀ (as : List (ThreadedAction Sample)) (payloads : List (Option (Payload Sample)))
      (cells : List Int),
      threadedRun n payloads as = some cells → ∀ c ∈ cells, c = 0 := by
  intro as
  induction as with
  | nil =>
    intro payloads cells h c hc
    simp only [threadedRun, Option.some.injEq] at h
    rw [← h] at hc
    cases hc
  | cons a as ih =>
    intro payloads cells h c hc
    cases a with
    | dispatch p =>
      unfold threadedRun at h
      cases hh : threadedHandOff n payloads p with
      | none => rw [hh] at h; cases h
      | some r =>
        rw [hh] at h
        cases r with
        | spinning => exact ih payloads cells h c hc
        | stored cell ps r =>
          simp only [Option.map_eq_some'] at h
          obtain ⟨cells', h1, h2⟩ := h
          rw [← h2, List.mem_cons] at hc
          rcases hc with e | hc
          · rw [e]; exact (threadedHandOff_cell n payloads ps p cell r hh).1
          · exact ih ps cells' h1 c hc
    | shim id =>
      unfold threadedRun at h
      cases hs : shimTakes payloads id with
      | none => rw [hs] at h; cases h
      | some ps =>
        rw [hs] at h
        exact ih ps cells h c hc

theorem threaded_handoff_always_cell_zero_witness :
    threadedRun 2 (threadedPayloads Nat 2) threadedActions = some [0, 0] ∧
    ∀ c ∈ [(0 : Int), 0], c = 0 :=
  ⟨by decide,
    threaded_handoff_always_cell_zero 2 threadedActions (threadedPayloads Nat 2) [0, 0]
      (by decide)⟩

/-! ### Filling the input buffer -/

/-- The streaming loop copies a 16-byte image of 1-byte elements when source
and destination are 16-byte aligned, and faults on a source address that is
not a multiple of 16. -/
theorem zen2_stream_needs_alignment :
    configureWorkloadZen2 16 1 16 8192 0 [floatSample] zeroInput = some floatSample.buf ∧
    configureWorkloadZen2 16 1 16 8192 0 [misalignedSample] zeroInput = none := by
  decide

/-- C19: on the `ENABLE_ZEN2` path with a 4-byte element type (`float`) and
`buf_size = 4` elements (a 2 x 2 image with one channel), one sample of 16
bytes (source and input buffer 16-byte aligned) leaves the input buffer with
its first 4 bytes only: element `1` of the buffer is still zero and differs
from element `1` of the sample, while the `std::copy` path on the same input
copies the four elements. -/
theorem zen2_copy_is_short :
    bufSize 2 1 = 4 ∧
    configureWorkloadZen2 16 4 4 8192 0 [floatSample] zeroInput
      = some [1, 2, 3, 4, 0, 0, 0, 0, 0, 0, 0, 0, 0, 0, 0, 0] ∧
    (configureWorkloadZen2 16 4 4 8192 0 [floatSample] zeroInput).map (fun m => element 4 m 1)
      = some [0, 0, 0, 0] ∧
    element 4 floatSample.buf 1 = [5, 6, 7, 8] ∧
    configureWorkload 4 4 0 [floatSample] zeroInput = some floatSample.buf := by
  decide

/-! ### Post-processing: one callback per sample -/

theorem writeRow_ok {F : Type} (buffer : List (Option F)) (off : Nat) (row : List F)
    (hr : 7 ≤ row.length) (hb : off + 7 ≤ buffer.length) :
    ∃ b, writeRow buffer off row = some b ∧ b.length = buffer.length := by
  unfold writeRow
  rw [if_pos ⟨hr, hb⟩]
  refine ⟨_, rfl, ?_⟩
  simp only [List.length_append, List.length_take, List.length_map, List.length_drop]
  omega

theorem copyRows_ok {F : Type} (nms_res : List (List F))
    (hrows : ∀ row ∈ nms_res, 7 ≤ row.length) :
    ∀ (n j : Nat) (buffer : List (Option F)), j + n ≤ nms_res.length →
      7 * (j + n) ≤ buffer.length →
      ∃ b, copyRows nms_res n j buffer = some b ∧ b.length = buffer.length := by
  intro n
  induction n with
  | zero => intro j buffer _ _; exact ⟨buffer, rfl, rfl⟩
  | succ n ih =>
    intro j buffer hj hb
    have hlt : j < nms_res.length := by omega
    unfold copyRows
    rw [List.getElem?_eq_getElem hlt]
    simp only
    obtain ⟨b, hw, hbl⟩ := writeRow_ok buffer (7 * j) nms_res[j]
      (hrows _ (List.getElem_mem _)) (by omega)
    rw [hw]
    simp only
    obtain ⟨b', hc, hbl'⟩ := ih (j + 1) b (by omega) (by omega)
    exact ⟨b', hc, hbl'.trans hbl⟩

theorem numElems_eq (cfg : DetectionConfig) (rows : Nat) (hmax : 0 ≤ cfg.max_detections)
    (hint : cfg.max_detections < 2 ^ 31) :
    numElems cfg rows = min (rows : Int) (cfg.max_detections + 1) := by
  unfold numElems
  have e : (cfg.max_detections + 1) % 2 ^ 64 = cfg.max_detections + 1 :=
    Int.emod_eq_of_lt (by omega) (by omega)
  rw [e]
  by_cases h : (rows : Int) < cfg.max_detections + 1
  · rw [if_pos h, min_eq_left (by omega)]
  · rw [if_neg h, min_eq_right (by omega)]

theorem fillResult_ok {F : Type} (cfg : DetectionConfig) (toFloat : Int → F)
    (anchorBoxProcessing : Nat → F → List (List F) → List (List F))
    (hmax : 0 ≤ cfg.max_detections) (hint : cfg.max_detections < 2 ^ 31)
    (i : Nat) (s : DetectionSample) (nms_res : List (List F)) (rd : ResultData F)
    (hrows : ∀ row ∈ anchorBoxProcessing i (toFloat s.index) nms_res, 7 ≤ row.length)
    (hlen : rd.buffer.length = ((cfg.max_detections + 1) * 7).toNat) :
    ∃ nms1 rd1, fillResult cfg toFloat anchorBoxProcessing i s nms_res rd = some (nms1, rd1) ∧
      rd1.buffer.length = ((cfg.max_detections + 1) * 7).toNat ∧
      (cfg.disable_nms = true →
        rd1.size = 7 ∧ rd1.buffer[0]? = some (some (toFloat s.index))) ∧
      (cfg.disable_nms = false →
        rd1.size = 7 * min ((anchorBoxProcessing i (toFloat s.index) nms_res).length : Int)
          (cfg.max_detections + 1)) := by
  unfold fillResult
  cases hd : cfg.disable_nms with
  | true =>
    have hpos : 0 < rd.buffer.length := by rw [hlen]; omega
    simp only [if_true]
    rw [if_pos hpos]
    refine ⟨_, _, rfl, by simpa using hlen, fun _ => ⟨rfl, ?_⟩, fun e => by cases e⟩
    simp only [List.getElem?_set, if_true]
    rw [if_pos hpos]
  | false =>
    simp only [Bool.false_eq_true, if_false]
    have hne := numElems_eq cfg (anchorBoxProcessing i (toFloat s.index) nms_res).length
      hmax hint
    obtain ⟨b, hc, hbl⟩ := copyRows_ok (anchorBoxProcessing i (toFloat s.index) nms_res)
      hrows
      (numElems cfg (anchorBoxProcessing i (toFloat s.index) nms_res).length).toNat 0
      rd.buffer (by rw [hne]; omega) (by rw [hne, hlen]; omega)
    rw [hc]
    refine ⟨_, _, rfl, hbl.trans hlen, (fun e => by simp at e), (fun _ => ?_)⟩
    simp only
    rw [hne]
    ring

theorem postprocessLoop_ok {F : Type} (cfg : DetectionConfig) (toFloat : Int → F)
    (anchorBoxProcessing : Nat → F → List (List F) → List (List F))
    (hmax : 0 ≤ cfg.max_detections) (hint : cfg.max_detections < 2 ^ 31)
    (hrows : ∀ i x, ∀ row ∈ anchorBoxProcessing i x [], 7 ≤ row.length) :
    ∀ (samples : List DetectionSample) (i : Nat) (wbs : WorkingBuffers F),
      wbs.nms_results.length = cfg.batch_size.toNat →
      (∀ m, i ≤ m → m < cfg.batch_size.toNat → wbs.nms_results[m]? = some []) →
      wbs.reformatted_results.length = cfg.batch_size.toNat →
      (∀ rd ∈ wbs.reformatted_results,
        rd.buffer.length = ((cfg.max_detections + 1) * 7).toNat) →
      i + samples.length ≤ cfg.batch_size.toNat →
      ∃ calls wbs1,
        postprocessLoop cfg toFloat anchorBoxProcessing i samples wbs = some (calls, wbs1) ∧
        wbs1.nms_results.length = cfg.batch_size.toNat ∧
        wbs1.reformatted_results.length = cfg.batch_size.toNat ∧
        (∀ rd ∈ wbs1.reformatted_results,
          rd.buffer.length = ((cfg.max_detections + 1) * 7).toNat) ∧
        (∀ m, m < i → wbs1.reformatted_results[m]? = wbs.reformatted_results[m]?) ∧
        calls.length = samples.length ∧
        ∀ k s, samples[k]? = some s → ∃ c, calls[k]? = some c ∧
          c.callback = s.callback ∧ c.sample = s ∧ c.result = i + k ∧
          wbs1.reformatted_results[i + k]? = some { buffer := c.data, size := c.size } ∧
          (cfg.disable_nms = true →
            c.size = 7 ∧ c.data[0]? = some (some (toFloat s.index))) ∧
          (cfg.disable_nms = false →
            c.size = 7 * min ((anchorBoxProcessing (i + k) (toFloat s.index) []).length : Int)
              (cfg.max_detections + 1)) := by
  intro samples
  induction samples with
  | nil =>
    intro i wbs h1 _ h2 h3 _
    exact ⟨[], wbs, rfl, h1, h2, h3, fun _ _ => rfl, rfl, fun k s hk => by simp at hk⟩
  | cons s rest ih =>
    intro i wbs h1 he h2 h3 hi
    simp only [List.length_cons] at hi
    have hi1 : i < wbs.nms_results.length := by omega
    have hi2 : i < wbs.reformatted_results.length := by omega
    have hnms : wbs.nms_results[i]? = some [] := he i (le_refl _) (by omega)
    obtain ⟨nms1, rd1, hfill, hcap1, hsz1, hsz2⟩ :=
      fillResult_ok cfg toFloat anchorBoxProcessing hmax hint i s
        [] wbs.reformatted_results[i] (hrows i _) (h3 _ (List.getElem_mem _))
    obtain ⟨calls, wbs1, hloop, g1, g2, g3, g4, g5, g6⟩ :=
      ih (i + 1)
        { nms_results := wbs.nms_results.set i nms1
          reformatted_results := wbs.reformatted_results.set i rd1 }
        (by simp only [List.length_set]; exact h1)
        (by
          intro m hm hmb
          simp only
          rw [List.getElem?_set_ne (by omega)]
          exact he m (by omega) hmb)
        (by simp only [List.length_set]; exact h2)
        (by
          intro rd hrd
          rcases List.mem_or_eq_of_mem_set hrd with h | h
          · exact h3 rd h
          · rw [h]; exact hcap1)
        (by omega)
    simp only at g4 g6
    refine ⟨{ callback := s.callback, sample := s, size := rd1.size, result := i,
              data := rd1.buffer } :: calls, wbs1, ?_, g1, g2, g3, ?_, ?_, ?_⟩
    · unfold postprocessLoop
      rw [hnms, List.getElem?_eq_getElem hi2]
      simp only
      rw [hfill]
      simp only
      rw [hloop]
    · intro m hm
      rw [g4 m (by omega), List.getElem?_set_ne (by omega)]
    · simp only [List.length_cons, g5]
    · intro k s' hk
      cases k with
      | zero =>
        simp only [List.getElem?_cons_zero, Option.some.injEq] at hk
        subst hk
        refine ⟨{ callback := s.callback, sample := s, size := rd1.size, result := i,
                  data := rd1.buffer }, List.getElem?_cons_zero, rfl, rfl,
          rfl, ?_, hsz1, hsz2⟩
        · rw [Nat.add_zero, g4 i (by omega)]
          simp only [List.getElem?_set, if_true]
          rw [if_pos hi2]
      | succ k =>
        simp only [List.getElem?_cons_succ] at hk
        obtain ⟨c, c1, c3, c4, c5, c6, c7, c8⟩ := g6 k s' hk
        have e : i + (k + 1) = i + 1 + k := by omega
        refine ⟨c, ?_, c3, c4, ?_, ?_, c7, ?_⟩
        · simp only [List.getElem?_cons_succ]; exact c1
        · rw [e]; exact c5
        · rw [e]; exact c6
        · rw [e]; exact c8

theorem ResultData_new_ok (F : Type) (cfg : DetectionConfig)
    (hmax : 0 ≤ cfg.max_detections) (hcap : (cfg.max_detections + 1) * 7 < 2 ^ 31) :
    ResultData.new F cfg
      = some { buffer := List.replicate ((cfg.max_detections + 1) * 7).toNat none, size := 0 } := by
  have e1 : wrapInt (cfg.max_detections + 1) = cfg.max_detections + 1 :=
    wrapInt_of_isInt32 ⟨by omega, by omega⟩
  have e2 : wrapInt ((cfg.max_detections + 1) * 7) = (cfg.max_detections + 1) * 7 :=
    wrapInt_of_isInt32 ⟨by omega, by omega⟩
  unfold ResultData.new
  simp only [e1, e2]
  rw [if_neg (by omega)]

theorem WorkingBuffers_new_ok (F : Type) (cfg : DetectionConfig)
    (hmax : 0 ≤ cfg.max_detections) (hcap : (cfg.max_detections + 1) * 7 < 2 ^ 31) :
    ∃ wbs, WorkingBuffers.new F cfg = some wbs ∧ wbs.WF cfg := by
  unfold WorkingBuffers.new
  by_cases hb : 0 < cfg.batch_size
  · rw [if_pos hb]
    rw [ResultData_new_ok F cfg hmax hcap]
    refine ⟨_, rfl, rfl, by simp, ?_⟩
    intro rd hrd
    rw [List.eq_of_mem_replicate hrd]
    simp
  · rw [if_neg hb]
    have e : cfg.batch_size.toNat = 0 := by omega
    refine ⟨_, rfl, by rw [e]; rfl, by rw [e]; rfl, ?_⟩
    intro rd hrd
    cases hrd

theorem popWorkingBuffers_ok {F : Type} (cfg : DetectionConfig)
    (l : List (WorkingBuffers F)) (hwf : ∀ wbs ∈ l, wbs.WF cfg)
    (hmax : 0 ≤ cfg.max_detections) (hcap : (cfg.max_detections + 1) * 7 < 2 ^ 31) :
    ∃ wbs l1, popWorkingBuffers cfg l = some (wbs, l1) ∧ wbs.WF cfg ∧
      ∀ w ∈ l1, w.WF cfg := by
  unfold popWorkingBuffers
  cases hl : l.getLast? with
  | none =>
    obtain ⟨wbs, h1, h2⟩ := WorkingBuffers_new_ok F cfg hmax hcap
    simp only [h1, Option.map_some']
    exact ⟨wbs, l, rfl, h2, hwf⟩
  | some wbs =>
    exact ⟨wbs, l.dropLast, rfl, hwf wbs (List.mem_of_getLast?_eq_some hl),
      fun w hw => hwf w (List.dropLast_subset l hw)⟩

/-- C18: for a batch of `n` samples with `n` at most the model batch size
(working buffers as the constructor builds them, `0 ≤ max_detections` and the
array length `(max_detections + 1) * 7` in the range of `int`, NMS rows of at
least seven values), `postprocessResults` returns having made
exactly `n` callback calls, the `i`-th one being the callback of sample `i`,
called with sample `i` itself and with the size and the data array of the
`ResultData` of position `i`, as filled for sample `i`: without NMS the size
is `7` and the first cell holds the index of sample `i`; with NMS the size is
`7 * min(rows, max_detections + 1)` for the rows NMS reports for position `i`
and the index of sample `i`.  The working buffers go back to the list reset. -/
theorem postprocessResults_callbacks {F : Type} (cfg : DetectionConfig) (toFloat : Int → F)
    (anchorBoxProcessing : Nat → F → List (List F) → List (List F))
    (working_buffers_list : List (WorkingBuffers F)) (samples : List DetectionSample)
    (hwf : ∀ wbs ∈ working_buffers_list, wbs.WF cfg)
    (hn : (samples.length : Int) ≤ cfg.batch_size)
    (hmax : 0 ≤ cfg.max_detections) (hcap : (cfg.max_detections + 1) * 7 < 2 ^ 31)
    (hrows : ∀ i x, ∀ row ∈ anchorBoxProcessing i x [], 7 ≤ row.length) :
    ∃ (calls : List (CallbackCall F)) (wbs1 : WorkingBuffers F) (l : List (WorkingBuffers F)),
      postprocessResults cfg toFloat anchorBoxProcessing working_buffers_list samples
        = some (calls, l ++ [wbs1.reset]) ∧
      (∀ w ∈ l ++ [wbs1.reset], w.WF cfg) ∧
      calls.length = samples.length ∧
      ∀ i s, samples[i]? = some s → ∃ c, calls[i]? = some c ∧
        c.callback = s.callback ∧ c.sample = s ∧ c.result = i ∧
        wbs1.reformatted_results[i]? = some { buffer := c.data, size := c.size } ∧
        (cfg.disable_nms = true →
          c.size = 7 ∧ c.data[0]? = some (some (toFloat s.index))) ∧
        (cfg.disable_nms = false →
          c.size = 7 * min ((anchorBoxProcessing i (toFloat s.index) []).length : Int)
            (cfg.max_detections + 1)) := by
  have hint : cfg.max_detections < 2 ^ 31 := by omega
  obtain ⟨wbs, l, hpop, ⟨w1, w2, w3⟩, hl⟩ :=
    popWorkingBuffers_ok cfg working_buffers_list hwf hmax hcap
  obtain ⟨calls, wbs1, hloop, g1, g2, g3, -, g5, g6⟩ :=
    postprocessLoop_ok cfg toFloat anchorBoxProcessing hmax hint hrows samples 0 wbs
      (by rw [w1, List.length_replicate])
      (by
        intro m _ hm
        rw [w1, List.getElem?_replicate, if_pos hm])
      w2 w3 (by omega)
  refine ⟨calls, wbs1, l, ?_, ?_, g5, ?_⟩
  · unfold postprocessResults pushWorkingBuffers
    rw [hpop]
    simp only
    rw [hloop]
  · intro w hw
    rw [List.mem_append, List.mem_singleton] at hw
    rcases hw with hw | hw
    · exact hl w hw
    · rw [hw]
      refine ⟨?_, g2, g3⟩
      unfold WorkingBuffers.reset
      simp only
      rw [← g1]
      exact List.map_const' _ _
  · intro i s hs
    obtain ⟨c, c1, c3, c4, c5, c6, c7, c8⟩ := g6 i s hs
    rw [Nat.zero_add] at c5 c6 c8
    exact ⟨c, c1, c3, c4, c5, c6, c7, c8⟩

theorem postprocessResults_callbacks_witness :
    (exampleSamples.length : Int) ≤ exampleDetection.batch_size ∧
    0 ≤ exampleDetection.max_detections ∧
    (exampleDetection.max_detections + 1) * 7 < 2 ^ 31 ∧
    (postprocessResults exampleDetection id exampleNms [] exampleSamples).map
        (fun r => r.1.map fun c => (c.callback, c.sample.index, c.size, c.result, c.data))
      = some
        [((10 : Nat), (3 : Int), (14 : Int), (0 : Nat), ([some 3, some 0, some 0, some 0, some 0, some 0, some 1,
            some 3, some 1, some 1, some 1, some 1, some 0, some 2] : List (Option Int))),
         (11, 5, 14, 1, [some 5, some 0, some 0, some 0, some 0, some 1, some 1,
            some 5, some 1, some 1, some 1, some 1, some 1, some 2])] ∧
    ∃ (calls : List (CallbackCall Int)) (wbs1 : WorkingBuffers Int)
        (l : List (WorkingBuffers Int)),
      postprocessResults exampleDetection id exampleNms [] exampleSamples
        = some (calls, l ++ [wbs1.reset]) ∧
      calls.length = exampleSamples.length :=
  ⟨by decide, by decide, by decide, rfl, by
    obtain ⟨calls, wbs1, l, h1, -, h2, -⟩ :=
      postprocessResults_callbacks exampleDetection id exampleNms [] exampleSamples
        (fun _ h => by cases h) (by decide) (by decide) (by decide)
        (by
          intro i x row hrow
          simp only [exampleNms, List.nil_append, List.mem_cons, List.mem_singleton,
            List.not_mem_nil, or_false] at hrow
          rcases hrow with h | h | h <;> rw [h] <;> exact le_refl 7)
    exact ⟨calls, wbs1, l, h1, h2⟩⟩

/-! ### The inline shim: one pass per call -/

theorem IssueInv_frame {Sample : Type} (hist : List (Obs Sample)) (w w' : World Sample)
    (o : Obs Sample) (hi : IssueInv hist w)
    (e1 : w'.dev.payloads = w.dev.payloads) (e2 : w'.dev.loop_back = w.dev.loop_back)
    (e3 : runPayloads w'.calls = runPayloads w.calls)
    (ha : acquiredBatches [o] = []) : IssueInv (hist ++ [o]) w' := by
  unfold IssueInv World.cellBatches at hi ⊢
  rw [acquiredBatches_snoc, ha, List.append_nil, e1, e2, e3]
  exact hi

theorem step_IssueInv {Sample : Type} (hist : List (Obs Sample)) (w w' : World Sample)
    (a : Action Sample) (o : Obs Sample) (hs : w.Safe) (hh : HandOffInv hist w)
    (hi : IssueInv hist w) (h : step w a = Except.ok (o, w')) :
    IssueInv (hist ++ [o]) w' := by
  have hS := step_shape w w' a o h
  obtain ⟨h1, h2, -, -, -⟩ := hh
  cases hS with
  | inference b r d' hinf =>
    rcases Inference_eq_some _ _ b r hinf with e | ⟨q, e⟩ <;> subst e <;>
    exact IssueInv_frame hist w _ _ hi rfl rfl rfl rfl
  | leftOuter f hpc ht => exact IssueInv_frame hist w _ _ hi rfl rfl rfl rfl
  | leftInner f hpc ht => exact IssueInv_frame hist w _ _ hi rfl rfl rfl rfl
  | popNone f hpc ht hfb => exact IssueInv_frame hist w _ _ hi rfl rfl rfl rfl
  | popped f i b hpc ht hne hi' hb => exact IssueInv_frame hist w _ _ hi rfl rfl rfl rfl
  | noSlot f a rb hpc ht ha hrb hn => exact IssueInv_frame hist w _ _ hi rfl rfl rfl rfl
  | stopped f hpc => exact IssueInv_frame hist w _ _ hi rfl rfl rfl rfl
  | completeNone i hp => exact IssueInv_frame hist w _ _ hi rfl rfl rfl rfl
  | eventNone code i hp => exact IssueInv_frame hist w _ _ hi rfl rfl rfl rfl
  | event code i p hp => exact IssueInv_frame hist w _ _ hi rfl rfl rfl rfl
  | shutdown => exact IssueInv_frame hist w _ _ hi rfl rfl rfl rfl
  | complete i p w1 hp hpr =>
    obtain ⟨q, out_a, out, rb, -, -, -, -, hw⟩ := PostResults_complete_ok _ _ _ hpr
    rw [hw]
    refine IssueInv_frame hist w _ _ hi rfl rfl ?_ rfl
    simp only [runPayloads_append]
    exact List.append_nil _
  | acquired f a rb p hpc ht ha hrb hp hlen =>
    have hpl := h2 (by rw [hpc]; decide)
    unfold IssueInv World.cellBatches at hi ⊢
    rw [acquiredBatches_snoc]
    intro hl
    have c1 := hi hl
    rw [hpl] at c1
    simp only [hpl]
    simpa [acquiredBatches] using c1
  | shim f w1 hpc hb =>
    obtain ⟨p, hpl, -⟩ := h1 hpc
    obtain ⟨inp, out, rb, -, -, -, c1, c2, c3, c4⟩ := EnqueueShimBody_cases w p hs hpl
    unfold IssueInv World.cellBatches at hi ⊢
    rw [acquiredBatches_snoc]
    by_cases hsel : w.dev.cfg.input_select = 1
    · rw [c1 hsel] at hb; cases hb
    · cases hl : w.dev.loop_back with
      | true =>
        rw [c2 hsel hl] at hb
        rw [← Except.ok.inj hb]
        intro hl'
        rw [hl] at hl'
        cases hl'
      | false =>
        by_cases hst : (nextStatus w.run_status).1 = QStatus.QS_SUCCESS
        · rw [c3 hsel hl hst] at hb
          rw [← Except.ok.inj hb]
          intro _
          have g := hi hl
          rw [hpl] at g
          simp only [runPayloads_append, runPayloads_configureCalls, List.append_nil]
          simpa [acquiredBatches, runPayloads] using g
        · rw [c4 hsel hl hst] at hb; cases hb

/-- In every state reached from `DeviceInit` the batches the shim has issued,
followed by the batch in the hand-off cell, are the batches handed over. -/
theorem exec_issued {Sample : Type} [Inhabited Sample] (cfg : Config)
    (getBufferPtr : Int → Int → Int → Nat) (init_status : QStatus)
    (run_status : List QStatus) (w0 : World Sample)
    (h0 : DeviceInit cfg getBufferPtr init_status run_status = some w0)
    (as : List (Action Sample)) (os : List (Obs Sample)) (w : World Sample)
    (h : exec w0 as = Except.ok (os, w)) :
    issuedBatches w.dev.loop_back w.calls ++ w.cellBatches = acquiredBatches os := by
  have hi := DeviceInit_ok cfg getBufferPtr init_status run_status w0 h0
  have key := exec_history_invariant
    (fun hist w => (w.Safe ∧ HandOffInv hist w) ∧ IssueInv hist w)
    (fun hist w a o w' hP hstep =>
      ⟨⟨step_Safe w w' a o hP.1.1 hstep, step_HandOffInv hist w w' a o hP.1.1 hP.1.2 hstep⟩,
        step_IssueInv hist w w' a o hP.1.1 hP.1.2 hP.2 hstep⟩)
    as [] w0 w os
    ⟨⟨DeviceInit_Safe cfg getBufferPtr init_status run_status w0 h0,
      DeviceInit_HandOffInv cfg getBufferPtr init_status run_status w0 h0⟩, by
        intro _
        unfold World.cellBatches
        rw [hi.2.2.2.2.2.2.2.2.2.2.2.1, hi.2.2.2.2.2.2.2.2.2.2.2.2.2.2.2.2.2.2.2.1]
        rfl⟩ h
  rw [List.nil_append] at key
  obtain ⟨⟨-, -, -, -, h4, -⟩, h5⟩ := key
  unfold issuedBatches
  cases hl : w.dev.loop_back with
  | true => rw [if_pos rfl]; exact (h4 hl).1
  | false => rw [if_neg (by simp)]; exact h5 hl

/-- With `shim_terminate` set, a call of `EnqueueShim` is one pass of its body,
whatever the outcome of the pass. -/
theorem EnqueueShim_one_pass {Sample : Type} (fuel : Nat) (w : World Sample) (id : Int)
    (ht : w.dev.shim_terminate = true) :
    EnqueueShim (fuel + 1) w id = EnqueueShimBody w id := by
  cases hb : EnqueueShimBody w id with
  | error e => exact EnqueueShim_of_error fuel w id e hb
  | ok w1 =>
    have hf := (EnqueueShimBody_frame w w1 id hb).2.1.2.2.2.1
    exact EnqueueShim_of_terminate fuel w w1 id hb (hf.trans ht)

/-- C21 (counterexample): on a backend that fails the first `run`, the call
`EnqueueShim(0)` made after `payloads[0] = p` ends in its first pass with the
exception `"Failed to invoke qaic"`: at the throw `payloads[0]` still holds
`p`, and the scheduler step does not return. -/
theorem failed_run_leaves_cell_full :
    DeviceInit backendConfig exampleBufferPtr QStatus.QS_SUCCESS [QStatus.QS_ERROR]
      = some failingBackendInit ∧
    exec failingBackendInit handOverActions
      = Except.ok (runOf failingBackendInit handOverActions) ∧
    (runOf failingBackendInit handOverActions).2.pc = SchedPc.shim ∧
    (runOf failingBackendInit handOverActions).2.dev.payloads = [some handedPayload] ∧
    (runOf failingBackendInit handOverActions).2.dev.shim_terminate = true ∧
    EnqueueShim 1 (runOf failingBackendInit handOverActions).2 0
      = Except.error (Fault.thrown "Failed to invoke qaic"
          { (runOf failingBackendInit handOverActions).2 with
            calls := [Call.run 0 0 handedPayload], run_status := [] }) ∧
    step (runOf failingBackendInit handOverActions).2 (Action.sched 1)
      = Except.error (Fault.thrown "Failed to invoke qaic"
          { (runOf failingBackendInit handOverActions).2 with
            calls := [Call.run 0 0 handedPayload], run_status := [] }) ∧
    ({ (runOf failingBackendInit handOverActions).2 with
        calls := [Call.run 0 0 handedPayload], run_status := [] } : World Nat).dev.payloads
      = [some handedPayload] :=
  ⟨by decide, rfl, by decide, by decide, by decide, rfl, rfl, by decide⟩

/-- C21 (amended): in the inline-shim build, in every state reached from
`DeviceInit` the batches the shim has issued, followed by the batch in the
hand-off cell, are the batches handed over, each once and in order.  In a
state in which the scheduler is about to call `EnqueueShim(0)`, the cell holds
a payload `p`, `shim_terminate` is set and the call is exactly one pass of the
shim body, for every bound on the number of passes, a single pass included.
Unless that pass fails - on `assert(false)` when `getInputSelect()` is `1`, or
on the `throw` after a failed `run`, `payloads[0]` then still holding `p` -
the call returns with `payloads[0]` null and `p` issued once more than before,
and the scheduler is back at the head of its outer loop. -/
theorem inline_shim_single_pass {Sample : Type} [Inhabited Sample] (cfg : Config)
    (getBufferPtr : Int → Int → Int → Nat) (init_status : QStatus)
    (run_status : List QStatus) (w0 : World Sample)
    (h0 : DeviceInit cfg getBufferPtr init_status run_status = some w0)
    (as : List (Action Sample)) (os : List (Obs Sample)) (w : World Sample)
    (h : exec w0 as = Except.ok (os, w)) (fuel : Nat) :
    issuedBatches w.dev.loop_back w.calls ++ w.cellBatches = acquiredBatches os ∧
    (w.pc = SchedPc.shim → ∃ p,
      w.dev.payloads = [some p] ∧ w.dev.shim_terminate = true ∧
      EnqueueShim (fuel + 1) w 0 = EnqueueShimBody w 0 ∧
      (cfg.input_select = 1 →
        EnqueueShim (fuel + 1) w 0 = Except.error (Fault.assertion w)) ∧
      (cfg.input_select ≠ 1 → cfg.loop_back = false →
        (nextStatus w.run_status).1 ≠ QStatus.QS_SUCCESS →
        ∃ w1, EnqueueShim (fuel + 1) w 0
            = Except.error (Fault.thrown "Failed to invoke qaic" w1) ∧
          w1.dev.payloads = [some p]) ∧
      (cfg.input_select ≠ 1 →
        (cfg.loop_back = false → (nextStatus w.run_status).1 = QStatus.QS_SUCCESS) →
        ∃ w1, EnqueueShim (fuel + 1) w 0 = Except.ok w1 ∧
          w1.dev.payloads = [none] ∧ w1.dev.shim_terminate = true ∧
          issuedBatches w1.dev.loop_back w1.calls
            = issuedBatches w.dev.loop_back w.calls ++ [p.samples] ∧
          step w (Action.sched (fuel + 1))
            = Except.ok (Obs.shimReturned, { w1 with pc := SchedPc.outer }))) := by
  refine ⟨exec_issued cfg getBufferPtr init_status run_status w0 h0 as os w h, ?_⟩
  intro hpc
  obtain ⟨hs, hcfg, hlb, -, p, hpl, -, -⟩ :=
    reachable_shim cfg getBufferPtr init_status run_status w0 h0 as os w h hpc
  subst hcfg
  have hterm : w.dev.shim_terminate = true := hs.2.2.2.1
  have hone := EnqueueShim_one_pass fuel w 0 hterm
  obtain ⟨inp, out, rb, -, -, -, c1, c2, c3, c4⟩ := EnqueueShimBody_cases w p hs hpl
  refine ⟨p, hpl, hterm, hone, fun hsel => hone.trans (c1 hsel), ?_, ?_⟩
  · intro hsel hl hst
    exact ⟨_, hone.trans (c4 hsel (hlb.trans hl) hst), hpl⟩
  · intro hsel hok
    cases hl : w.dev.loop_back with
    | true =>
      have hb := c2 hsel hl
      refine ⟨_, hone.trans hb, rfl, hterm, ?_, step_shim_ok fuel w _ hpc hb hterm⟩
      unfold issuedBatches
      simp only [hl, if_true, postprocessed_append, postprocessed_configureCalls,
        List.append_nil]
      rfl
    | false =>
      have hb := c3 hsel hl (hok (hlb.symm.trans hl))
      refine ⟨_, hone.trans hb, rfl, hterm, ?_, step_shim_ok fuel w _ hpc hb hterm⟩
      unfold issuedBatches
      simp only [hl, Bool.false_eq_true, if_false, runPayloads_append,
        runPayloads_configureCalls, List.append_nil, List.map_append]
      rfl

theorem inline_shim_single_pass_witness :
    exec loopbackInit handOverActions = Except.ok (runOf loopbackInit handOverActions) ∧
    (runOf loopbackInit handOverActions).2.pc = SchedPc.shim ∧
    loopbackConfig.input_select ≠ 1 ∧ loopbackConfig.loop_back = true ∧
    issuedBatches (runOf loopbackInit handOverActions).2.dev.loop_back
        (runOf loopbackInit handOverActions).2.calls
        ++ (runOf loopbackInit handOverActions).2.cellBatches
      = acquiredBatches (runOf loopbackInit handOverActions).1 ∧
    ∃ w1, EnqueueShim 1 (runOf loopbackInit handOverActions).2 0 = Except.ok w1 ∧
      w1.dev.payloads = [none] ∧
      step (runOf loopbackInit handOverActions).2 (Action.sched 1)
        = Except.ok (Obs.shimReturned, { w1 with pc := SchedPc.outer }) :=
  ⟨rfl, by decide, by decide, by decide, by
    obtain ⟨h1, h2⟩ :=
      inline_shim_single_pass loopbackConfig exampleBufferPtr QStatus.QS_SUCCESS []
        loopbackInit loopbackInit_eq handOverActions
        (runOf loopbackInit handOverActions).1 (runOf loopbackInit handOverActions).2 rfl 0
    obtain ⟨p, -, -, -, -, -, h3⟩ := h2 (by decide)
    obtain ⟨w1, g1, g2, -, -, g3⟩ := h3 (by decide) (fun e => absurd e (by decide))
    exact ⟨h1, w1, g1, g2, g3⟩⟩

/-! ### Post-processing: result sizes and the cells written -/

theorem writeRow_spec {F : Type} (buffer b : List (Option F)) (off : Nat) (row : List F)
    (h : writeRow buffer off row = some b) :
    off + 7 ≤ buffer.length ∧ 7 ≤ row.length ∧ b.length = buffer.length ∧
    (∀ idx, idx < off → b[idx]? = buffer[idx]?) ∧
    (∀ idx, off + 7 ≤ idx → b[idx]? = buffer[idx]?) ∧
    (∀ k, k < 7 → b[off + k]? = (row[k]?).map some) := by
  unfold writeRow at h
  by_cases hc : 7 ≤ row.length ∧ off + 7 ≤ buffer.length
  · rw [if_pos hc] at h
    simp only [Option.some.injEq] at h
    subst h
    obtain ⟨hr, hb⟩ := hc
    have l1 : (List.take off buffer).length = off := by
      rw [List.length_take]; omega
    have l2 : (List.map some (List.take 7 row)).length = 7 := by
      rw [List.length_map, List.length_take]; omega
    refine ⟨hb, hr, ?_, ?_, ?_, ?_⟩
    · simp only [List.length_append, l1, l2, List.length_drop]
      omega
    · intro idx hidx
      rw [List.append_assoc, List.getElem?_append_left (by rw [l1]; exact hidx),
        List.getElem?_take_of_lt hidx]
    · intro idx hidx
      rw [List.getElem?_append_right (by simp only [List.length_append, l1, l2]; omega)]
      simp only [List.length_append, l1, l2, List.getElem?_drop]
      congr 1
      omega
    · intro k hk
      rw [List.append_assoc, List.getElem?_append_right (by rw [l1]; omega), l1,
        List.getElem?_append_left (by rw [l2]; omega)]
      simp only [Nat.add_sub_cancel_left, List.getElem?_map, List.getElem?_take_of_lt hk]
  · rw [if_neg hc] at h
    cases h

theorem copyRows_spec {F : Type} (nms_res : List (List F)) :
    ∀ (n j : Nat) (buffer b : List (Option F)), copyRows nms_res n j buffer = some b →
      b.length = buffer.length ∧
      (∀ idx, idx < 7 * j → b[idx]? = buffer[idx]?) ∧
      (∀ idx, 7 * (j + n) ≤ idx → b[idx]? = buffer[idx]?) ∧
      ∀ r, j ≤ r → r < j + n →
        7 * r + 7 ≤ buffer.length ∧
        ∃ row, nms_res[r]? = some row ∧ 7 ≤ row.length ∧
          ∀ k, k < 7 → b[7 * r + k]? = (row[k]?).map some := by
  intro n
  induction n with
  | zero =>
    intro j buffer b h
    simp only [copyRows, Option.some.injEq] at h
    subst h
    exact ⟨rfl, fun _ _ => rfl, fun _ _ => rfl, fun r h1 h2 => by omega⟩
  | succ n ih =>
    intro j buffer b h
    unfold copyRows at h
    cases hrow : nms_res[j]? with
    | none => rw [hrow] at h; cases h
    | some row =>
      rw [hrow] at h
      simp only at h
      cases hw : writeRow buffer (7 * j) row with
      | none => rw [hw] at h; cases h
      | some b1 =>
        rw [hw] at h
        simp only at h
        obtain ⟨w1, w2, w3, w4, w5, w6⟩ := writeRow_spec buffer b1 (7 * j) row hw
        obtain ⟨i1, i2, i3, i4⟩ := ih (j + 1) b1 b h
        refine ⟨i1.trans w3, ?_, ?_, ?_⟩
        · intro idx hidx
          rw [i2 idx (by omega), w4 idx hidx]
        · intro idx hidx
          rw [i3 idx (by omega), w5 idx (by omega)]
        · intro r hr1 hr2
          by_cases hrj : r = j
          · subst hrj
            refine ⟨w1, row, hrow, w2, ?_⟩
            intro k hk
            rw [i2 (7 * r + k) (by omega), w6 k hk]
          · obtain ⟨g1, row', g2, g3, g4⟩ := i4 r (by omega) (by omega)
            exact ⟨by omega, row', g2, g3, g4⟩

theorem fillResult_spec {F : Type} (cfg : DetectionConfig) (toFloat : Int → F)
    (anchorBoxProcessing : Nat → F → List (List F) → List (List F))
    (i : Nat) (s : DetectionSample) (nms0 nms1 : List (List F)) (rd0 rd1 : ResultData F)
    (hmax : 0 ≤ cfg.max_detections) (hint : cfg.max_detections < 2 ^ 31)
    (h : fillResult cfg toFloat anchorBoxProcessing i s nms0 rd0 = some (nms1, rd1)) :
    rd1.buffer.length = rd0.buffer.length ∧
    (cfg.disable_nms = true →
      rd1.size = 7 ∧ 0 < rd0.buffer.length ∧
      rd1.buffer[0]? = some (some (toFloat s.index)) ∧
      ∀ idx, 1 ≤ idx → rd1.buffer[idx]? = rd0.buffer[idx]?) ∧
    (cfg.disable_nms = false →
      nms1 = anchorBoxProcessing i (toFloat s.index) nms0 ∧
      rd1.size = 7 * min (nms1.length : Int) (cfg.max_detections + 1) ∧
      (∀ idx, rd1.size.toNat ≤ idx → rd1.buffer[idx]? = rd0.buffer[idx]?) ∧
      ∀ (r k : Nat), (r : Int) < min (nms1.length : Int) (cfg.max_detections + 1) → k < 7 →
        7 * r + k < rd0.buffer.length ∧
        ∃ row, nms1[r]? = some row ∧ 7 ≤ row.length ∧
          rd1.buffer[7 * r + k]? = (row[k]?).map some) := by
  unfold fillResult at h
  cases hd : cfg.disable_nms with
  | true =>
    rw [hd] at h
    simp only [if_true] at h
    by_cases hpos : 0 < rd0.buffer.length
    · rw [if_pos hpos] at h
      simp only [Option.some.injEq, Prod.mk.injEq] at h
      obtain ⟨-, h2⟩ := h
      subst h2
      refine ⟨by simp, fun _ => ⟨rfl, hpos, ?_, ?_⟩, fun e => by cases e⟩
      · simp only [List.getElem?_set, if_true]
        rw [if_pos hpos]
      · intro idx hidx
        exact List.getElem?_set_ne (by omega)
    · rw [if_neg hpos] at h
      cases h
  | false =>
    rw [hd] at h
    simp only [Bool.false_eq_true, if_false, Option.map_eq_some', Prod.mk.injEq] at h
    obtain ⟨b, hc, h1, h2⟩ := h
    subst h2
    have hne := numElems_eq cfg (anchorBoxProcessing i (toFloat s.index) nms0).length
      hmax hint
    obtain ⟨g1, -, g3, g4⟩ := copyRows_spec _ _ 0 rd0.buffer b hc
    rw [← h1]
    refine ⟨g1, (fun e => by cases e), fun _ => ⟨rfl, ?_, ?_, ?_⟩⟩
    · simp only
      rw [hne]
      ring
    · intro idx hidx
      simp only at hidx
      apply g3
      rw [hne] at hidx ⊢
      omega
    · intro r k hr hk
      obtain ⟨q1, row, q2, q3, q4⟩ := g4 r (Nat.zero_le _) (by rw [hne]; omega)
      exact ⟨by omega, row, q2, q3, q4 k hk⟩

theorem postprocessLoop_fill {F : Type} (cfg : DetectionConfig) (toFloat : Int → F)
    (anchorBoxProcessing : Nat → F → List (List F) → List (List F)) :
    ∀ (samples : List DetectionSample) (i : Nat) (wbs wbs1 : WorkingBuffers F)
      (calls : List (CallbackCall F)),
      postprocessLoop cfg toFloat anchorBoxProcessing i samples wbs = some (calls, wbs1) →
      ∀ k s, samples[k]? = some s → ∃ nms0 rd0 nms1 rd1,
        wbs.nms_results[i + k]? = some nms0 ∧
        wbs.reformatted_results[i + k]? = some rd0 ∧
        fillResult cfg toFloat anchorBoxProcessing (i + k) s nms0 rd0 = some (nms1, rd1) ∧
        calls[k]? = some { callback := s.callback, sample := s, size := rd1.size,
                           result := i + k, data := rd1.buffer } := by
  intro samples
  induction samples with
  | nil => intro i wbs wbs1 calls _ k s hk; simp at hk
  | cons s0 rest ih =>
    intro i wbs wbs1 calls h k s hk
    unfold postprocessLoop at h
    cases ha : wbs.nms_results[i]? with
    | none => rw [ha] at h; cases h
    | some nms0 =>
      cases hb : wbs.reformatted_results[i]? with
      | none => rw [ha, hb] at h; cases h
      | some rd0 =>
        rw [ha, hb] at h
        simp only at h
        cases hf : fillResult cfg toFloat anchorBoxProcessing i s0 nms0 rd0 with
        | none => rw [hf] at h; cases h
        | some r =>
          obtain ⟨nms1, rd1⟩ := r
          rw [hf] at h
          simp only at h
          cases hl : postprocessLoop cfg toFloat anchorBoxProcessing (i + 1) rest
              { nms_results := wbs.nms_results.set i nms1
                reformatted_results := wbs.reformatted_results.set i rd1 } with
          | none => rw [hl] at h; cases h
          | some r2 =>
            obtain ⟨calls2, wbs2⟩ := r2
            rw [hl] at h
            simp only [Option.some.injEq, Prod.mk.injEq] at h
            obtain ⟨h1, -⟩ := h
            subst h1
            cases k with
            | zero =>
              simp only [List.getElem?_cons_zero, Option.some.injEq] at hk
              subst hk
              exact ⟨nms0, rd0, nms1, rd1, ha, hb, hf, List.getElem?_cons_zero⟩
            | succ k =>
              simp only [List.getElem?_cons_succ] at hk
              obtain ⟨n0, r0, n1, r1, e1, e2, e3, e4⟩ := ih (i + 1) _ wbs2 calls2 hl k s hk
              simp only at e1 e2
              rw [List.getElem?_set_ne (by omega)] at e1 e2
              have e : i + (k + 1) = i + 1 + k := by omega
              refine ⟨n0, r0, n1, r1, ?_, ?_, ?_, ?_⟩
              · rw [e]; exact e1
              · rw [e]; exact e2
              · rw [e]; exact e3
              · rw [e, List.getElem?_cons_succ]; exact e4

/-- C22: for `0 ≤ max_detections` (with `(max_detections + 1) * 7` in the
range of `int`), a batch that fits the model batch size, working buffers as
the constructor builds them and NMS rows of at least seven values,
`postprocessResults` returns, and for every sample the size passed to the
callback is `7` when NMS is disabled and `7 * min(rows, max_detections + 1)`
otherwise, `rows` being the number of rows NMS reports for the sample.  The
size is a multiple of `7`, not negative and at most `7 * (max_detections + 1)`,
the length of the `ResultData` array.  Every write is inside the array: without
NMS only cell `0` is written (the sample index); with NMS the cells
`7 * r + k`, `k < 7`, of the rows `r < min(rows, max_detections + 1)` receive
the values of row `r`, all of them below the length; every cell at or beyond
`size` keeps the value it had before the call. -/
theorem result_size_within_capacity {F : Type} (cfg : DetectionConfig) (toFloat : Int → F)
    (anchorBoxProcessing : Nat → F → List (List F) → List (List F))
    (working_buffers_list : List (WorkingBuffers F)) (samples : List DetectionSample)
    (hwf : ∀ wbs ∈ working_buffers_list, wbs.WF cfg)
    (hn : (samples.length : Int) ≤ cfg.batch_size)
    (hmax : 0 ≤ cfg.max_detections) (hcap : (cfg.max_detections + 1) * 7 < 2 ^ 31)
    (hrows : ∀ i x, ∀ row ∈ anchorBoxProcessing i x [], 7 ≤ row.length) :
    ∃ (wbs : WorkingBuffers F) (l : List (WorkingBuffers F)) (calls : List (CallbackCall F))
        (l1 : List (WorkingBuffers F)),
      popWorkingBuffers cfg working_buffers_list = some (wbs, l) ∧
      postprocessResults cfg toFloat anchorBoxProcessing working_buffers_list samples
        = some (calls, l1) ∧
      calls.length = samples.length ∧
      ∀ i s, samples[i]? = some s → ∃ c rd0, calls[i]? = some c ∧ c.sample = s ∧
        wbs.reformatted_results[i]? = some rd0 ∧
        rd0.buffer.length = ((cfg.max_detections + 1) * 7).toNat ∧
        c.data.length = ((cfg.max_detections + 1) * 7).toNat ∧
        (cfg.disable_nms = true →
          c.size = 7 ∧ c.data[0]? = some (some (toFloat s.index)) ∧
          ∀ idx, 1 ≤ idx → c.data[idx]? = rd0.buffer[idx]?) ∧
        (cfg.disable_nms = false →
          c.size = 7 * min ((anchorBoxProcessing i (toFloat s.index) []).length : Int)
            (cfg.max_detections + 1) ∧
          ∀ (r k : Nat),
            (r : Int) < min ((anchorBoxProcessing i (toFloat s.index) []).length : Int)
              (cfg.max_detections + 1) →
            k < 7 →
            7 * r + k < ((cfg.max_detections + 1) * 7).toNat ∧
            ∃ row, (anchorBoxProcessing i (toFloat s.index) [])[r]? = some row ∧
              7 ≤ row.length ∧ c.data[7 * r + k]? = (row[k]?).map some) ∧
        7 ∣ c.size ∧ 0 ≤ c.size ∧ c.size ≤ 7 * (cfg.max_detections + 1) ∧
        ∀ idx, c.size.toNat ≤ idx → c.data[idx]? = rd0.buffer[idx]? := by
  have hint : cfg.max_detections < 2 ^ 31 := by omega
  obtain ⟨wbs, l, hpop, ⟨w1, w2, w3⟩, -⟩ :=
    popWorkingBuffers_ok cfg working_buffers_list hwf hmax hcap
  obtain ⟨calls, wbs1, hloop, -, -, -, -, g5, -⟩ :=
    postprocessLoop_ok cfg toFloat anchorBoxProcessing hmax hint hrows samples 0 wbs
      (by rw [w1, List.length_replicate])
      (by
        intro m _ hm
        rw [w1, List.getElem?_replicate, if_pos hm])
      w2 w3 (by omega)
  refine ⟨wbs, l, calls, pushWorkingBuffers wbs1 l, hpop, ?_, g5, ?_⟩
  · unfold postprocessResults
    rw [hpop]
    simp only
    rw [hloop]
  · intro i s hs
    obtain ⟨nms0, rd0, nms1, rd1, e1, e2, e3, e4⟩ :=
      postprocessLoop_fill cfg toFloat anchorBoxProcessing samples 0 wbs wbs1 calls hloop i s hs
    rw [Nat.zero_add] at e1 e2 e3 e4
    have hnms : nms0 = [] := by
      rw [w1] at e1
      exact List.eq_of_mem_replicate (List.getElem?_mem e1)
    subst hnms
    have hlen0 := w3 rd0 (List.getElem?_mem e2)
    obtain ⟨f1, f2, f3⟩ :=
      fillResult_spec cfg toFloat anchorBoxProcessing i s [] nms1 rd0 rd1 hmax hint e3
    have hsz : 7 ∣ rd1.size ∧ 0 ≤ rd1.size ∧ rd1.size ≤ 7 * (cfg.max_detections + 1) := by
      cases hd : cfg.disable_nms with
      | true => rw [(f2 hd).1]; exact ⟨dvd_refl 7, by omega, by omega⟩
      | false => rw [(f3 hd).2.1]; exact ⟨Dvd.intro _ rfl, by omega, by omega⟩
    refine ⟨_, rd0, e4, rfl, e2, hlen0, f1.trans hlen0, ?_, ?_, hsz.1, hsz.2.1, hsz.2.2, ?_⟩
    · intro hd
      obtain ⟨a1, -, a3, a4⟩ := f2 hd
      exact ⟨a1, a3, a4⟩
    · intro hd
      obtain ⟨b1, b2, -, b4⟩ := f3 hd
      subst b1
      refine ⟨b2, ?_⟩
      intro r k hr hk
      obtain ⟨q1, row, q2, q3, q4⟩ := b4 r k hr hk
      exact ⟨by rw [← hlen0]; exact q1, row, q2, q3, q4⟩
    · intro idx hidx
      have hidx' : rd1.size.toNat ≤ idx := hidx
      cases hd : cfg.disable_nms with
      | true =>
        obtain ⟨a1, -, -, a4⟩ := f2 hd
        rw [a1] at hidx'
        exact a4 idx (by omega)
      | false => exact (f3 hd).2.2.1 idx hidx'

theorem result_size_within_capacity_witness :
    (exampleSamples.length : Int) ≤ exampleDetection.batch_size ∧
    0 ≤ exampleDetection.max_detections ∧
    (exampleDetection.max_detections + 1) * 7 < 2 ^ 31 ∧
    (postprocessResults exampleDetection id exampleNms [] exampleSamples).map
        (fun r => r.1.map fun c => (c.size, c.data.length))
      = some [((14 : Int), (14 : Nat)), (14, 14)] ∧
    ∃ (calls : List (CallbackCall Int)) (l1 : List (WorkingBuffers Int)),
      postprocessResults exampleDetection id exampleNms [] exampleSamples = some (calls, l1) ∧
      ∃ c, calls[0]? = some c ∧ 7 ∣ c.size ∧
        c.size ≤ 7 * (exampleDetection.max_detections + 1) ∧
        c.data.length = ((exampleDetection.max_detections + 1) * 7).toNat :=
  ⟨by decide, by decide, by decide, rfl, by
    obtain ⟨wbs, l, calls, l1, -, h2, -, h4⟩ :=
      result_size_within_capacity exampleDetection id exampleNms [] exampleSamples
        (fun _ h => by cases h) (by decide) (by decide) (by decide)
        (by
          intro i x row hrow
          simp only [exampleNms, List.nil_append, List.mem_cons, List.mem_singleton,
            List.not_mem_nil, or_false] at hrow
          rcases hrow with h | h | h <;> rw [h] <;> exact le_refl 7)
    obtain ⟨c, rd0, c1, -, -, -, c2, -, -, c3, -, c4, -⟩ :=
      h4 0 { index := 3, buf_addr := 0, buf := [], callback := 10 } rfl
    exact ⟨calls, l1, h2, c, c1, c3, c4, c2⟩⟩

/-- The counters of every state reached from `DeviceInit` are `int` values:
`0 ≤ sfront ≤ sback < 2^31`. -/
theorem exec_counters_in_range {Sample : Type} [Inhabited Sample] (cfg : Config)
    (getBufferPtr : Int → Int → Int → Nat) (init_status : QStatus)
    (run_status : List QStatus) (w0 : World Sample)
    (h0 : DeviceInit cfg getBufferPtr init_status run_status = some w0)
    (as : List (Action Sample)) (os : List (Obs Sample)) (w : World Sample)
    (h : exec w0 as = Except.ok (os, w)) :
    0 ≤ w.dev.sfront ∧ w.dev.sfront ≤ w.dev.sback ∧ w.dev.sback < 2147483648 := by
  have hi := DeviceInit_ok cfg getBufferPtr init_status run_status w0 h0
  have hinv : w.dev.QueueInv ∧ w.dev.sback < 2147483648 := by
    refine exec_invariant (fun w => w.dev.QueueInv ∧ w.dev.sback < 2147483648) ?_ as w0 w os
      ⟨DeviceInit_QueueInv cfg getBufferPtr init_status run_status w0 h0, ?_⟩ h
    · intro w a o w' hP hs
      refine ⟨step_QueueInv w w' a o hP.1 hs, ?_⟩
      rcases step_queue_cases w w' a o hs with ⟨b, r, -, hi, -⟩ | ⟨i, b, -, hne, -, -, hw⟩ |
        ⟨⟨h1, h2, h3, h4⟩, -, -⟩
      · rcases Inference_ok_cases _ _ b r hP.1.1 hi with ⟨-, e⟩ | ⟨-, -, hb, e⟩
        · rw [e]; exact hP.2
        · rw [e]; exact hb
      · rw [hw]; exact hP.2
      · have := hP.2
        omega
    · rw [hi.2.2.2.2.2.2.2.2.2.1]
      decide
  obtain ⟨⟨⟨-, hf, hfb⟩, -⟩, hb⟩ := hinv
  exact ⟨hf, hfb, hb⟩

/-- Where the sum `sfront + samples_queue_depth` leaves the range of `int`:
the queue of `wornDevice` is empty and well formed, and `Inference` rejects. -/
theorem Inference_rejects_at_int_max :
    wornDevice.QueueWF ∧ wornDevice.sback - wornDevice.sfront = 0 ∧
    wornDevice.samples_queue_depth = 2 ∧
    wornDevice.Inference [9] = some (-1, wornDevice) :=
  ⟨⟨by decide, by decide, by decide⟩, by decide, by decide,
    Inference_of_wrapped wornDevice [9] (by decide)⟩

end Kilt
